import Mathlib

/-!
# Quizine: quiz session state machine and persistence adapters

A shallow embedding of `internal/quiz/question.go`, `internal/quiz/quiz.go`,
`internal/db/questions.go` and `internal/db/quizzes.go`.

Modelling conventions
* Go `int`, `int64`, `time.Duration` and clock readings are integers (`Int`); durations
  and clock readings count nanoseconds. Go arithmetic on `int` and `int64` is 64-bit and
  wraps: where the source adds to or multiplies a stored value with no guard bounding the
  result (`score`, `correctCount`, the reloaded time limits) the result goes through
  `wrap64`.
* Every call of `time.Now()` / `time.Since` in the source becomes an explicit clock
  reading passed to the function, in the order the source takes them.
* A run-time panic of the Go program (slice index out of range) is the `error` branch
  of `Go`.
* The `Questioner` interface is the closed sum of its three implementations; a `nil`
  interface value only occurs as the "no question" result of `CurrentQuestion`.
-/

namespace Quizine

/-! ## Go run-time scaffolding -/

/-- Run-time panics of the Go program. -/
inductive GoPanic where
  | indexOutOfRange
deriving DecidableEq, Repr

deriving instance DecidableEq for Except

/-- A Go computation that either returns normally or panics. -/
abbrev Go (α : Type) := Except GoPanic α

/-- Slice indexing `xs[i]` with a Go `int` index: panics outside `0 ≤ i < len(xs)`. -/
def sliceIndex {α : Type} (xs : List α) (i : Int) : Go α :=
  if i < 0 then .error .indexOutOfRange
  else
    match xs[i.toNat]? with
    | some x => .ok x
    | none => .error .indexOutOfRange

/-- The type `time.Duration`: a signed count of nanoseconds. -/
abbrev Duration := Int

/-- A clock reading (`time.Time`), as nanoseconds on one time line. -/
abbrev Time := Int

/-- The constant `time.Millisecond`. -/
def Millisecond : Duration := 1000000

/-- The constant `time.Second`. -/
def Second : Duration := 1000000000

/-- The method `Duration.Milliseconds`: integer division truncating toward zero. -/
def Duration.Milliseconds (d : Duration) : Int := Int.tdiv d 1000000

/-- The function `time.Since(t)`, with the clock reading made explicit. -/
def Since (now t : Time) : Duration := now - t

/-- The largest value of a Go `int` (64 bits). -/
def maxInt64 : Int := 9223372036854775807

/-- The value is one a Go `int` / `int64` can hold. -/
def isInt64 (x : Int) : Prop := -9223372036854775808 ≤ x ∧ x < 9223372036854775808

instance (x : Int) : Decidable (isInt64 x) := by
  unfold isInt64
  infer_instance

/-- The result of 64-bit two's-complement arithmetic: the value reduced modulo `2^64` into
the range of a Go `int`. -/
def wrap64 (x : Int) : Int :=
  (x + 9223372036854775808) % 18446744073709551616 - 9223372036854775808

/-! ## internal/quiz/question.go -/

structure MultiChoice where
  Id : String
  Prompt : String
  Options : List String
  Difficulty : Int
  Answer : String
  Hint : String
  TimeLimit : Duration
deriving DecidableEq, Repr

def MultiChoice.GetPrompt (mc : MultiChoice) : String := mc.Prompt

def MultiChoice.GetID (mc : MultiChoice) : String := mc.Id

def MultiChoice.CheckAnswer (mc : MultiChoice) (answer : String) : Bool :=
  answer == mc.Answer

def MultiChoice.GetDifficulty (mc : MultiChoice) : Int := mc.Difficulty

def MultiChoice.GetTimeLimit (mc : MultiChoice) : Duration := mc.TimeLimit

structure TrueFalse where
  Id : String
  Prompt : String
  Difficulty : Int
  Answer : Bool
  Hint : String
  TimeLimit : Duration
deriving DecidableEq, Repr

def TrueFalse.GetPrompt (tf : TrueFalse) : String := tf.Prompt

def TrueFalse.GetID (tf : TrueFalse) : String := tf.Id

/-- The receiver is not consulted by the source: `return answer == "true"`. -/
def TrueFalse.CheckAnswer (_tf : TrueFalse) (answer : String) : Bool :=
  answer == "true"

def TrueFalse.GetDifficulty (tf : TrueFalse) : Int := tf.Difficulty

def TrueFalse.GetTimeLimit (tf : TrueFalse) : Duration := tf.TimeLimit

structure FillIn where
  Id : String
  Prompt : String
  Difficulty : Int
  Answer : String
  Hint : String
  TimeLimit : Duration
deriving DecidableEq, Repr

def FillIn.GetPrompt (fi : FillIn) : String := fi.Prompt

def FillIn.GetID (fi : FillIn) : String := fi.Id

def FillIn.CheckAnswer (fi : FillIn) (answer : String) : Bool :=
  answer == fi.Answer

def FillIn.GetDifficulty (fi : FillIn) : Int := fi.Difficulty

def FillIn.GetTimeLimit (fi : FillIn) : Duration := fi.TimeLimit

/-- The interface `Questioner`, as the sum of the three types implementing it. -/
inductive Questioner where
  | multiChoice (mc : MultiChoice)
  | trueFalse (tf : TrueFalse)
  | fillIn (fi : FillIn)
deriving DecidableEq, Repr

def Questioner.GetID : Questioner → String
  | .multiChoice mc => mc.GetID
  | .trueFalse tf => tf.GetID
  | .fillIn fi => fi.GetID

def Questioner.GetPrompt : Questioner → String
  | .multiChoice mc => mc.GetPrompt
  | .trueFalse tf => tf.GetPrompt
  | .fillIn fi => fi.GetPrompt

def Questioner.GetDifficulty : Questioner → Int
  | .multiChoice mc => mc.GetDifficulty
  | .trueFalse tf => tf.GetDifficulty
  | .fillIn fi => fi.GetDifficulty

def Questioner.GetTimeLimit : Questioner → Duration
  | .multiChoice mc => mc.GetTimeLimit
  | .trueFalse tf => tf.GetTimeLimit
  | .fillIn fi => fi.GetTimeLimit

def Questioner.CheckAnswer : Questioner → String → Bool
  | .multiChoice mc, answer => mc.CheckAnswer answer
  | .trueFalse tf, answer => tf.CheckAnswer answer
  | .fillIn fi, answer => fi.CheckAnswer answer

/-! ## internal/quiz/quiz.go -/

/-- The type `QuizStatus` is a Go string type. -/
abbrev QuizStatus := String

def STARTED : QuizStatus := "STARTED"

def AWAITING_ANSWER : QuizStatus := "AWAITING_ANSWER"

def ANSWERED : QuizStatus := "ANSWERED"

def FINISHED : QuizStatus := "FINISHED"

structure QuestionResult where
  QuestionID : String
  Correct : Bool
  TimeTaken : Duration
deriving DecidableEq, Repr

/-- The struct `Quiz` of `quiz.go`, with one field more. Modelled from the spec: the field
`Id`, the session identifier, is absent from `quiz.go`; the tests and
`internal/db/quizzes.go` read it (`quiz.Id`) and set it through `NewQuiz(id, questions)`. -/
structure Quiz where
  Id : String
  questions : List Questioner
  currentIndex : Int
  score : Int
  completed : Bool
  status : QuizStatus
  startTime : Time
  creationDate : Time
  timeTaken : Duration
  correctCount : Int
  questionHistory : List QuestionResult
deriving DecidableEq, Repr

/-- The constructor `NewQuiz`; `now1` and `now2` are its two `time.Now()` readings. The
parameter `id`, which the constructor of `quiz.go` lacks, is the one its callers in the
tests and in `internal/db/quizzes.go` pass; it is stored in `Id`. -/
def NewQuiz (id : String) (questions : List Questioner) (now1 now2 : Time) : Quiz :=
  { Id := id
    questions := questions
    currentIndex := 0
    score := 0
    completed := false
    status := STARTED
    startTime := now1
    creationDate := now2
    timeTaken := 0
    correctCount := 0
    questionHistory := [] }

def Quiz.AmountOfQuestions (q : Quiz) : Int := q.questions.length

/-- The method `CurrentQuestion`; `none` is the `nil` interface value. -/
def Quiz.CurrentQuestion (q : Quiz) : Go (Option Questioner) :=
  if q.currentIndex ≥ (q.questions.length : Int) then .ok none
  else
    match sliceIndex q.questions q.currentIndex with
    | .ok x => .ok (some x)
    | .error e => .error e

/-- The method `NextQuestion`; `now` is the clock reading of `time.Since`. -/
def Quiz.NextQuestion (q : Quiz) (now : Time) : Bool × Quiz :=
  if q.currentIndex ≥ (q.questions.length : Int) - 1 then
    (false, { q with completed := true, status := FINISHED, timeTaken := Since now q.startTime })
  else
    (true, { q with currentIndex := q.currentIndex + 1, status := AWAITING_ANSWER })

/-- The method `SubmitAnswer`; `t0` is the reading of `time.Now()` before the check and
`t1` the reading `time.Since` takes after it. -/
def Quiz.SubmitAnswer (q : Quiz) (answer : String) (t0 t1 : Time) : Go (Bool × Quiz) :=
  if q.completed || decide (q.currentIndex ≥ (q.questions.length : Int)) then .ok (false, q)
  else
    match q.CurrentQuestion with
    | .error e => .error e
    | .ok none => .ok (false, q)
    | .ok (some current) =>
      let startTime := t0
      let isCorrect := current.CheckAnswer answer
      let timeTaken := Since t1 startTime
      let q1 : Quiz :=
        { q with questionHistory := q.questionHistory ++
            [{ QuestionID := current.GetID, Correct := isCorrect, TimeTaken := timeTaken }] }
      let q2 : Quiz :=
        if isCorrect then
          { q1 with
            score := wrap64 (q1.score + current.GetDifficulty)
            correctCount := wrap64 (q1.correctCount + 1) }
        else q1
      .ok (isCorrect, { q2 with status := ANSWERED })

def Quiz.TotalPoints (q : Quiz) : Int := q.score

def Quiz.IsCompleted (q : Quiz) : Bool := q.completed

def Quiz.Progress (q : Quiz) : Int × Int := (q.currentIndex + 1, q.questions.length)

def Quiz.GetStatus (q : Quiz) : QuizStatus := q.status

/-- The method `GetTimeTaken`; `now` is the clock reading of `time.Since`. -/
def Quiz.GetTimeTaken (q : Quiz) (now : Time) : Duration :=
  if q.completed then q.timeTaken else Since now q.startTime

def Quiz.GetCreationDate (q : Quiz) : Time := q.creationDate

def Quiz.GetCorrectCount (q : Quiz) : Int := q.correctCount

def Quiz.GetQuestionHistory (q : Quiz) : List QuestionResult := q.questionHistory

/-- The session an accepted submission leaves behind, field by field, as a function of the
current question; compared with the method in `submitAnswer_in_range`. -/
def Quiz.afterSubmit (q : Quiz) (cur : Questioner) (s : String) (t0 t1 : Time) : Quiz :=
  { q with
    questionHistory := q.questionHistory ++
      [{ QuestionID := cur.GetID, Correct := cur.CheckAnswer s, TimeTaken := t1 - t0 }]
    score := if cur.CheckAnswer s then wrap64 (q.score + cur.GetDifficulty) else q.score
    correctCount := if cur.CheckAnswer s then wrap64 (q.correctCount + 1) else q.correctCount
    status := ANSWERED }

/-! ### Fixtures of the test files -/

/-- The multiple-choice question `mc1` of `createTestQuestions`. -/
def mc1 : MultiChoice :=
  { Id := "mc1"
    Prompt := "What is 2+2?"
    Options := ["3", "4", "5", "6"]
    Difficulty := 1
    Answer := "4"
    Hint := ""
    TimeLimit := 30 * Second }

/-- The true/false question `tf1` of `createTestQuestions`. -/
def tf1 : TrueFalse :=
  { Id := "tf1"
    Prompt := "The sky is blue"
    Difficulty := 2
    Answer := true
    Hint := ""
    TimeLimit := 15 * Second }

/-- The fill-in question `fi1` of `createTestQuestions`. -/
def fi1 : FillIn :=
  { Id := "fi1"
    Prompt := "The capital of France is ___"
    Difficulty := 3
    Answer := "Paris"
    Hint := ""
    TimeLimit := 45 * Second }

/-- The list `createTestQuestions()`. -/
def createTestQuestions : List Questioner :=
  [.multiChoice mc1, .trueFalse tf1, .fillIn fi1]

/-- A true/false question whose canonical answer is false. -/
def tfFalse : TrueFalse :=
  { Id := "tf2"
    Prompt := "The sky is green"
    Difficulty := 2
    Answer := false
    Hint := ""
    TimeLimit := 15 * Second }

/-- The fresh session of the tests, built at clock reading 0. -/
def testQuiz : Quiz := NewQuiz "quiz1" createTestQuestions 0 0

/-- The session of the tests with `completed` set, as `TestSubmitAnswer` does. -/
def completedQuiz : Quiz := { testQuiz with completed := true }

/-- The session of the tests standing at its last index, started at clock reading 100. -/
def lastIndexQuiz : Quiz := { NewQuiz "quiz1" createTestQuestions 100 100 with currentIndex := 2 }

/-! ### Call sequences -/

/-- One call of a mutating method, with the clock readings it takes. -/
inductive Call where
  | next (now : Time)
  | submit (answer : String) (t0 t1 : Time)
deriving DecidableEq, Repr

/-- The quiz after one call. -/
def Quiz.step (q : Quiz) : Call → Go Quiz
  | .next now => .ok (q.NextQuestion now).2
  | .submit answer t0 t1 =>
    match q.SubmitAnswer answer t0 t1 with
    | .ok r => .ok r.2
    | .error e => .error e

/-- The quiz after a sequence of calls, first call first. -/
def Quiz.run (q : Quiz) : List Call → Go Quiz
  | [] => .ok q
  | c :: cs =>
    match q.step c with
    | .ok q1 => q1.run cs
    | .error e => .error e

/-- The quiz after one `NextQuestion` call per clock reading in the list. -/
def Quiz.nextAll (q : Quiz) : List Time → Quiz
  | [] => q
  | t :: ts => (q.NextQuestion t).2.nextAll ts

/-- Modelled from the spec: the accessor `GetCurrentIndex` that `internal/db/quizzes.go`
calls is absent from `quiz.go`; it reads the `currentIndex` field of the session. -/
def Quiz.GetCurrentIndex (q : Quiz) : Int := q.currentIndex

/-- Modelled from the spec: the accessor `GetScore` that `internal/db/quizzes.go` calls is
absent from `quiz.go`; it reads the `score` field of the session. -/
def Quiz.GetScore (q : Quiz) : Int := q.score

/-- Modelled from the spec: the accessor `GetStartTime` that `internal/db/quizzes.go`
calls is absent from `quiz.go`; it reads the `startTime` field of the session. -/
def Quiz.GetStartTime (q : Quiz) : Time := q.startTime

/-- Modelled from the spec: the accessor `GetQuestions` that `internal/db/quizzes.go`
calls is absent from `quiz.go`; it reads the ordered question list of the session. -/
def Quiz.GetQuestions (q : Quiz) : List Questioner := q.questions

/-! ## External collaborators of the persistence adapters

`encoding/json` is a parameter of the adapters. The SQL engine (SQLite) is modelled by the
four tables as lists of rows: an upsert keeps the position of the row it overwrites, a
primary-key conflict makes a plain `INSERT` fail, foreign keys are not enforced, the
columns declared without `NOT NULL` (`hint`, `options`) may hold NULL, every other column
holds a value of its declared type, and a `SELECT` on a
child table filtered by `quiz_id`, which has no `ORDER BY`, is answered from the
primary-key index `(quiz_id, question_id)` and so returns its rows by ascending
`question_id`. The `created_at` columns, read only by the two list operations, are left
out. -/

/-- The two `encoding/json` functions the question adapter applies to `[]string`. -/
structure JSONCodec where
  marshal : List String → String
  unmarshal : String → Option (List String)

/-- A row of table `questions`; `none` in the nullable columns `hint` and `options` is
NULL. -/
structure QuestionRow where
  id : String
  type : String
  prompt : String
  difficulty : Int
  answer : String
  hint : Option String
  time_limit : Int
  options : Option String
deriving DecidableEq, Repr

/-- A row of table `quizzes`. -/
structure QuizRow where
  id : String
  status : String
  current_index : Int
  score : Int
  completed : Bool
  start_time : Time
  creation_date : Time
  time_taken : Int
  correct_count : Int
deriving DecidableEq, Repr

/-- A row of table `quiz_questions`. -/
structure QuizQuestionRow where
  quiz_id : String
  question_id : String
deriving DecidableEq, Repr

/-- A row of table `quiz_history`. -/
structure QuizHistoryRow where
  quiz_id : String
  question_id : String
  correct : Bool
  time_taken : Int
deriving DecidableEq, Repr

/-- The database file shared by the two stores. -/
structure DB where
  questions : List QuestionRow
  quizzes : List QuizRow
  quiz_questions : List QuizQuestionRow
  quiz_history : List QuizHistoryRow
deriving DecidableEq, Repr

/-- The failures the adapters return. `notFound` is `sql.ErrNoRows` and `scanFailed` a
NULL column scanned into a Go `string`; `GetQuestion` returns both as "failed to get
question". -/
inductive StoreError where
  | notFound
  | corrupt
  | unknownVariant
  | constraintViolation
  | scanFailed
deriving DecidableEq, Repr

/-! ## internal/db/questions.go -/

def getAnswerString : Questioner → String
  | .multiChoice q => q.Answer
  | .trueFalse q => if q.Answer then "true" else "false"
  | .fillIn q => q.Answer

def getHint : Questioner → String
  | .multiChoice q => q.Hint
  | .trueFalse q => q.Hint
  | .fillIn q => q.Hint

/-- The statement `INSERT INTO questions ... ON CONFLICT(id) DO UPDATE SET` every other
column. -/
def upsertQuestionRow (rows : List QuestionRow) (r : QuestionRow) : List QuestionRow :=
  if rows.any (fun x => x.id == r.id) then
    rows.map (fun x => if x.id == r.id then r else x)
  else rows ++ [r]

/-- The method `SaveQuestion`. The argument `none` is a `Questioner` value whose dynamic
type is none of the three question types (the `default` arm of the type switch). The
result is the returned error, if any, and the database afterwards. -/
def SaveQuestion (J : JSONCodec) (db : DB) : Option Questioner → Option StoreError × DB
  | none => (some .unknownVariant, db)
  | some q =>
    let (optionsJSON, questionType) : String × String :=
      match q with
      | .multiChoice mc => (J.marshal mc.Options, "MULTI_CHOICE")
      | .trueFalse _ => ("", "TRUE_FALSE")
      | .fillIn _ => ("", "FILL_IN")
    let row : QuestionRow :=
      { id := q.GetID
        type := questionType
        prompt := q.GetPrompt
        difficulty := q.GetDifficulty
        answer := getAnswerString q
        hint := some (getHint q)
        time_limit := Duration.Milliseconds q.GetTimeLimit
        options := some optionsJSON }
    (none, { db with questions := upsertQuestionRow db.questions row })

/-- The method `GetQuestion`: `Scan` of the row with the id into Go variables, which fails
on no row and on NULL in `hint` or `options` (both scanned into a Go `string`), then the
switch on the type tag. The product `time.Duration(timeLimit) * time.Millisecond` is 64-bit
arithmetic. -/
def GetQuestion (J : JSONCodec) (db : DB) (id : String) : Except StoreError Questioner :=
  match db.questions.find? (fun r => r.id == id) with
  | none => .error .notFound
  | some r =>
    match r.hint with
    | none => .error .scanFailed
    | some hint =>
      match r.options with
      | none => .error .scanFailed
      | some optionsJSON =>
        if r.type == "MULTI_CHOICE" then
          match J.unmarshal optionsJSON with
          | none => .error .corrupt
          | some options =>
            .ok (.multiChoice
              { Id := id
                Prompt := r.prompt
                Options := options
                Difficulty := r.difficulty
                Answer := r.answer
                Hint := hint
                TimeLimit := wrap64 (r.time_limit * Millisecond) })
        else if r.type == "TRUE_FALSE" then
          .ok (.trueFalse
            { Id := id
              Prompt := r.prompt
              Difficulty := r.difficulty
              Answer := r.answer == "true"
              Hint := hint
              TimeLimit := wrap64 (r.time_limit * Millisecond) })
        else if r.type == "FILL_IN" then
          .ok (.fillIn
            { Id := id
              Prompt := r.prompt
              Difficulty := r.difficulty
              Answer := r.answer
              Hint := hint
              TimeLimit := wrap64 (r.time_limit * Millisecond) })
        else .error .unknownVariant

/-- The method `DeleteQuestion`. -/
def DeleteQuestion (db : DB) (id : String) : Option StoreError × DB :=
  (none, { db with questions := db.questions.filter (fun r => !(r.id == id)) })

/-! ## internal/db/quizzes.go -/

/-- The statement `INSERT INTO quizzes ... ON CONFLICT(id) DO UPDATE SET` status,
current_index, score, completed, time_taken and correct_count. -/
def upsertQuizRow (rows : List QuizRow) (r : QuizRow) : List QuizRow :=
  if rows.any (fun x => x.id == r.id) then
    rows.map (fun x =>
      if x.id == r.id then
        { x with
          status := r.status
          current_index := r.current_index
          score := r.score
          completed := r.completed
          time_taken := r.time_taken
          correct_count := r.correct_count }
      else x)
  else rows ++ [r]

/-- A plain `INSERT INTO quiz_questions`: fails on a row with the same primary key. -/
def insertQuizQuestion (rows : List QuizQuestionRow) (r : QuizQuestionRow) :
    Except StoreError (List QuizQuestionRow) :=
  if rows.any (fun x => x.quiz_id == r.quiz_id && x.question_id == r.question_id) then
    .error .constraintViolation
  else .ok (rows ++ [r])

/-- A plain `INSERT INTO quiz_history`: fails on a row with the same primary key. -/
def insertQuizHistory (rows : List QuizHistoryRow) (r : QuizHistoryRow) :
    Except StoreError (List QuizHistoryRow) :=
  if rows.any (fun x => x.quiz_id == r.quiz_id && x.question_id == r.question_id) then
    .error .constraintViolation
  else .ok (rows ++ [r])

/-- The loop inserting one `quiz_questions` row per question of the session. -/
def insertQuizQuestions (quizId : String) :
    List QuizQuestionRow → List Questioner → Except StoreError (List QuizQuestionRow)
  | rows, [] => .ok rows
  | rows, question :: rest =>
    match insertQuizQuestion rows { quiz_id := quizId, question_id := question.GetID } with
    | .error e => .error e
    | .ok rows1 => insertQuizQuestions quizId rows1 rest

/-- The loop inserting one `quiz_history` row per history entry of the session. -/
def insertQuizHistories (quizId : String) :
    List QuizHistoryRow → List QuestionResult → Except StoreError (List QuizHistoryRow)
  | rows, [] => .ok rows
  | rows, result :: rest =>
    match insertQuizHistory rows
        { quiz_id := quizId
          question_id := result.QuestionID
          correct := result.Correct
          time_taken := Duration.Milliseconds result.TimeTaken } with
    | .error e => .error e
    | .ok rows1 => insertQuizHistories quizId rows1 rest

/-- The statements of `SaveQuiz` inside its transaction; `now` is the clock reading of
`GetTimeTaken`. -/
def saveQuizTx (db : DB) (q : Quiz) (now : Time) : Except StoreError DB :=
  let quizzes := upsertQuizRow db.quizzes
    { id := q.Id
      status := q.GetStatus
      current_index := q.GetCurrentIndex
      score := q.GetScore
      completed := q.IsCompleted
      start_time := q.GetStartTime
      creation_date := q.GetCreationDate
      time_taken := Duration.Milliseconds (q.GetTimeTaken now)
      correct_count := q.GetCorrectCount }
  let cleared := db.quiz_questions.filter (fun r => !(r.quiz_id == q.Id))
  match insertQuizQuestions q.Id cleared q.GetQuestions with
  | .error e => .error e
  | .ok quizQuestions =>
    let clearedHistory := db.quiz_history.filter (fun r => !(r.quiz_id == q.Id))
    match insertQuizHistories q.Id clearedHistory q.GetQuestionHistory with
    | .error e => .error e
    | .ok quizHistory =>
      .ok { db with
            quizzes := quizzes
            quiz_questions := quizQuestions
            quiz_history := quizHistory }

/-- The method `SaveQuiz`: the transaction commits, or the deferred rollback leaves the
database as it was. The result is the returned error, if any, and the database
afterwards. -/
def SaveQuiz (db : DB) (q : Quiz) (now : Time) : Option StoreError × DB :=
  match saveQuizTx db q now with
  | .ok db1 => (none, db1)
  | .error e => (some e, db)

/-- The order of SQLite's default `BINARY` collation on text: byte-wise on UTF-8, which is
the order of the code points, a proper prefix coming first. -/
def charsLT : List Char → List Char → Bool
  | [], [] => false
  | [], _ :: _ => true
  | _ :: _, [] => false
  | a :: as, b :: bs =>
    if a.toNat < b.toNat then true
    else if b.toNat < a.toNat then false
    else charsLT as bs

/-- Insertion of a row into rows ascending by their text key. -/
def insertByKey {α : Type} (key : α → String) (x : α) : List α → List α
  | [] => [x]
  | y :: ys =>
    if charsLT (key x).data (key y).data then x :: y :: ys
    else y :: insertByKey key x ys

/-- The rows in ascending order of their text key: the order in which an index on that
key yields them. -/
def sortByKey {α : Type} (key : α → String) : List α → List α
  | [] => []
  | x :: xs => insertByKey key x (sortByKey key xs)

/-- The loop of `GetQuiz` resolving each referenced question through the question
store. -/
def getQuizQuestions (J : JSONCodec) (db : DB) : List String → Except StoreError (List Questioner)
  | [] => .ok []
  | questionID :: rest =>
    match GetQuestion J db questionID with
    | .error e => .error e
    | .ok question =>
      match getQuizQuestions J db rest with
      | .error e => .error e
      | .ok questions => .ok (question :: questions)

/-- The method `GetQuiz`. The scalar columns and the history rows are read into local
variables of the source and the session returned is `quiz.NewQuiz(id, questions)`;
`now1` and `now2` are the clock readings of that constructor call. The two child-table
queries yield their rows by ascending `question_id`. -/
def GetQuiz (J : JSONCodec) (db : DB) (id : String) (now1 now2 : Time) : Except StoreError Quiz :=
  match db.quizzes.find? (fun r => r.id == id) with
  | none => .error .notFound
  | some _row =>
    let questionIDs :=
      (sortByKey (fun r => r.question_id)
        (db.quiz_questions.filter (fun r => r.quiz_id == id))).map (fun r => r.question_id)
    match getQuizQuestions J db questionIDs with
    | .error e => .error e
    | .ok questions =>
      let _history : List QuestionResult :=
        (sortByKey (fun r => r.question_id)
          (db.quiz_history.filter (fun r => r.quiz_id == id))).map (fun r =>
          { QuestionID := r.question_id
            Correct := r.correct
            TimeTaken := wrap64 (r.time_taken * Millisecond) })
      .ok (NewQuiz id questions now1 now2)

/-- The method `DeleteQuiz`: three deletes in one transaction. -/
def DeleteQuiz (db : DB) (id : String) : Option StoreError × DB :=
  (none,
    { db with
      quiz_history := db.quiz_history.filter (fun r => !(r.quiz_id == id))
      quiz_questions := db.quiz_questions.filter (fun r => !(r.quiz_id == id))
      quizzes := db.quizzes.filter (fun r => !(r.id == id)) })

/-! ### A concrete JSON codec for arrays of strings -/

/-- The hexadecimal digit of a value below 16, lower case. -/
def hexDigit (n : Nat) : Char :=
  if n < 10 then Char.ofNat (48 + n) else Char.ofNat (87 + n)

/-- The value of a hexadecimal digit, either case. -/
def hexValue (c : Char) : Option Nat :=
  if 48 ≤ c.toNat ∧ c.toNat ≤ 57 then some (c.toNat - 48)
  else if 97 ≤ c.toNat ∧ c.toNat ≤ 102 then some (c.toNat - 87)
  else if 65 ≤ c.toNat ∧ c.toNat ≤ 70 then some (c.toNat - 55)
  else none

/-- Whether the encoder writes the character as a six-character `\u` escape: control
characters without a short escape, the HTML-sensitive `<`, `>`, `&`, and U+2028, U+2029. -/
def needsUnicodeEscape (c : Char) : Bool :=
  c.toNat < 32 || c == '<' || c == '>' || c == '&' || c.toNat == 8232 || c.toNat == 8233

/-- The encoding of one character inside a JSON string literal. -/
def escapeChar (c : Char) : List Char :=
  if c = '"' then ['\\', '"']
  else if c = '\\' then ['\\', '\\']
  else if c = '\n' then ['\\', 'n']
  else if c = '\r' then ['\\', 'r']
  else if c = '\t' then ['\\', 't']
  else if needsUnicodeEscape c then
    ['\\', 'u', hexDigit (c.toNat / 4096 % 16), hexDigit (c.toNat / 256 % 16),
      hexDigit (c.toNat / 16 % 16), hexDigit (c.toNat % 16)]
  else [c]

/-- The body of a JSON string literal. -/
def escapeChars : List Char → List Char
  | [] => []
  | c :: cs => escapeChar c ++ escapeChars cs

/-- A JSON string literal. -/
def quoteChars (s : List Char) : List Char := '"' :: (escapeChars s ++ ['"'])

/-- The elements after the first one of a JSON array, each preceded by a comma. -/
def moreElems : List String → List Char
  | [] => []
  | x :: xs => ',' :: (quoteChars x.data ++ moreElems xs)

/-- The JSON text of an array of strings. -/
def marshalChars : List String → List Char
  | [] => ['[', ']']
  | x :: xs => '[' :: (quoteChars x.data ++ (moreElems xs ++ [']']))

/-- The positions of the decoder in the grammar of an array of strings: before the value,
inside the literal `null` (letters read so far), after `[`, inside a string literal, after a
backslash, inside a `\u` escape (digits read so far and their value), after a comma, after
an element, after the value. -/
inductive Mode where
  | value
  | null (k : Nat)
  | first
  | str
  | esc
  | uni (k : Nat) (v : Nat)
  | elem
  | after
  | done
deriving DecidableEq, Repr

def isSpace (c : Char) : Bool := c == ' ' || c == '\t' || c == '\n' || c == '\r'

/-- The decoder: `cur` holds the characters of the string literal being read, `out` the
elements read so far. -/
def scan : Mode → List Char → List String → List Char → Option (List String)
  | .done, _, out, [] => some out
  | _, _, _, [] => none
  | .value, cur, out, c :: rest =>
    if isSpace c then scan .value cur out rest
    else if c = '[' then scan .first cur out rest
    else if c = 'n' then scan (.null 1) cur out rest
    else none
  | .null k, cur, out, c :: rest =>
    if k = 1 ∧ c = 'u' then scan (.null 2) cur out rest
    else if k = 2 ∧ c = 'l' then scan (.null 3) cur out rest
    else if k = 3 ∧ c = 'l' then scan .done cur out rest
    else none
  | .first, cur, out, c :: rest =>
    if isSpace c then scan .first cur out rest
    else if c = ']' then scan .done cur out rest
    else if c = '"' then scan .str [] out rest
    else none
  | .elem, cur, out, c :: rest =>
    if isSpace c then scan .elem cur out rest
    else if c = '"' then scan .str [] out rest
    else none
  | .after, cur, out, c :: rest =>
    if isSpace c then scan .after cur out rest
    else if c = ',' then scan .elem cur out rest
    else if c = ']' then scan .done cur out rest
    else none
  | .done, cur, out, c :: rest =>
    if isSpace c then scan .done cur out rest else none
  | .str, cur, out, c :: rest =>
    if c = '"' then scan .after [] (out ++ [String.mk cur]) rest
    else if c = '\\' then scan .esc cur out rest
    else if c.toNat < 32 then none
    else scan .str (cur ++ [c]) out rest
  | .esc, cur, out, c :: rest =>
    if c = '"' then scan .str (cur ++ ['"']) out rest
    else if c = '\\' then scan .str (cur ++ ['\\']) out rest
    else if c = '/' then scan .str (cur ++ ['/']) out rest
    else if c = 'n' then scan .str (cur ++ ['\n']) out rest
    else if c = 'r' then scan .str (cur ++ ['\r']) out rest
    else if c = 't' then scan .str (cur ++ ['\t']) out rest
    else if c = 'b' then scan .str (cur ++ [Char.ofNat 8]) out rest
    else if c = 'f' then scan .str (cur ++ [Char.ofNat 12]) out rest
    else if c = 'u' then scan (.uni 0 0) cur out rest
    else none
  | .uni k v, cur, out, c :: rest =>
    match hexValue c with
    | none => none
    | some d =>
      if k < 3 then scan (.uni (k + 1) (v * 16 + d)) cur out rest
      else scan .str (cur ++ [Char.ofNat (v * 16 + d)]) out rest

/-- A concrete codec in JSON syntax (quotes, backslashes, control characters and the
HTML-sensitive characters escaped); it instantiates the codec parameter on concrete
inputs. -/
def goJSON : JSONCodec where
  marshal xs := String.mk (marshalChars xs)
  unmarshal s := scan .value [] [] s.data

/-! ### Fixtures for the persistence adapters -/

/-- The database with no rows. -/
def emptyDB : DB :=
  { questions := [], quizzes := [], quiz_questions := [], quiz_history := [] }

/-- The database after saving the three questions of `createTestQuestions`. -/
def questionsDB : DB :=
  (SaveQuestion goJSON
    (SaveQuestion goJSON
      (SaveQuestion goJSON emptyDB (some (.multiChoice mc1))).2
      (some (.trueFalse tf1))).2
    (some (.fillIn fi1))).2

/-- The session over `createTestQuestions` after answering the first question correctly
(clock readings 10 and 11) and advancing to the second (clock reading 20). -/
def sessionInProgress : Quiz :=
  (((NewQuiz "quiz2" createTestQuestions 0 0).afterSubmit (.multiChoice mc1) "4" 10 11).NextQuestion
    20).2

/-- A fill-in question whose time limit, 1.5 ms, is not a whole number of milliseconds. -/
def fiSubMilli : FillIn := { fi1 with TimeLimit := 1500000 }

/-- The question with its time limit replaced. -/
def Questioner.withTimeLimit : Questioner → Duration → Questioner
  | .multiChoice mc, d => .multiChoice { mc with TimeLimit := d }
  | .trueFalse tf, d => .trueFalse { tf with TimeLimit := d }
  | .fillIn fi, d => .fillIn { fi with TimeLimit := d }

/-! ### Calls of all four session methods -/

/-- One call of a session method, read-only methods included, with its clock readings. -/
inductive Op where
  | currentQuestion
  | nextQuestion (now : Time)
  | submitAnswer (answer : String) (t0 t1 : Time)
  | progress
deriving DecidableEq, Repr

/-- The session after one method call. `CurrentQuestion` and `Progress` assign to no field
of the receiver, so a call that returns leaves the session as it was. -/
def Quiz.exec (q : Quiz) : Op → Go Quiz
  | .currentQuestion =>
    match q.CurrentQuestion with
    | .ok _ => .ok q
    | .error e => .error e
  | .nextQuestion now => .ok (q.NextQuestion now).2
  | .submitAnswer answer t0 t1 =>
    match q.SubmitAnswer answer t0 t1 with
    | .ok r => .ok r.2
    | .error e => .error e
  | .progress =>
    match q.Progress with
    | (_, _) => .ok q

/-- The session after a sequence of method calls, first call first. -/
def Quiz.execAll (q : Quiz) : List Op → Go Quiz
  | [] => .ok q
  | o :: os =>
    match q.exec o with
    | .ok q1 => q1.execAll os
    | .error e => .error e

/-- The call of `CheckAnswer` through its pointer receiver: the result and the question
afterwards. No method body of `question.go` assigns to its receiver. -/
def Questioner.CheckAnswerCall (q : Questioner) (answer : String) : Bool × Questioner :=
  (q.CheckAnswer answer, q)

/-! ### Playing a quiz round by round -/

/-- One round: an answer with the two clock readings of its `SubmitAnswer` call, and the
clock reading of the `NextQuestion` call that follows. -/
structure Round where
  answer : String
  t0 : Time
  t1 : Time
  now : Time
deriving DecidableEq, Repr

/-- The call sequence answering once and advancing, round after round. -/
def playRounds : List Round → List Call
  | [] => []
  | r :: rs => .submit r.answer r.t0 r.t1 :: .next r.now :: playRounds rs

/-- The history expected from answering the questions in order, one round each. -/
def expectedHistory : List Questioner → List Round → List QuestionResult
  | q :: qs, r :: rs =>
    { QuestionID := q.GetID, Correct := q.CheckAnswer r.answer, TimeTaken := r.t1 - r.t0 } ::
      expectedHistory qs rs
  | _, _ => []

/-- The number of questions answered correctly, one round each. -/
def expectedCorrectCount : List Questioner → List Round → Int
  | q :: qs, r :: rs =>
    (if q.CheckAnswer r.answer then 1 else 0) + expectedCorrectCount qs rs
  | _, _ => 0

/-- The sum of the difficulties of the questions answered correctly, one round each. -/
def expectedScore : List Questioner → List Round → Int
  | q :: qs, r :: rs =>
    (if q.CheckAnswer r.answer then q.GetDifficulty else 0) + expectedScore qs rs
  | _, _ => 0

/-- The scenario of the specification on `createTestQuestions` (difficulties 1, 2, 3):
a correct, a correct and an incorrect answer. -/
def scenarioRounds : List Round :=
  [{ answer := "4", t0 := 1, t1 := 2, now := 3 },
   { answer := "true", t0 := 4, t1 := 5, now := 6 },
   { answer := "London", t0 := 7, t1 := 8, now := 9 }]

/-! ### Accepted submissions -/

/-- The question a submission would be checked against, if the session accepts
submissions: the two guards of `SubmitAnswer`, then its current question. -/
def Quiz.accepting (q : Quiz) : Option Questioner :=
  if q.completed || decide (q.currentIndex ≥ (q.questions.length : Int)) then none
  else
    match q.CurrentQuestion with
    | .ok (some current) => some current
    | _ => none

/-- The submissions accepted along a call sequence, in order: for each one the question
that was current at that submission and whether the answer was correct. -/
def Quiz.acceptedSubmissions (q : Quiz) : List Call → List (Questioner × Bool)
  | [] => []
  | c :: cs =>
    match q.step c with
    | .error _ => []
    | .ok q1 =>
      match c, q.accepting with
      | .submit answer _ _, some current =>
        (current, current.CheckAnswer answer) :: q1.acceptedSubmissions cs
      | _, _ => q1.acceptedSubmissions cs

/-- The sum of the difficulties over the accepted correct submissions. -/
def sumCorrectDifficulty : List (Questioner × Bool) → Int
  | [] => 0
  | (question, correct) :: rest =>
    (if correct then question.GetDifficulty else 0) + sumCorrectDifficulty rest

/-- The number of history entries with `Correct = true`. -/
def countCorrect : List QuestionResult → Int
  | [] => 0
  | r :: rest => (if r.Correct then 1 else 0) + countCorrect rest

/-- A multiple-choice question sharing only its answer with `mc1`. -/
def mcSameAnswer : MultiChoice :=
  { Id := "x"
    Prompt := "?"
    Options := []
    Difficulty := 9
    Answer := "4"
    Hint := "h"
    TimeLimit := 1 }

/-- A true/false question sharing only its answer with `tf1`. -/
def tfSameAnswer : TrueFalse :=
  { Id := "x"
    Prompt := "?"
    Difficulty := 9
    Answer := true
    Hint := "h"
    TimeLimit := 1 }

/-- A fill-in question sharing only its answer with `fi1`. -/
def fiSameAnswer : FillIn :=
  { Id := "x"
    Prompt := "?"
    Difficulty := 9
    Answer := "Paris"
    Hint := "h"
    TimeLimit := 1 }

/-! ### Fixtures of `pkg/db/quizzes_test.go` -/

/-- The multiple-choice question `q1` of `TestQuizStore`. -/
def storeMC : MultiChoice := { mc1 with Id := "q1" }

/-- The true/false question `q2` of `TestQuizStore`. -/
def storeTF : TrueFalse := { tf1 with Id := "q2" }

/-- The question list of `TestQuizStore`. -/
def storeQuestions : List Questioner := [.multiChoice storeMC, .trueFalse storeTF]

/-- The database of `TestQuizStore` after its two questions are saved. -/
def storeDB : DB :=
  (SaveQuestion goJSON (SaveQuestion goJSON emptyDB (some (.multiChoice storeMC))).2
    (some (.trueFalse storeTF))).2

/-- The calls `TestQuizStore` makes on `quiz2`: a correct answer, an advance, an incorrect
answer, an advance. -/
def storeCalls : List Call :=
  [.submit "4" 10 11, .next 20, .submit "false" 30 31, .next 40]

/-- The session `quiz2` of `TestQuizStore` after `storeCalls`. -/
def quizWithHistory : Quiz :=
  { Id := "quiz2"
    questions := storeQuestions
    currentIndex := 1
    score := 1
    completed := true
    status := FINISHED
    startTime := 0
    creationDate := 0
    timeTaken := 40
    correctCount := 1
    questionHistory :=
      [{ QuestionID := "q1", Correct := true, TimeTaken := 1 },
       { QuestionID := "q2", Correct := false, TimeTaken := 1 }] }

/-! ### Store states and fixtures for the error paths -/

/-- The foreign key the schema declares from the two child tables to `quizzes(id)`: every
`quiz_questions` row and every `quiz_history` row belongs to a stored quiz. -/
def DB.quizKeysHold (db : DB) : Bool :=
  db.quiz_questions.all (fun r => db.quizzes.any (fun z => z.id == r.quiz_id)) &&
    db.quiz_history.all (fun r => db.quizzes.any (fun z => z.id == r.quiz_id))

/-- A store with a `quiz_questions` row of quiz "quiz9" and no `quizzes` row of that id. -/
def orphanDB : DB :=
  { storeDB with quiz_questions := [{ quiz_id := "quiz9", question_id := "q1" }] }

/-- A multiple-choice question worth the largest Go `int`. -/
def hugeMC : MultiChoice := { mc1 with Difficulty := maxInt64 }

/-- A second question worth the largest Go `int`. -/
def hugeFI : FillIn := { fi1 with Difficulty := maxInt64 }

/-- The fresh session over the single question `hugeMC`. -/
def hugeQuiz : Quiz := NewQuiz "quiz1" [.multiChoice hugeMC] 0 0

/-- The session `hugeQuiz` after one correct answer: score `maxInt64`. -/
def hugeQuizAnswered : Quiz := hugeQuiz.afterSubmit (.multiChoice hugeMC) "4" 1 2

/-- The two questions `hugeMC` and `hugeFI`, each worth the largest Go `int`. -/
def hugeQuestions : List Questioner := [.multiChoice hugeMC, .fillIn hugeFI]

/-- Two rounds with the correct answers to `hugeMC` and `hugeFI`. -/
def hugeRounds : List Round :=
  [{ answer := "4", t0 := 1, t1 := 2, now := 3 },
   { answer := "Paris", t0 := 4, t1 := 5, now := 6 }]

/-- The store of `TestQuizStore` after `quizWithHistory` is saved. -/
def savedStoreDB : DB := (SaveQuiz storeDB quizWithHistory 50).2

/-- The session `quiz2` after answering its first question twice without advancing: two
history entries for question `q1`. -/
def resubmittedQuiz : Quiz :=
  ((NewQuiz "quiz2" storeQuestions 0 0).afterSubmit (.multiChoice storeMC) "3" 1 2).afterSubmit
    (.multiChoice storeMC) "4" 3 4

/-- A fresh session in which question `q1` occurs twice. -/
def repeatedQuestionQuiz : Quiz :=
  NewQuiz "quiz3" [.multiChoice storeMC, .multiChoice storeMC] 0 0

/-! ## Helper lemmas -/

theorem wrap64_of_isInt64 (x : Int) (h : isInt64 x) : wrap64 x = x := by
  unfold isInt64 at h
  unfold wrap64
  omega

theorem isInt64_wrap64 (x : Int) : isInt64 (wrap64 x) := by
  unfold isInt64 wrap64
  omega

theorem wrap64_add_wrap64 (a b : Int) : wrap64 (wrap64 a + b) = wrap64 (a + b) := by
  unfold wrap64
  omega

theorem hexValue_hexDigit (n : Nat) (h : n < 16) : hexValue (hexDigit n) = some n := by
  interval_cases n <;> rfl

theorem scan_str_plain (c : Char) (cur : List Char) (out : List String) (rest : List Char)
    (h1 : c ≠ '"') (h2 : c ≠ '\\') (h3 : ¬ c.toNat < 32) :
    scan .str cur out (c :: rest) = scan .str (cur ++ [c]) out rest := by
  simp only [scan, h1, h2, h3, if_false]

theorem scan_str_backslash (cur : List Char) (out : List String) (rest : List Char) :
    scan .str cur out ('\\' :: rest) = scan .esc cur out rest := by
  simp only [scan]
  rfl

theorem scan_uni_digit (k v n : Nat) (h : n < 16) (cur : List Char) (out : List String)
    (rest : List Char) :
    scan (.uni k v) cur out (hexDigit n :: rest) =
      if k < 3 then scan (.uni (k + 1) (v * 16 + n)) cur out rest
      else scan .str (cur ++ [Char.ofNat (v * 16 + n)]) out rest := by
  simp only [scan, hexValue_hexDigit n h]

theorem scan_unicode_escape (c : Char) (cur : List Char) (out : List String) (rest : List Char)
    (h : c.toNat < 65536) :
    scan .esc cur out
        ('u' :: hexDigit (c.toNat / 4096 % 16) :: hexDigit (c.toNat / 256 % 16) ::
          hexDigit (c.toNat / 16 % 16) :: hexDigit (c.toNat % 16) :: rest) =
      scan .str (cur ++ [c]) out rest := by
  have e : (((0 * 16 + c.toNat / 4096 % 16) * 16 + c.toNat / 256 % 16) * 16 +
      c.toNat / 16 % 16) * 16 + c.toNat % 16 = c.toNat := by omega
  have hu : scan .esc cur out
        ('u' :: hexDigit (c.toNat / 4096 % 16) :: hexDigit (c.toNat / 256 % 16) ::
          hexDigit (c.toNat / 16 % 16) :: hexDigit (c.toNat % 16) :: rest) =
      scan (.uni 0 0) cur out
        (hexDigit (c.toNat / 4096 % 16) :: hexDigit (c.toNat / 256 % 16) ::
          hexDigit (c.toNat / 16 % 16) :: hexDigit (c.toNat % 16) :: rest) := by
    simp [scan]
  rw [hu, scan_uni_digit _ _ _ (by omega), if_pos (by omega),
    scan_uni_digit _ _ _ (by omega), if_pos (by omega),
    scan_uni_digit _ _ _ (by omega), if_pos (by omega),
    scan_uni_digit _ _ _ (by omega), if_neg (by omega), e, Char.ofNat_toNat]

theorem needsUnicodeEscape_lt (c : Char) (h : needsUnicodeEscape c = true) :
    c.toNat < 65536 := by
  simp only [needsUnicodeEscape, Bool.or_eq_true, decide_eq_true_eq, beq_iff_eq] at h
  rcases h with ((((h | h) | h) | h) | h) | h
  · omega
  · subst h; decide
  · subst h; decide
  · subst h; decide
  · omega
  · omega

theorem needsUnicodeEscape_ge (c : Char) (h : ¬ needsUnicodeEscape c = true) :
    ¬ c.toNat < 32 := by
  intro hlt
  apply h
  simp [needsUnicodeEscape, hlt]

theorem scan_escapeChar (c : Char) (cur : List Char) (out : List String) (rest : List Char) :
    scan .str cur out (escapeChar c ++ rest) = scan .str (cur ++ [c]) out rest := by
  unfold escapeChar
  split_ifs with h1 h2 h3 h4 h5 h6
  · subst h1
    rw [List.cons_append, scan_str_backslash]
    simp [scan]
  · subst h2
    rw [List.cons_append, scan_str_backslash]
    simp [scan]
  · subst h3
    rw [List.cons_append, scan_str_backslash]
    simp [scan]
  · subst h4
    rw [List.cons_append, scan_str_backslash]
    simp [scan]
  · subst h5
    rw [List.cons_append, scan_str_backslash]
    simp [scan]
  · rw [List.cons_append, scan_str_backslash]
    simp only [List.cons_append, List.nil_append]
    exact scan_unicode_escape c cur out rest (needsUnicodeEscape_lt c h6)
  · exact scan_str_plain c cur out rest h1 h2 (needsUnicodeEscape_ge c h6)

theorem scan_escapeChars (s cur : List Char) (out : List String) (rest : List Char) :
    scan .str cur out (escapeChars s ++ rest) = scan .str (cur ++ s) out rest := by
  induction s generalizing cur with
  | nil => simp [escapeChars]
  | cons c cs ih =>
    simp only [escapeChars, List.append_assoc]
    rw [scan_escapeChar, ih]
    simp

theorem scan_str_quote (s : String) (out : List String) (rest : List Char) :
    scan .str [] out (escapeChars s.data ++ '"' :: rest) = scan .after [] (out ++ [s]) rest := by
  rw [scan_escapeChars]
  rfl

theorem scan_moreElems (xs out : List String) :
    scan .after [] out (moreElems xs ++ [']']) = some (out ++ xs) := by
  induction xs generalizing out with
  | nil => simp [moreElems]; rfl
  | cons x xs ih =>
    have h : scan .after [] out (moreElems (x :: xs) ++ [']']) =
        scan .str [] out (escapeChars x.data ++ '"' :: (moreElems xs ++ [']'])) := by
      simp only [moreElems, quoteChars, List.cons_append, List.append_assoc, List.nil_append]
      rfl
    rw [h, scan_str_quote, ih]
    simp

theorem goJSON_roundtrip (xs : List String) : goJSON.unmarshal (goJSON.marshal xs) = some xs := by
  cases xs with
  | nil => rfl
  | cons x xs =>
    have h : goJSON.unmarshal (goJSON.marshal (x :: xs)) =
        scan .str [] [] (escapeChars x.data ++ '"' :: (moreElems xs ++ [']'])) := by
      simp only [goJSON, marshalChars, quoteChars, List.cons_append, List.append_assoc,
        List.nil_append]
      rfl
    rw [h, scan_str_quote, scan_moreElems]
    simp


theorem sliceIndex_ok {α : Type} (xs : List α) (i : Int) (h0 : 0 ≤ i)
    (hlt : i < (xs.length : Int)) :
    ∃ x, xs[i.toNat]? = some x ∧ sliceIndex xs i = .ok x := by
  have hn : i.toNat < xs.length := by omega
  refine ⟨xs[i.toNat], List.getElem?_eq_getElem hn, ?_⟩
  unfold sliceIndex
  rw [if_neg (by omega), List.getElem?_eq_getElem hn]

theorem sliceIndex_neg {α : Type} (xs : List α) (i : Int) (h : i < 0) :
    sliceIndex xs i = .error .indexOutOfRange := by
  unfold sliceIndex
  rw [if_pos h]

theorem currentQuestion_in_range (q : Quiz) (h0 : 0 ≤ q.currentIndex)
    (hlt : q.currentIndex < (q.questions.length : Int)) :
    ∃ cur, q.questions[q.currentIndex.toNat]? = some cur ∧
      q.CurrentQuestion = .ok (some cur) := by
  obtain ⟨x, hx, hs⟩ := sliceIndex_ok q.questions q.currentIndex h0 hlt
  refine ⟨x, hx, ?_⟩
  unfold Quiz.CurrentQuestion
  rw [if_neg (by omega), hs]

theorem submitAnswer_in_range (q : Quiz) (s : String) (t0 t1 : Time)
    (hc : q.completed = false) (h0 : 0 ≤ q.currentIndex)
    (hlt : q.currentIndex < (q.questions.length : Int)) :
    ∃ cur, q.questions[q.currentIndex.toNat]? = some cur ∧
      q.CurrentQuestion = .ok (some cur) ∧
      q.SubmitAnswer s t0 t1 = .ok (cur.CheckAnswer s, q.afterSubmit cur s t0 t1) := by
  obtain ⟨cur, hcur, hq⟩ := currentQuestion_in_range q h0 hlt
  refine ⟨cur, hcur, hq, ?_⟩
  have hge : ¬ (q.currentIndex ≥ (q.questions.length : Int)) := by omega
  unfold Quiz.SubmitAnswer
  simp only [hc, hge, decide_False, Bool.or_self, Bool.false_eq_true, if_false, hq]
  cases hck : cur.CheckAnswer s <;> simp [Quiz.afterSubmit, Since, hck, hc]

theorem submitAnswer_rejected (q : Quiz) (s : String) (t0 t1 : Time)
    (h : q.completed = true ∨ q.currentIndex ≥ (q.questions.length : Int)) :
    q.SubmitAnswer s t0 t1 = .ok (false, q) := by
  unfold Quiz.SubmitAnswer
  rcases h with h | h
  · simp [h]
  · simp [h]

theorem nextQuestion_advance (q : Quiz) (now : Time)
    (h : q.currentIndex < (q.questions.length : Int) - 1) :
    q.NextQuestion now =
      (true, { q with currentIndex := q.currentIndex + 1, status := AWAITING_ANSWER }) := by
  unfold Quiz.NextQuestion
  rw [if_neg (by omega)]

theorem nextQuestion_finish (q : Quiz) (now : Time)
    (h : q.currentIndex ≥ (q.questions.length : Int) - 1) :
    q.NextQuestion now =
      (false, { q with completed := true, status := FINISHED, timeTaken := now - q.startTime }) := by
  unfold Quiz.NextQuestion
  rw [if_pos h]
  rfl

/-! ## Question variants -/

/-- C1 (the code at the failing input): for the true/false question `tfFalse`, whose
canonical answer is false, `CheckAnswer` accepts the string "true" and rejects the string
"false", although "true" does not agree with the canonical answer and "false" does. -/
theorem C1_trueFalse_checkAnswer_ignores_answer :
    tfFalse.Answer = false ∧
      tfFalse.CheckAnswer "true" = true ∧
      tfFalse.CheckAnswer "false" = false ∧
      tfFalse.CheckAnswer "true" ≠ (("true" == "true") == tfFalse.Answer) ∧
      tfFalse.CheckAnswer "false" ≠ (("false" == "true") == tfFalse.Answer) := by
  decide

/-! ## The session state machine -/

/-- C2 (counterexample): `hugeQuizAnswered` is reached from `NewQuiz` over one question of
difficulty `maxInt64` by one correct answer; it is not completed, has
`0 ≤ currentIndex < len(questions)` and score `maxInt64`. A second correct answer is
accepted and returns true, but the score afterwards is -2, not the old score plus the
difficulty (18446744073709551614): the 64-bit addition wraps. -/
theorem C2_submitAnswer_score_wraps :
    hugeQuiz.run [.submit "4" 1 2] = .ok hugeQuizAnswered ∧
      hugeQuizAnswered.completed = false ∧
      0 ≤ hugeQuizAnswered.currentIndex ∧
      hugeQuizAnswered.currentIndex < (hugeQuizAnswered.questions.length : Int) ∧
      hugeQuizAnswered.score = maxInt64 ∧
      hugeQuizAnswered.SubmitAnswer "4" 3 4 =
        .ok (true, hugeQuizAnswered.afterSubmit (.multiChoice hugeMC) "4" 3 4) ∧
      (hugeQuizAnswered.afterSubmit (.multiChoice hugeMC) "4" 3 4).score = -2 ∧
      hugeQuizAnswered.score + (Questioner.multiChoice hugeMC).GetDifficulty =
        18446744073709551614 ∧
      (hugeQuizAnswered.afterSubmit (.multiChoice hugeMC) "4" 3 4).score ≠
        hugeQuizAnswered.score + (Questioner.multiChoice hugeMC).GetDifficulty := by
  decide

/-- C2 (amended): in every session that is not completed and has
`0 ≤ currentIndex < len(questions)`, for every string `s`, `SubmitAnswer(s)` returns
`c = CheckAnswer(s)` of the current question `cur` (the question stored at
`currentIndex`); the new history is the old one followed by exactly one entry with
`QuestionID = cur.GetID` and `Correct = c`; the status becomes ANSWERED whatever it was;
when `c` is true the score becomes the old score plus the difficulty of `cur` and
correctCount the old count plus 1, both in wrapping 64-bit arithmetic, hence exactly these
sums whenever they fit in 64 bits; both are unchanged when `c` is false; no other field
changes. -/
theorem C2_submitAnswer_accepted (q : Quiz) (s : String) (t0 t1 : Time)
    (hc : q.completed = false) (h0 : 0 ≤ q.currentIndex)
    (hlt : q.currentIndex < (q.questions.length : Int)) :
    ∃ cur c q1,
      q.questions[q.currentIndex.toNat]? = some cur ∧
      q.CurrentQuestion = .ok (some cur) ∧
      c = cur.CheckAnswer s ∧
      q.SubmitAnswer s t0 t1 = .ok (c, q1) ∧
      q1.questionHistory =
        q.questionHistory ++ [{ QuestionID := cur.GetID, Correct := c, TimeTaken := t1 - t0 }] ∧
      q1.status = ANSWERED ∧
      (c = true → q1.score = wrap64 (q.score + cur.GetDifficulty) ∧
        q1.correctCount = wrap64 (q.correctCount + 1)) ∧
      (c = true → isInt64 (q.score + cur.GetDifficulty) →
        q1.score = q.score + cur.GetDifficulty) ∧
      (c = true → isInt64 (q.correctCount + 1) → q1.correctCount = q.correctCount + 1) ∧
      (c = false → q1.score = q.score ∧ q1.correctCount = q.correctCount) ∧
      q1.Id = q.Id ∧ q1.questions = q.questions ∧ q1.currentIndex = q.currentIndex ∧
      q1.completed = q.completed ∧ q1.startTime = q.startTime ∧
      q1.creationDate = q.creationDate ∧ q1.timeTaken = q.timeTaken := by
  obtain ⟨cur, hcur, hq, hs⟩ := submitAnswer_in_range q s t0 t1 hc h0 hlt
  refine ⟨cur, cur.CheckAnswer s, q.afterSubmit cur s t0 t1, hcur, hq, rfl, hs, rfl, rfl, ?_, ?_,
    ?_, ?_, rfl, rfl, rfl, rfl, rfl, rfl, rfl⟩
  · intro h
    simp [Quiz.afterSubmit, h]
  · intro h hfit
    simp only [Quiz.afterSubmit, h, if_true]
    exact wrap64_of_isInt64 _ hfit
  · intro h hfit
    simp only [Quiz.afterSubmit, h, if_true]
    exact wrap64_of_isInt64 _ hfit
  · intro h
    simp [Quiz.afterSubmit, h]

/-- C2 (witness): the fresh session of the tests and the answer "4". -/
theorem C2_submitAnswer_accepted_witness :
    (testQuiz.completed = false ∧ 0 ≤ testQuiz.currentIndex ∧
      testQuiz.currentIndex < (testQuiz.questions.length : Int)) ∧
    ∃ cur c q1,
      testQuiz.questions[testQuiz.currentIndex.toNat]? = some cur ∧
      testQuiz.CurrentQuestion = .ok (some cur) ∧
      c = cur.CheckAnswer "4" ∧
      testQuiz.SubmitAnswer "4" 7 9 = .ok (c, q1) ∧
      q1.questionHistory =
        testQuiz.questionHistory ++ [{ QuestionID := cur.GetID, Correct := c, TimeTaken := 9 - 7 }] ∧
      q1.status = ANSWERED ∧
      (c = true → q1.score = wrap64 (testQuiz.score + cur.GetDifficulty) ∧
        q1.correctCount = wrap64 (testQuiz.correctCount + 1)) ∧
      (c = true → isInt64 (testQuiz.score + cur.GetDifficulty) →
        q1.score = testQuiz.score + cur.GetDifficulty) ∧
      (c = true → isInt64 (testQuiz.correctCount + 1) →
        q1.correctCount = testQuiz.correctCount + 1) ∧
      (c = false → q1.score = testQuiz.score ∧ q1.correctCount = testQuiz.correctCount) ∧
      q1.Id = testQuiz.Id ∧ q1.questions = testQuiz.questions ∧
      q1.currentIndex = testQuiz.currentIndex ∧
      q1.completed = testQuiz.completed ∧ q1.startTime = testQuiz.startTime ∧
      q1.creationDate = testQuiz.creationDate ∧ q1.timeTaken = testQuiz.timeTaken :=
  ⟨by decide, C2_submitAnswer_accepted testQuiz "4" 7 9 (by decide) (by decide) (by decide)⟩

/-- C3: in every session with `completed = true` or `currentIndex ≥ len(questions)`, for
every string `s`, `SubmitAnswer(s)` returns false and the session afterwards is the
session before, field for field. -/
theorem C3_submitAnswer_rejected_no_effect (q : Quiz) (s : String) (t0 t1 : Time)
    (h : q.completed = true ∨ q.currentIndex ≥ (q.questions.length : Int)) :
    q.SubmitAnswer s t0 t1 = .ok (false, q) :=
  submitAnswer_rejected q s t0 t1 h

/-- C3 (witness): the completed session of the tests, submitting the correct answer "4" of
its current question. -/
theorem C3_submitAnswer_rejected_no_effect_witness :
    (completedQuiz.completed = true ∨
      completedQuiz.currentIndex ≥ (completedQuiz.questions.length : Int)) ∧
    completedQuiz.SubmitAnswer "4" 0 0 = .ok (false, completedQuiz) :=
  ⟨Or.inl rfl, C3_submitAnswer_rejected_no_effect completedQuiz "4" 0 0 (Or.inl rfl)⟩

/-- C4: in every session with `currentIndex < len(questions) - 1`, `NextQuestion` returns
true, increases `currentIndex` by exactly 1, sets the status to AWAITING_ANSWER and leaves
`completed` (and every other field) unchanged. -/
theorem C4_nextQuestion_advances (q : Quiz) (now : Time)
    (h : q.currentIndex < (q.questions.length : Int) - 1) :
    (q.NextQuestion now).1 = true ∧
      (q.NextQuestion now).2.currentIndex = q.currentIndex + 1 ∧
      (q.NextQuestion now).2.status = AWAITING_ANSWER ∧
      (q.NextQuestion now).2.completed = q.completed ∧
      (q.NextQuestion now).2 =
        { q with currentIndex := q.currentIndex + 1, status := AWAITING_ANSWER } := by
  rw [nextQuestion_advance q now h]
  exact ⟨rfl, rfl, rfl, rfl, rfl⟩

/-- C4 (witness): the fresh session over the three questions of the tests. -/
theorem C4_nextQuestion_advances_witness :
    testQuiz.currentIndex < (testQuiz.questions.length : Int) - 1 ∧
    (testQuiz.NextQuestion 5).1 = true ∧
      (testQuiz.NextQuestion 5).2.currentIndex = testQuiz.currentIndex + 1 ∧
      (testQuiz.NextQuestion 5).2.status = AWAITING_ANSWER ∧
      (testQuiz.NextQuestion 5).2.completed = testQuiz.completed ∧
      (testQuiz.NextQuestion 5).2 =
        { testQuiz with currentIndex := testQuiz.currentIndex + 1, status := AWAITING_ANSWER } :=
  ⟨by decide, C4_nextQuestion_advances testQuiz 5 (by decide)⟩

/-- C5: in every session with `currentIndex = len(questions) - 1`, `NextQuestion` called
at clock reading `now` returns false, sets `completed = true` and `status = FINISHED`, sets
`timeTaken = now - startTime`, and leaves `currentIndex` (and every other field)
unchanged. -/
theorem C5_nextQuestion_completes (q : Quiz) (now : Time)
    (h : q.currentIndex = (q.questions.length : Int) - 1) :
    (q.NextQuestion now).1 = false ∧
      (q.NextQuestion now).2.completed = true ∧
      (q.NextQuestion now).2.status = FINISHED ∧
      (q.NextQuestion now).2.timeTaken = now - q.startTime ∧
      (q.NextQuestion now).2.currentIndex = q.currentIndex ∧
      (q.NextQuestion now).2 =
        { q with completed := true, status := FINISHED, timeTaken := now - q.startTime } := by
  rw [nextQuestion_finish q now (by omega)]
  exact ⟨rfl, rfl, rfl, rfl, rfl, rfl⟩

/-- C5 (witness): the session of the tests standing at its last index 2, started at clock
reading 100 and advanced at clock reading 160. -/
theorem C5_nextQuestion_completes_witness :
    lastIndexQuiz.currentIndex = (lastIndexQuiz.questions.length : Int) - 1 ∧
    (lastIndexQuiz.NextQuestion 160).1 = false ∧
      (lastIndexQuiz.NextQuestion 160).2.completed = true ∧
      (lastIndexQuiz.NextQuestion 160).2.status = FINISHED ∧
      (lastIndexQuiz.NextQuestion 160).2.timeTaken = 160 - lastIndexQuiz.startTime ∧
      (lastIndexQuiz.NextQuestion 160).2.currentIndex = lastIndexQuiz.currentIndex ∧
      (lastIndexQuiz.NextQuestion 160).2 =
        { lastIndexQuiz with
          completed := true, status := FINISHED, timeTaken := 160 - lastIndexQuiz.startTime } :=
  ⟨by decide, C5_nextQuestion_completes lastIndexQuiz 160 (by decide)⟩

/-- C6 (the code at the failing input): the session of the tests, started at clock
reading 0, is completed by its third `NextQuestion` call, at clock reading 30, with
`timeTaken = 30`; a fourth call at clock reading 40 returns false but stores
`timeTaken = 40`, so the session changes and `GetTimeTaken` answers 30 before the extra
call and 40 after it. -/
theorem C6_nextQuestion_after_completion_overwrites_timeTaken :
    (testQuiz.nextAll [10, 20, 30]).completed = true ∧
      (testQuiz.nextAll [10, 20, 30]).timeTaken = 30 ∧
      ((testQuiz.nextAll [10, 20, 30]).NextQuestion 40).1 = false ∧
      ((testQuiz.nextAll [10, 20, 30]).NextQuestion 40).2.timeTaken = 40 ∧
      ((testQuiz.nextAll [10, 20, 30]).NextQuestion 40).2 ≠ testQuiz.nextAll [10, 20, 30] ∧
      (testQuiz.nextAll [10, 20, 30]).GetTimeTaken 35 = 30 ∧
      ((testQuiz.nextAll [10, 20, 30]).NextQuestion 40).2.GetTimeTaken 45 = 40 := by
  decide

theorem step_preserves_index_bounds (qs : List Questioner) (q : Quiz) (c : Call)
    (hq : q.questions = qs) (h0 : 0 ≤ q.currentIndex)
    (hle : q.currentIndex ≤ (qs.length : Int) - 1) :
    ∃ q1, q.step c = .ok q1 ∧ q1.questions = qs ∧ 0 ≤ q1.currentIndex ∧
      q1.currentIndex ≤ (qs.length : Int) - 1 ∧ q.currentIndex ≤ q1.currentIndex := by
  subst hq
  cases c with
  | next now =>
    refine ⟨(q.NextQuestion now).2, rfl, ?_⟩
    by_cases h : q.currentIndex ≥ (q.questions.length : Int) - 1
    · rw [nextQuestion_finish q now h]
      exact ⟨rfl, h0, hle, le_refl _⟩
    · rw [nextQuestion_advance q now (by omega)]
      refine ⟨rfl, ?_, ?_, ?_⟩ <;> simp only <;> omega
  | submit answer t0 t1 =>
    cases hc : q.completed with
    | true =>
      refine ⟨q, ?_, rfl, h0, hle, le_refl _⟩
      simp only [Quiz.step, submitAnswer_rejected q answer t0 t1 (Or.inl hc)]
    | false =>
      obtain ⟨cur, _, _, hs⟩ := submitAnswer_in_range q answer t0 t1 hc h0 (by omega)
      refine ⟨q.afterSubmit cur answer t0 t1, ?_, rfl, h0, hle, le_refl _⟩
      simp only [Quiz.step, hs]

theorem run_preserves_index_bounds (qs : List Questioner) (cs : List Call) (q : Quiz)
    (hq : q.questions = qs) (h0 : 0 ≤ q.currentIndex)
    (hle : q.currentIndex ≤ (qs.length : Int) - 1) :
    ∃ q1, q.run cs = .ok q1 ∧ q1.questions = qs ∧ 0 ≤ q1.currentIndex ∧
      q1.currentIndex ≤ (qs.length : Int) - 1 ∧ q.currentIndex ≤ q1.currentIndex := by
  induction cs generalizing q with
  | nil => exact ⟨q, rfl, hq, h0, hle, le_refl _⟩
  | cons c cs ih =>
    obtain ⟨q1, hs, hq1, h01, hle1, hmono⟩ := step_preserves_index_bounds qs q c hq h0 hle
    obtain ⟨q2, hr, hq2, h02, hle2, hmono2⟩ := ih q1 hq1 h01 hle1
    refine ⟨q2, ?_, hq2, h02, hle2, le_trans hmono hmono2⟩
    simp only [Quiz.run, hs, hr]

/-- C7 (counterexample): the fresh session over the empty question list is not completed
and has `currentIndex = 0`, which exceeds `len(questions) - 1 = -1` and is not below
`len(questions) = 0`. -/
theorem C7_empty_quiz_breaks_index_bounds :
    (NewQuiz "quiz1" [] 0 0).completed = false ∧
      (NewQuiz "quiz1" [] 0 0).currentIndex > ((NewQuiz "quiz1" [] 0 0).questions.length : Int) - 1 ∧
      ¬ ((NewQuiz "quiz1" [] 0 0).currentIndex < ((NewQuiz "quiz1" [] 0 0).questions.length : Int)) := by
  decide

/-- C7 (amended): for every non-empty question list given to `NewQuiz` and every sequence
`cs` of `NextQuestion` and `SubmitAnswer` calls, the calls all return and lead to a session
`q` over the same list in which `currentIndex` does not exceed `len(questions) - 1` and
`0 ≤ currentIndex < len(questions)` (in particular when `q` is not completed); and every
further call `c` returns, does not decrease `currentIndex` and keeps it at most
`len(questions) - 1`. -/
theorem C7_currentIndex_bounds_and_monotone (id : String) (qs : List Questioner)
    (now1 now2 : Time) (hne : qs ≠ []) (cs : List Call) :
    ∃ q, (NewQuiz id qs now1 now2).run cs = .ok q ∧
      q.questions = qs ∧
      0 ≤ q.currentIndex ∧
      q.currentIndex ≤ (qs.length : Int) - 1 ∧
      q.currentIndex < (qs.length : Int) ∧
      ∀ c : Call, ∃ q1, q.step c = .ok q1 ∧ q.currentIndex ≤ q1.currentIndex ∧
        q1.currentIndex ≤ (qs.length : Int) - 1 := by
  have hlen : 0 < qs.length := List.length_pos.mpr hne
  obtain ⟨q, hr, hq, h0, hle, _⟩ :=
    run_preserves_index_bounds qs cs (NewQuiz id qs now1 now2) rfl (le_refl _)
      (by simp only [NewQuiz]; omega)
  refine ⟨q, hr, hq, h0, hle, by omega, ?_⟩
  intro c
  obtain ⟨q1, hs, _, _, hle1, hmono⟩ := step_preserves_index_bounds qs q c hq h0 hle
  exact ⟨q1, hs, hmono, hle1⟩

/-- C7 (witness): the session over `createTestQuestions` driven by an answer, an advance,
an answer and three more advances. -/
theorem C7_currentIndex_bounds_and_monotone_witness :
    createTestQuestions ≠ [] ∧
    ∃ q, (NewQuiz "quiz1" createTestQuestions 0 0).run
        [.submit "4" 1 2, .next 3, .submit "false" 4 5, .next 6, .next 7, .next 8] = .ok q ∧
      q.questions = createTestQuestions ∧
      0 ≤ q.currentIndex ∧
      q.currentIndex ≤ (createTestQuestions.length : Int) - 1 ∧
      q.currentIndex < (createTestQuestions.length : Int) ∧
      ∀ c : Call, ∃ q1, q.step c = .ok q1 ∧ q.currentIndex ≤ q1.currentIndex ∧
        q1.currentIndex ≤ (createTestQuestions.length : Int) - 1 :=
  ⟨by decide,
    C7_currentIndex_bounds_and_monotone "quiz1" createTestQuestions 0 0 (by decide)
      [.submit "4" 1 2, .next 3, .submit "false" 4 5, .next 6, .next 7, .next 8]⟩

theorem nextAll_append (q : Quiz) (ts : List Time) (t : Time) :
    q.nextAll (ts ++ [t]) = ((q.nextAll ts).NextQuestion t).2 := by
  induction ts generalizing q with
  | nil => rfl
  | cons t1 ts ih =>
    show (q.NextQuestion t1).2.nextAll (ts ++ [t]) = _
    rw [ih]
    rfl

theorem nextAll_state (id : String) (qs : List Questioner) (now1 now2 : Time)
    (hn : 1 ≤ qs.length) (ts : List Time) :
    ((NewQuiz id qs now1 now2).nextAll ts).questions = qs ∧
      ((NewQuiz id qs now1 now2).nextAll ts).currentIndex =
        min (ts.length : Int) ((qs.length : Int) - 1) ∧
      ((NewQuiz id qs now1 now2).nextAll ts).completed = decide (qs.length ≤ ts.length) := by
  induction ts using List.reverseRecOn with
  | nil =>
    refine ⟨rfl, ?_, ?_⟩
    · simp only [Quiz.nextAll, NewQuiz, List.length_nil, Nat.cast_zero]
      omega
    · simp only [Quiz.nextAll, NewQuiz, List.length_nil]
      exact (decide_eq_false (by omega)).symm
  | append_singleton ts t ih =>
    obtain ⟨hq, hi, hc⟩ := ih
    rw [nextAll_append]
    by_cases h : ((NewQuiz id qs now1 now2).nextAll ts).currentIndex ≥
        ((((NewQuiz id qs now1 now2).nextAll ts).questions.length : Int)) - 1
    · rw [nextQuestion_finish _ t h]
      rw [hq] at h
      refine ⟨hq, ?_, ?_⟩
      · simp only [hi, List.length_append, List.length_singleton, Nat.cast_add, Nat.cast_one]
        omega
      · simp only [List.length_append, List.length_singleton]
        exact (decide_eq_true (by omega)).symm
    · rw [nextQuestion_advance _ t (by omega)]
      rw [hq] at h
      refine ⟨hq, ?_, ?_⟩
      · simp only [hi, List.length_append, List.length_singleton, Nat.cast_add, Nat.cast_one]
        omega
      · simp only [hc, List.length_append, List.length_singleton]
        rw [decide_eq_false (by omega), decide_eq_false (by omega)]

/-- C8: for a session freshly built from `n ≥ 1` questions and any clock readings, after
`k` `NextQuestion` calls `currentIndex = min(k, n - 1)` and `completed` is true exactly
when `k ≥ n`; and call number `k + 1` returns true exactly when `k + 1 ≤ n - 1`. Hence the
first `n - 1` calls return true and every later call false, and `completed` is false up to
and including the state after call `n - 1` and true from call `n` on. -/
theorem C8_nextQuestion_call_sequence (id : String) (qs : List Questioner) (now1 now2 : Time)
    (hn : 1 ≤ qs.length) (ts : List Time) (t : Time) :
    ((NewQuiz id qs now1 now2).nextAll ts).currentIndex =
        min (ts.length : Int) ((qs.length : Int) - 1) ∧
      ((NewQuiz id qs now1 now2).nextAll ts).completed = decide (qs.length ≤ ts.length) ∧
      (((NewQuiz id qs now1 now2).nextAll ts).NextQuestion t).1 =
        decide (ts.length + 1 ≤ qs.length - 1) := by
  obtain ⟨hq, hi, hc⟩ := nextAll_state id qs now1 now2 hn ts
  refine ⟨hi, hc, ?_⟩
  by_cases h : ((NewQuiz id qs now1 now2).nextAll ts).currentIndex ≥
      ((((NewQuiz id qs now1 now2).nextAll ts).questions.length : Int)) - 1
  · rw [nextQuestion_finish _ t h]
    rw [hq, hi] at h
    exact (decide_eq_false (by omega)).symm
  · rw [nextQuestion_advance _ t (by omega)]
    rw [hq, hi] at h
    exact (decide_eq_true (by omega)).symm

/-- C8 (witness): the three questions of `createTestQuestions` after two calls; the third
call is the completing one. -/
theorem C8_nextQuestion_call_sequence_witness :
    1 ≤ createTestQuestions.length ∧
    ((NewQuiz "quiz1" createTestQuestions 0 0).nextAll [10, 20]).currentIndex =
        min (([10, 20] : List Time).length : Int) ((createTestQuestions.length : Int) - 1) ∧
      ((NewQuiz "quiz1" createTestQuestions 0 0).nextAll [10, 20]).completed =
        decide (createTestQuestions.length ≤ ([10, 20] : List Time).length) ∧
      (((NewQuiz "quiz1" createTestQuestions 0 0).nextAll [10, 20]).NextQuestion 30).1 =
        decide (([10, 20] : List Time).length + 1 ≤ createTestQuestions.length - 1) :=
  ⟨by decide, C8_nextQuestion_call_sequence "quiz1" createTestQuestions 0 0 (by decide) [10, 20] 30⟩

/-! ## The persistence adapters -/

theorem find_map_replace (rows : List QuestionRow) (r : QuestionRow)
    (h : rows.any (fun x => x.id == r.id) = true) :
    (rows.map (fun x => if x.id == r.id then r else x)).find? (fun x => x.id == r.id) =
      some r := by
  induction rows with
  | nil => simp at h
  | cons x xs ih =>
    by_cases hx : x.id = r.id
    · simp [hx]
    · have hxs : xs.any (fun x => x.id == r.id) = true := by
        simpa [hx] using h
      simp only [List.map_cons, beq_iff_eq, hx, if_false]
      rw [List.find?_cons_of_neg _ (by simpa using hx)]
      simpa using ih hxs

theorem find_append_new (rows : List QuestionRow) (r : QuestionRow)
    (h : ¬ rows.any (fun x => x.id == r.id) = true) :
    (rows ++ [r]).find? (fun x => x.id == r.id) = some r := by
  induction rows with
  | nil => simp
  | cons x xs ih =>
    have hx : ¬ x.id = r.id := by
      intro e
      apply h
      simp [e]
    have hxs : ¬ xs.any (fun x => x.id == r.id) = true := by
      intro e
      apply h
      simp only [List.any_cons, e, Bool.or_true]
    rw [List.cons_append, List.find?_cons_of_neg _ (by simpa using hx)]
    exact ih hxs

theorem find_upsertQuestionRow (rows : List QuestionRow) (r : QuestionRow) :
    (upsertQuestionRow rows r).find? (fun x => x.id == r.id) = some r := by
  unfold upsertQuestionRow
  split_ifs with h
  · exact find_map_replace rows r h
  · exact find_append_new rows r h

theorem milliseconds_mul_cancel (k : Int) :
    Duration.Milliseconds (k * Millisecond) * Millisecond = k * Millisecond := by
  unfold Duration.Milliseconds Millisecond
  rw [Int.mul_tdiv_cancel k (by decide)]

theorem truncation_toward_zero (d : Int) :
    (0 ≤ d → 0 ≤ Int.tdiv d 1000000 * 1000000 ∧ Int.tdiv d 1000000 * 1000000 ≤ d ∧
        d - Int.tdiv d 1000000 * 1000000 < 1000000) ∧
      (d ≤ 0 → Int.tdiv d 1000000 * 1000000 ≤ 0 ∧ d ≤ Int.tdiv d 1000000 * 1000000 ∧
        Int.tdiv d 1000000 * 1000000 - d < 1000000) := by
  have hsplit : Int.tdiv d 1000000 * 1000000 + Int.tmod d 1000000 = d := by
    have := Int.tdiv_add_tmod d 1000000
    linarith
  constructor
  · intro h
    have h1 : 0 ≤ Int.tmod d 1000000 := Int.tmod_nonneg _ h
    have h2 : Int.tmod d 1000000 < 1000000 := Int.tmod_lt_of_pos d (by decide)
    have h3 : 0 ≤ Int.tdiv d 1000000 := Int.tdiv_nonneg h (by decide)
    refine ⟨?_, ?_, ?_⟩ <;> omega
  · intro h
    obtain ⟨n, hn⟩ : ∃ n : Int, d = -n ∧ 0 ≤ n := ⟨-d, by omega, by omega⟩
    have h1 : 0 ≤ Int.tmod n 1000000 := Int.tmod_nonneg _ hn.2
    have h2 : Int.tmod n 1000000 < 1000000 := Int.tmod_lt_of_pos n (by decide)
    have h3 : 0 ≤ Int.tdiv n 1000000 := Int.tdiv_nonneg hn.2 (by decide)
    have h4 : Int.tdiv n 1000000 * 1000000 + Int.tmod n 1000000 = n := by
      have := Int.tdiv_add_tmod n 1000000
      linarith
    have h5 : Int.tdiv d 1000000 = -Int.tdiv n 1000000 := by
      rw [hn.1, Int.neg_tdiv]
    refine ⟨?_, ?_, ?_⟩ <;> omega

theorem isInt64_truncation (d : Int) (h : isInt64 d) :
    isInt64 (Int.tdiv d 1000000 * 1000000) := by
  have ht := truncation_toward_zero d
  unfold isInt64 at h ⊢
  rcases le_total 0 d with h0 | h0
  · have := ht.1 h0
    omega
  · have := ht.2 h0
    omega

theorem wrap64_truncation (d : Int) (h : isInt64 d) :
    wrap64 (Duration.Milliseconds d * Millisecond) = Int.tdiv d 1000000 * 1000000 :=
  wrap64_of_isInt64 _ (isInt64_truncation d h)

theorem getQuestion_after_save (J : JSONCodec)
    (hJ : ∀ xs, J.unmarshal (J.marshal xs) = some xs) (db : DB) (q : Questioner)
    (hd : isInt64 q.GetTimeLimit) :
    (SaveQuestion J db (some q)).1 = none ∧
      GetQuestion J (SaveQuestion J db (some q)).2 q.GetID =
        .ok (q.withTimeLimit (Duration.Milliseconds q.GetTimeLimit * Millisecond)) := by
  refine ⟨by cases q <;> rfl, ?_⟩
  cases q with
  | multiChoice mc =>
    have hw := wrap64_truncation mc.TimeLimit hd
    have hf := find_upsertQuestionRow db.questions
      { id := mc.Id, type := "MULTI_CHOICE", prompt := mc.Prompt, difficulty := mc.Difficulty,
        answer := mc.Answer, hint := some mc.Hint,
        time_limit := Duration.Milliseconds mc.TimeLimit, options := some (J.marshal mc.Options) }
    simp only [GetQuestion, SaveQuestion, Questioner.GetID, Questioner.GetPrompt,
      Questioner.GetDifficulty, Questioner.GetTimeLimit, MultiChoice.GetID, MultiChoice.GetPrompt,
      MultiChoice.GetDifficulty, MultiChoice.GetTimeLimit, getAnswerString, getHint, hf, hJ, hw]
    simp [Questioner.withTimeLimit, Duration.Milliseconds, Millisecond]
  | trueFalse tf =>
    have hw := wrap64_truncation tf.TimeLimit hd
    have hf := find_upsertQuestionRow db.questions
      { id := tf.Id, type := "TRUE_FALSE", prompt := tf.Prompt, difficulty := tf.Difficulty,
        answer := if tf.Answer then "true" else "false", hint := some tf.Hint,
        time_limit := Duration.Milliseconds tf.TimeLimit, options := some "" }
    simp only [GetQuestion, SaveQuestion, Questioner.GetID, Questioner.GetPrompt,
      Questioner.GetDifficulty, Questioner.GetTimeLimit, TrueFalse.GetID, TrueFalse.GetPrompt,
      TrueFalse.GetDifficulty, TrueFalse.GetTimeLimit, getAnswerString, getHint, hf, hw]
    cases h : tf.Answer <;> simp [Questioner.withTimeLimit, h, Duration.Milliseconds, Millisecond]
  | fillIn fi =>
    have hw := wrap64_truncation fi.TimeLimit hd
    have hf := find_upsertQuestionRow db.questions
      { id := fi.Id, type := "FILL_IN", prompt := fi.Prompt, difficulty := fi.Difficulty,
        answer := fi.Answer, hint := some fi.Hint,
        time_limit := Duration.Milliseconds fi.TimeLimit, options := some "" }
    simp only [GetQuestion, SaveQuestion, Questioner.GetID, Questioner.GetPrompt,
      Questioner.GetDifficulty, Questioner.GetTimeLimit, FillIn.GetID, FillIn.GetPrompt,
      FillIn.GetDifficulty, FillIn.GetTimeLimit, getAnswerString, getHint, hf, hw]
    simp [Questioner.withTimeLimit, Duration.Milliseconds, Millisecond]

theorem withTimeLimit_self (q : Questioner) : q.withTimeLimit q.GetTimeLimit = q := by
  cases q <;> rfl

theorem getQuiz_is_newQuiz (J : JSONCodec) (db : DB) (id : String) (now1 now2 : Time)
    (q : Quiz) (h : GetQuiz J db id now1 now2 = .ok q) :
    ∃ questions, q = NewQuiz id questions now1 now2 := by
  unfold GetQuiz at h
  split at h
  · cases h
  · simp only at h
    split at h
    · cases h
    · rename_i questions _
      injection h with h
      exact ⟨questions, h.symm⟩

/-- C9 (the code at the failing input): `sessionInProgress` is reached from `NewQuiz` by one
`SubmitAnswer` and one `NextQuestion` call and has status AWAITING_ANSWER, currentIndex 1,
score 1, correctCount 1; its questions are stored and have distinct ids. `SaveQuiz`
succeeds and writes those values into the `quizzes` row, but `GetQuiz` of the same id
returns a fresh session `NewQuiz(id, questions)`: status STARTED, currentIndex 0, score 0,
correctCount 0. Its questions are the saved ones in ascending order of their ids (`fi1`,
`mc1`, `tf1`), not in the order they were saved in (`mc1`, `tf1`, `fi1`). -/
theorem C9_getQuiz_drops_saved_progress :
    (NewQuiz "quiz2" createTestQuestions 0 0).run [.submit "4" 10 11, .next 20] =
        .ok sessionInProgress ∧
      (sessionInProgress.status = AWAITING_ANSWER ∧ sessionInProgress.currentIndex = 1 ∧
        sessionInProgress.score = 1 ∧ sessionInProgress.correctCount = 1) ∧
      (SaveQuiz questionsDB sessionInProgress 50).1 = none ∧
      (SaveQuiz questionsDB sessionInProgress 50).2.quizzes =
        [{ id := "quiz2", status := "AWAITING_ANSWER", current_index := 1, score := 1,
           completed := false, start_time := 0, creation_date := 0, time_taken := 0,
           correct_count := 1 }] ∧
      GetQuiz goJSON (SaveQuiz questionsDB sessionInProgress 50).2 sessionInProgress.Id 60 61 =
        .ok (NewQuiz "quiz2" [.fillIn fi1, .multiChoice mc1, .trueFalse tf1] 60 61) ∧
      ((NewQuiz "quiz2" [.fillIn fi1, .multiChoice mc1, .trueFalse tf1] 60 61).status = STARTED ∧
        (NewQuiz "quiz2" [.fillIn fi1, .multiChoice mc1, .trueFalse tf1] 60 61).currentIndex = 0 ∧
        (NewQuiz "quiz2" [.fillIn fi1, .multiChoice mc1, .trueFalse tf1] 60 61).score = 0 ∧
        (NewQuiz "quiz2" [.fillIn fi1, .multiChoice mc1, .trueFalse tf1] 60 61).correctCount = 0) ∧
      sessionInProgress.questions = [.multiChoice mc1, .trueFalse tf1, .fillIn fi1] := by
  decide

/-- C10 (counterexample): the fill-in question `fiSubMilli` has a time limit of 1.5 ms;
saved into the empty database and loaded again by its id it comes back with a time limit
of 1 ms, so the loaded question differs from the saved one. -/
theorem C10_sub_millisecond_timeLimit_not_restored :
    GetQuestion goJSON (SaveQuestion goJSON emptyDB (some (.fillIn fiSubMilli))).2
        (Questioner.fillIn fiSubMilli).GetID =
      .ok (.fillIn { fiSubMilli with TimeLimit := 1000000 }) ∧
    Questioner.fillIn { fiSubMilli with TimeLimit := 1000000 } ≠ Questioner.fillIn fiSubMilli := by
  decide

/-- C10 (amended): provided the JSON codec decodes every encoded option list back to
itself, for every database and every question `q` of each of the three variants whose time
limit is a 64-bit duration, `SaveQuestion(q)` succeeds and `GetQuestion(q.id)` then succeeds
and returns a question of the same variant that equals `q` in id, prompt, difficulty, hint,
answer and (for MultiChoice) option list, and whose time limit is that of `q` truncated
toward zero to whole milliseconds; so it equals `q` in every field whenever the time limit
of `q` is a whole number of milliseconds. -/
theorem C10_question_roundtrip (J : JSONCodec)
    (hJ : ∀ xs, J.unmarshal (J.marshal xs) = some xs) (db : DB) (q : Questioner)
    (hd : isInt64 q.GetTimeLimit) :
    (SaveQuestion J db (some q)).1 = none ∧
      GetQuestion J (SaveQuestion J db (some q)).2 q.GetID =
        .ok (q.withTimeLimit (Int.tdiv q.GetTimeLimit 1000000 * 1000000)) ∧
      ((∃ k : Int, q.GetTimeLimit = k * Millisecond) →
        GetQuestion J (SaveQuestion J db (some q)).2 q.GetID = .ok q) := by
  obtain ⟨h1, h2⟩ := getQuestion_after_save J hJ db q hd
  refine ⟨h1, h2, ?_⟩
  rintro ⟨k, hk⟩
  rw [h2, hk, milliseconds_mul_cancel, ← hk, withTimeLimit_self]

/-- C10 (witness): the multiple-choice question `mc1` of the tests, saved into the
database that already holds the three test questions, with the concrete codec. -/
theorem C10_question_roundtrip_witness :
    (∀ xs, goJSON.unmarshal (goJSON.marshal xs) = some xs) ∧
    isInt64 (Questioner.multiChoice mc1).GetTimeLimit ∧
    (SaveQuestion goJSON questionsDB (some (.multiChoice mc1))).1 = none ∧
      GetQuestion goJSON (SaveQuestion goJSON questionsDB (some (.multiChoice mc1))).2
          (Questioner.multiChoice mc1).GetID =
        .ok ((Questioner.multiChoice mc1).withTimeLimit
          (Int.tdiv (Questioner.multiChoice mc1).GetTimeLimit 1000000 * 1000000)) ∧
      ((∃ k : Int, (Questioner.multiChoice mc1).GetTimeLimit = k * Millisecond) →
        GetQuestion goJSON (SaveQuestion goJSON questionsDB (some (.multiChoice mc1))).2
          (Questioner.multiChoice mc1).GetID = .ok (.multiChoice mc1)) :=
  ⟨goJSON_roundtrip, by decide,
    C10_question_roundtrip goJSON goJSON_roundtrip questionsDB (.multiChoice mc1) (by decide)⟩

/-! ## Driving a session to its end -/

theorem run_cons_ok (q q1 : Quiz) (c : Call) (cs : List Call) (h : q.step c = .ok q1) :
    q.run (c :: cs) = q1.run cs := by
  simp only [Quiz.run, h]

theorem getElem?_append_length_cons {α : Type} (pre : List α) (x : α) (rest : List α) :
    (pre ++ x :: rest)[pre.length]? = some x := by
  induction pre with
  | nil => simp
  | cons y ys ih => simpa using ih

theorem playRounds_from (rest : List Questioner) :
    ∀ (pre : List Questioner) (rounds : List Round) (q : Quiz),
      q.questions = pre ++ rest → q.currentIndex = (pre.length : Int) → q.completed = false →
      rest.length = rounds.length → rest ≠ [] →
      isInt64 q.correctCount → isInt64 q.score →
      ∃ q1, q.run (playRounds rounds) = .ok q1 ∧ q1.status = FINISHED ∧ q1.completed = true ∧
        q1.questionHistory = q.questionHistory ++ expectedHistory rest rounds ∧
        q1.correctCount = wrap64 (q.correctCount + expectedCorrectCount rest rounds) ∧
        q1.score = wrap64 (q.score + expectedScore rest rounds) := by
  induction rest with
  | nil => intro _ _ _ _ _ _ _ hne; exact absurd rfl hne
  | cons cur rest1 ih =>
    intro pre rounds q hq hidx hc hlen _ hcc0 hsc0
    cases rounds with
    | nil => simp at hlen
    | cons r rs =>
      have hlen1 : rest1.length = rs.length := by simpa using hlen
      have hlt : q.currentIndex < (q.questions.length : Int) := by
        rw [hq, hidx]; simp only [List.length_append, List.length_cons, Nat.cast_add]; omega
      obtain ⟨cur1, hcur1, _, hs⟩ :=
        submitAnswer_in_range q r.answer r.t0 r.t1 hc (by omega) hlt
      have hcur : cur1 = cur := by
        have h1 : q.questions[q.currentIndex.toNat]? = some cur := by
          rw [hq, hidx, Int.toNat_ofNat]
          exact getElem?_append_length_cons pre cur rest1
        rw [h1] at hcur1
        exact (Option.some.inj hcur1).symm
      subst hcur
      have hstep : q.step (.submit r.answer r.t0 r.t1) =
          .ok (q.afterSubmit cur1 r.answer r.t0 r.t1) := by
        simp only [Quiz.step, hs]
      have hcc1 : (q.afterSubmit cur1 r.answer r.t0 r.t1).correctCount =
          wrap64 (q.correctCount + (if cur1.CheckAnswer r.answer then 1 else 0)) := by
        show (if cur1.CheckAnswer r.answer then wrap64 (q.correctCount + 1)
          else q.correctCount) = _
        split_ifs
        · rfl
        · rw [Int.add_zero, wrap64_of_isInt64 _ hcc0]
      have hsc1 : (q.afterSubmit cur1 r.answer r.t0 r.t1).score =
          wrap64 (q.score + (if cur1.CheckAnswer r.answer then cur1.GetDifficulty else 0)) := by
        show (if cur1.CheckAnswer r.answer then wrap64 (q.score + cur1.GetDifficulty)
          else q.score) = _
        split_ifs
        · rfl
        · rw [Int.add_zero, wrap64_of_isInt64 _ hsc0]
      show ∃ q1, q.run (.submit r.answer r.t0 r.t1 :: .next r.now :: playRounds rs) = .ok q1 ∧ _
      rw [run_cons_ok q _ _ _ hstep]
      have hstep2 : (q.afterSubmit cur1 r.answer r.t0 r.t1).step (.next r.now) =
          .ok ((q.afterSubmit cur1 r.answer r.t0 r.t1).NextQuestion r.now).2 := rfl
      rw [run_cons_ok _ _ _ _ hstep2]
      cases rest1 with
      | nil =>
        have hrs : rs = [] := List.length_eq_zero.mp hlen1.symm
        subst hrs
        have hlast : (q.afterSubmit cur1 r.answer r.t0 r.t1).currentIndex ≥
            (((q.afterSubmit cur1 r.answer r.t0 r.t1).questions.length : Int)) - 1 := by
          show q.currentIndex ≥ (q.questions.length : Int) - 1
          rw [hq, hidx]; simp only [List.length_append, List.length_cons, List.length_nil,
            Nat.cast_add]; omega
        rw [nextQuestion_finish _ _ hlast]
        refine ⟨_, rfl, rfl, rfl, rfl, ?_, ?_⟩
        · show (q.afterSubmit cur1 r.answer r.t0 r.t1).correctCount = _
          rw [hcc1]
          simp only [expectedCorrectCount, Int.add_zero]
        · show (q.afterSubmit cur1 r.answer r.t0 r.t1).score = _
          rw [hsc1]
          simp only [expectedScore, Int.add_zero]
      | cons cur2 rest2 =>
        have hnot : (q.afterSubmit cur1 r.answer r.t0 r.t1).currentIndex <
            (((q.afterSubmit cur1 r.answer r.t0 r.t1).questions.length : Int)) - 1 := by
          show q.currentIndex < (q.questions.length : Int) - 1
          rw [hq, hidx]; simp only [List.length_append, List.length_cons, Nat.cast_add]; omega
        rw [nextQuestion_advance _ _ hnot]
        obtain ⟨q1, hr, hst, hcomp, hh, hcc, hsc⟩ :=
          ih (pre ++ [cur1]) rs
            { q.afterSubmit cur1 r.answer r.t0 r.t1 with
              currentIndex := (q.afterSubmit cur1 r.answer r.t0 r.t1).currentIndex + 1
              status := AWAITING_ANSWER }
            (by show q.questions = _; rw [hq]; simp)
            (by show q.currentIndex + 1 = _; rw [hidx]; simp)
            (by show q.completed = false; exact hc)
            hlen1 (by simp)
            (by show isInt64 (q.afterSubmit cur1 r.answer r.t0 r.t1).correctCount
                rw [hcc1]; exact isInt64_wrap64 _)
            (by show isInt64 (q.afterSubmit cur1 r.answer r.t0 r.t1).score
                rw [hsc1]; exact isInt64_wrap64 _)
        refine ⟨q1, hr, hst, hcomp, ?_, ?_, ?_⟩
        · rw [hh]
          show (q.questionHistory ++ [_]) ++ _ = _
          simp [expectedHistory]
        · rw [hcc]
          show wrap64 ((q.afterSubmit cur1 r.answer r.t0 r.t1).correctCount + _) = _
          rw [hcc1, wrap64_add_wrap64]
          simp only [expectedCorrectCount, Int.add_assoc]
        · rw [hsc]
          show wrap64 ((q.afterSubmit cur1 r.answer r.t0 r.t1).score + _) = _
          rw [hsc1, wrap64_add_wrap64]
          simp only [expectedScore, Int.add_assoc]

theorem expectedCorrectCount_bounds (qs : List Questioner) :
    ∀ rounds : List Round,
      0 ≤ expectedCorrectCount qs rounds ∧ expectedCorrectCount qs rounds ≤ (qs.length : Int) := by
  induction qs with
  | nil => intro rounds; cases rounds <;> simp [expectedCorrectCount]
  | cons q qs ih =>
    intro rounds
    cases rounds with
    | nil => simp only [expectedCorrectCount, List.length_cons, Nat.cast_add]; omega
    | cons r rs =>
      have := ih rs
      simp only [expectedCorrectCount, List.length_cons, Nat.cast_add]
      split_ifs <;> omega

theorem expectedHistory_length (qs : List Questioner) :
    ∀ rounds : List Round, qs.length = rounds.length →
      (expectedHistory qs rounds).length = qs.length := by
  induction qs with
  | nil => intro rounds _; cases rounds <;> rfl
  | cons q qs ih =>
    intro rounds h
    cases rounds with
    | nil => simp at h
    | cons r rs =>
      simp only [expectedHistory, List.length_cons]
      rw [ih rs (by simpa using h)]

/-- C11 (counterexample): the two questions of `hugeQuestions` are each worth the largest
Go `int`; answering both correctly, one round each, ends in status FINISHED with
correctCount 2, but the score is -2, while the sum of the difficulties of the correctly
answered questions is 18446744073709551614. -/
theorem C11_play_all_rounds_score_wraps :
    (1 ≤ hugeQuestions.length ∧ hugeQuestions.length = hugeRounds.length) ∧
    ((NewQuiz "quiz1" hugeQuestions 0 0).run (playRounds hugeRounds)).map
        (fun q => (q.score, q.correctCount, q.questionHistory.length, q.status)) =
      .ok (-2, 2, 2, FINISHED) ∧
    expectedScore hugeQuestions hugeRounds = 18446744073709551614 ∧
    ((NewQuiz "quiz1" hugeQuestions 0 0).run (playRounds hugeRounds)).map (fun q => q.score) ≠
      .ok (expectedScore hugeQuestions hugeRounds) := by
  decide

/-- C11 (amended): for every session freshly built from `n ≥ 1` questions and driven
through `n` rounds (answer the current question once, then call `NextQuestion`), all calls
return and the final session has status FINISHED and `completed = true`; its history has
`n` entries, entry `i` recording the id of question `i` and whether answer `i` was correct;
`correctCount` is the number of correct answers whenever `n` fits into a 64-bit integer (as
the length of a Go slice does), and `score` is the sum of the difficulties of the correctly
answered questions reduced to 64 bits in two's complement, so it is that sum whenever the
sum fits into a 64-bit integer. On `createTestQuestions` (difficulties 1, 2, 3) with a
correct, a correct and an incorrect answer this gives score 3, correctCount 2, history
length 3 and status FINISHED. -/
theorem C11_play_all_rounds (id : String) (qs : List Questioner) (now1 now2 : Time)
    (rounds : List Round) (hn : 1 ≤ qs.length) (hlen : qs.length = rounds.length) :
    (∃ q, (NewQuiz id qs now1 now2).run (playRounds rounds) = .ok q ∧
      q.status = FINISHED ∧ q.completed = true ∧
      q.questionHistory = expectedHistory qs rounds ∧
      q.questionHistory.length = qs.length ∧
      q.correctCount = wrap64 (expectedCorrectCount qs rounds) ∧
      (isInt64 (qs.length : Int) → q.correctCount = expectedCorrectCount qs rounds) ∧
      q.score = wrap64 (expectedScore qs rounds) ∧
      (isInt64 (expectedScore qs rounds) → q.score = expectedScore qs rounds)) ∧
    ((NewQuiz "quiz1" createTestQuestions 0 0).run (playRounds scenarioRounds)).map
        (fun q => (q.score, q.correctCount, q.questionHistory.length, q.status)) =
      .ok (3, 2, 3, FINISHED) := by
  refine ⟨?_, by decide⟩
  have hne : qs ≠ [] := by
    intro h
    rw [h] at hn
    simp at hn
  obtain ⟨q, hr, hst, hc, hh, hcc, hsc⟩ :=
    playRounds_from qs [] rounds (NewQuiz id qs now1 now2) rfl rfl rfl hlen hne
      (by show isInt64 (0 : Int); decide) (by show isInt64 (0 : Int); decide)
  have hcc1 : q.correctCount = wrap64 (expectedCorrectCount qs rounds) := by
    simpa [NewQuiz] using hcc
  have hsc1 : q.score = wrap64 (expectedScore qs rounds) := by
    simpa [NewQuiz] using hsc
  refine ⟨q, hr, hst, hc, ?_, ?_, hcc1, ?_, hsc1, ?_⟩
  · simpa [NewQuiz] using hh
  · rw [hh]
    simp only [NewQuiz, List.nil_append]
    exact expectedHistory_length qs rounds hlen
  · intro hfit
    rw [hcc1]
    apply wrap64_of_isInt64
    have hb := expectedCorrectCount_bounds qs rounds
    unfold isInt64 at hfit ⊢
    omega
  · intro hfit
    rw [hsc1]
    exact wrap64_of_isInt64 _ hfit

/-- C11 (witness): the scenario of the specification on `createTestQuestions`. -/
theorem C11_play_all_rounds_witness :
    (1 ≤ createTestQuestions.length ∧ createTestQuestions.length = scenarioRounds.length) ∧
    (∃ q, (NewQuiz "quiz1" createTestQuestions 0 0).run (playRounds scenarioRounds) = .ok q ∧
      q.status = FINISHED ∧ q.completed = true ∧
      q.questionHistory = expectedHistory createTestQuestions scenarioRounds ∧
      q.questionHistory.length = createTestQuestions.length ∧
      q.correctCount = wrap64 (expectedCorrectCount createTestQuestions scenarioRounds) ∧
      (isInt64 (createTestQuestions.length : Int) →
        q.correctCount = expectedCorrectCount createTestQuestions scenarioRounds) ∧
      q.score = wrap64 (expectedScore createTestQuestions scenarioRounds) ∧
      (isInt64 (expectedScore createTestQuestions scenarioRounds) →
        q.score = expectedScore createTestQuestions scenarioRounds)) ∧
    ((NewQuiz "quiz1" createTestQuestions 0 0).run (playRounds scenarioRounds)).map
        (fun q => (q.score, q.correctCount, q.questionHistory.length, q.status)) =
      .ok (3, 2, 3, FINISHED) :=
  ⟨by decide,
    C11_play_all_rounds "quiz1" createTestQuestions 0 0 scenarioRounds (by decide) (by decide)⟩

/-! ## Score and history bookkeeping -/

theorem accepting_submit (q : Quiz) (cur : Questioner) (h : q.accepting = some cur)
    (s : String) (t0 t1 : Time) :
    q.SubmitAnswer s t0 t1 = .ok (cur.CheckAnswer s, q.afterSubmit cur s t0 t1) ∧
      (q.afterSubmit cur s t0 t1).accepting = some cur := by
  have key : (q.completed || decide (q.currentIndex ≥ (q.questions.length : Int))) = false ∧
      q.CurrentQuestion = .ok (some cur) := by
    unfold Quiz.accepting at h
    split_ifs at h with hg
    refine ⟨by simpa using hg, ?_⟩
    split at h
    · rename_i c hc
      rw [hc, Option.some.inj h]
    · cases h
  obtain ⟨hg, hq⟩ := key
  constructor
  · unfold Quiz.SubmitAnswer
    rw [hg]
    simp only [Bool.false_eq_true, if_false, hq]
    cases hck : cur.CheckAnswer s <;> simp [Quiz.afterSubmit, Since, hck]
  · have hq2 : (q.afterSubmit cur s t0 t1).CurrentQuestion = .ok (some cur) := hq
    unfold Quiz.accepting
    rw [hq2]
    have hg2 : ((q.afterSubmit cur s t0 t1).completed ||
        decide ((q.afterSubmit cur s t0 t1).currentIndex ≥
          (((q.afterSubmit cur s t0 t1).questions.length : Int)))) = false := hg
    rw [hg2]
    rfl

theorem accepting_cases (q : Quiz) (h0 : 0 ≤ q.currentIndex) :
    (∃ cur, q.accepting = some cur) ∨
      (q.accepting = none ∧
        (q.completed = true ∨ q.currentIndex ≥ (q.questions.length : Int))) := by
  by_cases hg : q.completed = true ∨ q.currentIndex ≥ (q.questions.length : Int)
  · right
    refine ⟨?_, hg⟩
    unfold Quiz.accepting
    rw [if_pos (by simpa using hg)]
  · left
    have hc : q.completed = false := by
      cases h : q.completed
      · rfl
      · exact absurd (Or.inl h) hg
    have hlt : q.currentIndex < (q.questions.length : Int) := by
      by_contra hn
      exact hg (Or.inr (by omega))
    obtain ⟨cur, _, hq⟩ := currentQuestion_in_range q h0 hlt
    refine ⟨cur, ?_⟩
    unfold Quiz.accepting
    rw [if_neg (by simp [hc]; omega), hq]

theorem countCorrect_append (h : List QuestionResult) (e : QuestionResult) :
    countCorrect (h ++ [e]) = countCorrect h + (if e.Correct then 1 else 0) := by
  induction h with
  | nil => simp [countCorrect]
  | cons x xs ih =>
    show (if x.Correct then 1 else 0) + countCorrect (xs ++ [e]) =
      ((if x.Correct then 1 else 0) + countCorrect xs) + (if e.Correct then 1 else 0)
    rw [ih]
    omega

theorem countCorrect_bounds (h : List QuestionResult) :
    0 ≤ countCorrect h ∧ countCorrect h ≤ (h.length : Int) := by
  induction h with
  | nil => simp [countCorrect]
  | cons x xs ih =>
    simp only [countCorrect, List.length_cons, Nat.cast_add]
    split_ifs <;> omega

theorem run_bookkeeping (cs : List Call) :
    ∀ q : Quiz, 0 ≤ q.currentIndex → isInt64 q.correctCount → isInt64 q.score →
      ∃ q1, q.run cs = .ok q1 ∧ 0 ≤ q1.currentIndex ∧
        q1.correctCount = wrap64 (q.correctCount +
          (countCorrect q1.questionHistory - countCorrect q.questionHistory)) ∧
        q1.score = wrap64 (q.score + sumCorrectDifficulty (q.acceptedSubmissions cs)) ∧
        q1.questionHistory.map (fun r => (r.QuestionID, r.Correct)) =
          q.questionHistory.map (fun r => (r.QuestionID, r.Correct)) ++
            (q.acceptedSubmissions cs).map (fun e => (e.1.GetID, e.2)) := by
  induction cs with
  | nil =>
    intro q h0 hcc0 hsc0
    refine ⟨q, rfl, h0, ?_, ?_, by simp [Quiz.acceptedSubmissions]⟩
    · rw [Int.sub_self, Int.add_zero, wrap64_of_isInt64 _ hcc0]
    · simp only [Quiz.acceptedSubmissions, sumCorrectDifficulty, Int.add_zero]
      rw [wrap64_of_isInt64 _ hsc0]
  | cons c cs ih =>
    intro q h0 hcc0 hsc0
    cases c with
    | next now =>
      have hstep : q.step (.next now) = .ok (q.NextQuestion now).2 := rfl
      have h01 : 0 ≤ (q.NextQuestion now).2.currentIndex := by
        unfold Quiz.NextQuestion
        split_ifs
        · exact h0
        · show 0 ≤ q.currentIndex + 1
          omega
      have hsame : (q.NextQuestion now).2.correctCount = q.correctCount ∧
          (q.NextQuestion now).2.score = q.score ∧
          (q.NextQuestion now).2.questionHistory = q.questionHistory := by
        unfold Quiz.NextQuestion
        split_ifs <;> exact ⟨rfl, rfl, rfl⟩
      obtain ⟨q1, hr, h1, hcc, hsc, hh⟩ := ih (q.NextQuestion now).2 h01
        (by rw [hsame.1]; exact hcc0) (by rw [hsame.2.1]; exact hsc0)
      refine ⟨q1, by rw [run_cons_ok q _ _ _ hstep, hr], h1, ?_, ?_, ?_⟩
      · rw [hcc, hsame.1, hsame.2.2]
      · rw [hsc, hsame.2.1]
        simp only [Quiz.acceptedSubmissions, hstep]
      · rw [hh, hsame.2.2]
        simp only [Quiz.acceptedSubmissions, hstep]
    | submit answer t0 t1 =>
      rcases accepting_cases q h0 with ⟨cur, hacc⟩ | ⟨hacc, hrej⟩
      · obtain ⟨hs, _⟩ := accepting_submit q cur hacc answer t0 t1
        have hstep : q.step (.submit answer t0 t1) = .ok (q.afterSubmit cur answer t0 t1) := by
          simp only [Quiz.step, hs]
        have hcc1 : (q.afterSubmit cur answer t0 t1).correctCount =
            wrap64 (q.correctCount + (if cur.CheckAnswer answer then 1 else 0)) := by
          show (if cur.CheckAnswer answer then wrap64 (q.correctCount + 1)
            else q.correctCount) = _
          split_ifs
          · rfl
          · rw [Int.add_zero, wrap64_of_isInt64 _ hcc0]
        have hsc1 : (q.afterSubmit cur answer t0 t1).score =
            wrap64 (q.score + (if cur.CheckAnswer answer then cur.GetDifficulty else 0)) := by
          show (if cur.CheckAnswer answer then wrap64 (q.score + cur.GetDifficulty)
            else q.score) = _
          split_ifs
          · rfl
          · rw [Int.add_zero, wrap64_of_isInt64 _ hsc0]
        have hh1 : countCorrect (q.afterSubmit cur answer t0 t1).questionHistory =
            countCorrect q.questionHistory + (if cur.CheckAnswer answer then 1 else 0) := by
          show countCorrect (q.questionHistory ++ [_]) = _
          rw [countCorrect_append]
        obtain ⟨q1, hr, h1, hcc, hsc, hh⟩ := ih (q.afterSubmit cur answer t0 t1) h0
          (by rw [hcc1]; exact isInt64_wrap64 _) (by rw [hsc1]; exact isInt64_wrap64 _)
        refine ⟨q1, by rw [run_cons_ok q _ _ _ hstep, hr], h1, ?_, ?_, ?_⟩
        · rw [hcc, hcc1, hh1, wrap64_add_wrap64]
          congr 1
          omega
        · rw [hsc, hsc1, wrap64_add_wrap64]
          simp only [Quiz.acceptedSubmissions, hstep, hacc, sumCorrectDifficulty, Int.add_assoc]
        · rw [hh]
          show List.map _ (q.questionHistory ++ [_]) ++ _ = _
          simp only [Quiz.acceptedSubmissions, hstep, hacc]
          simp
      · have hs := submitAnswer_rejected q answer t0 t1 hrej
        have hstep : q.step (.submit answer t0 t1) = .ok q := by
          simp only [Quiz.step, hs]
        obtain ⟨q1, hr, h1, hcc, hsc, hh⟩ := ih q h0 hcc0 hsc0
        refine ⟨q1, by rw [run_cons_ok q _ _ _ hstep, hr], h1, hcc, ?_, ?_⟩
        · rw [hsc]
          simp only [Quiz.acceptedSubmissions, hstep, hacc]
        · rw [hh]
          simp only [Quiz.acceptedSubmissions, hstep, hacc]

/-- C12 (counterexample): the session `hugeQuiz` over one question of difficulty
`maxInt64`, reached from `NewQuiz`, accepts the correct answer "4" twice in a row; both
submissions are accepted and correct, so the sum of the difficulties over the accepted
correct submissions is 18446744073709551614, but the score of the session reached is -2. -/
theorem C12_score_differs_from_sum :
    hugeQuiz = NewQuiz "quiz1" [.multiChoice hugeMC] 0 0 ∧
    hugeQuiz.acceptedSubmissions [.submit "4" 1 2, .submit "4" 3 4] =
      [(.multiChoice hugeMC, true), (.multiChoice hugeMC, true)] ∧
    sumCorrectDifficulty (hugeQuiz.acceptedSubmissions [.submit "4" 1 2, .submit "4" 3 4]) =
      18446744073709551614 ∧
    (hugeQuiz.run [.submit "4" 1 2, .submit "4" 3 4]).map
        (fun q => (q.score, q.correctCount, q.questionHistory.length)) = .ok (-2, 2, 2) ∧
    (hugeQuiz.run [.submit "4" 1 2, .submit "4" 3 4]).map (fun q => q.score) ≠
      .ok (sumCorrectDifficulty
        (hugeQuiz.acceptedSubmissions [.submit "4" 1 2, .submit "4" 3 4])) := by
  decide

/-- C12 (amended): for every question list and every sequence of `SubmitAnswer` and
`NextQuestion` calls from `NewQuiz`, the calls return and in the session reached the
history lists the accepted submissions in order (question id and correctness);
`correctCount` is the number of history entries with `Correct = true` reduced to 64 bits in
two's complement, so it is that number whenever the history length fits into a 64-bit
integer (as the length of a Go slice does); and `score` is the sum, over the accepted
correct submissions, of the difficulty of the question that was current at that
submission, reduced to 64 bits in two's complement, so it is that sum whenever the sum
fits into a 64-bit integer. And in any session that accepts submissions, submitting a
correct answer twice in a row for the same current question appends two history entries
and adds the difficulty twice to the score and 2 to correctCount, in wrapping 64-bit
arithmetic, hence exactly whenever the results fit into 64 bits. -/
theorem C12_score_accumulates_per_submission (id : String) (qs : List Questioner)
    (now1 now2 : Time) (cs : List Call) :
    (∃ q, (NewQuiz id qs now1 now2).run cs = .ok q ∧
      q.correctCount = wrap64 (countCorrect q.questionHistory) ∧
      (isInt64 (q.questionHistory.length : Int) →
        q.correctCount = countCorrect q.questionHistory) ∧
      q.questionHistory.map (fun r => (r.QuestionID, r.Correct)) =
        ((NewQuiz id qs now1 now2).acceptedSubmissions cs).map (fun e => (e.1.GetID, e.2)) ∧
      q.score =
        wrap64 (sumCorrectDifficulty ((NewQuiz id qs now1 now2).acceptedSubmissions cs)) ∧
      (isInt64 (sumCorrectDifficulty ((NewQuiz id qs now1 now2).acceptedSubmissions cs)) →
        q.score = sumCorrectDifficulty ((NewQuiz id qs now1 now2).acceptedSubmissions cs))) ∧
    (∀ (q : Quiz) (cur : Questioner) (s : String) (t0 t1 t2 t3 : Time),
      q.accepting = some cur → cur.CheckAnswer s = true →
      ∃ q2, q.run [.submit s t0 t1, .submit s t2 t3] = .ok q2 ∧
        q2.questionHistory = q.questionHistory ++
          [{ QuestionID := cur.GetID, Correct := true, TimeTaken := t1 - t0 },
           { QuestionID := cur.GetID, Correct := true, TimeTaken := t3 - t2 }] ∧
        q2.score = wrap64 (q.score + cur.GetDifficulty + cur.GetDifficulty) ∧
        (isInt64 (q.score + cur.GetDifficulty + cur.GetDifficulty) →
          q2.score = q.score + cur.GetDifficulty + cur.GetDifficulty) ∧
        q2.correctCount = wrap64 (q.correctCount + 2) ∧
        (isInt64 (q.correctCount + 2) → q2.correctCount = q.correctCount + 2)) := by
  constructor
  · obtain ⟨q, hr, _, hcc, hsc, hh⟩ :=
      run_bookkeeping cs (NewQuiz id qs now1 now2) (le_refl _)
        (by show isInt64 (0 : Int); decide) (by show isInt64 (0 : Int); decide)
    have hcc1 : q.correctCount = wrap64 (countCorrect q.questionHistory) := by
      rw [hcc]
      congr 1
      show (0 : Int) + (countCorrect q.questionHistory - countCorrect []) = _
      simp [countCorrect]
    have hsc1 : q.score =
        wrap64 (sumCorrectDifficulty ((NewQuiz id qs now1 now2).acceptedSubmissions cs)) := by
      rw [hsc]
      congr 1
      show (0 : Int) + _ = _
      omega
    refine ⟨q, hr, hcc1, ?_, ?_, hsc1, ?_⟩
    · intro hfit
      rw [hcc1]
      apply wrap64_of_isInt64
      have hb := countCorrect_bounds q.questionHistory
      unfold isInt64 at hfit ⊢
      omega
    · simpa [NewQuiz] using hh
    · intro hfit
      rw [hsc1]
      exact wrap64_of_isInt64 _ hfit
  · intro q cur s t0 t1 t2 t3 hacc hck
    obtain ⟨hs1, hacc1⟩ := accepting_submit q cur hacc s t0 t1
    obtain ⟨hs2, _⟩ := accepting_submit (q.afterSubmit cur s t0 t1) cur hacc1 s t2 t3
    have hsc : ((q.afterSubmit cur s t0 t1).afterSubmit cur s t2 t3).score =
        wrap64 (q.score + cur.GetDifficulty + cur.GetDifficulty) := by
      simp only [Quiz.afterSubmit, hck, if_true]
      exact wrap64_add_wrap64 _ _
    have hcc : ((q.afterSubmit cur s t0 t1).afterSubmit cur s t2 t3).correctCount =
        wrap64 (q.correctCount + 2) := by
      simp only [Quiz.afterSubmit, hck, if_true]
      rw [wrap64_add_wrap64]
      congr 1
      omega
    refine ⟨(q.afterSubmit cur s t0 t1).afterSubmit cur s t2 t3, ?_, ?_, hsc, ?_, hcc, ?_⟩
    · simp only [Quiz.run, Quiz.step, hs1, hs2]
    · simp [Quiz.afterSubmit, hck]
    · intro hfit
      rw [hsc]
      exact wrap64_of_isInt64 _ hfit
    · intro hfit
      rw [hcc]
      exact wrap64_of_isInt64 _ hfit

/-- C12 (witness): the fresh session of the tests after the correct answer "4" and one
advance; and the correct answer "4" submitted twice in a row to the fresh session. -/
theorem C12_score_accumulates_per_submission_witness :
    (∃ q, (NewQuiz "quiz1" createTestQuestions 0 0).run [.submit "4" 1 2, .next 3] = .ok q ∧
      q.correctCount = wrap64 (countCorrect q.questionHistory) ∧
      (isInt64 (q.questionHistory.length : Int) →
        q.correctCount = countCorrect q.questionHistory) ∧
      q.questionHistory.map (fun r => (r.QuestionID, r.Correct)) =
        ((NewQuiz "quiz1" createTestQuestions 0 0).acceptedSubmissions
          [.submit "4" 1 2, .next 3]).map (fun e => (e.1.GetID, e.2)) ∧
      q.score = wrap64 (sumCorrectDifficulty
        ((NewQuiz "quiz1" createTestQuestions 0 0).acceptedSubmissions
          [.submit "4" 1 2, .next 3])) ∧
      (isInt64 (sumCorrectDifficulty
          ((NewQuiz "quiz1" createTestQuestions 0 0).acceptedSubmissions
            [.submit "4" 1 2, .next 3])) →
        q.score = sumCorrectDifficulty
          ((NewQuiz "quiz1" createTestQuestions 0 0).acceptedSubmissions
            [.submit "4" 1 2, .next 3]))) ∧
    (testQuiz.accepting = some (.multiChoice mc1) ∧
      (Questioner.multiChoice mc1).CheckAnswer "4" = true) ∧
    ∃ q2, testQuiz.run [.submit "4" 1 2, .submit "4" 3 4] = .ok q2 ∧
      q2.questionHistory = testQuiz.questionHistory ++
        [{ QuestionID := (Questioner.multiChoice mc1).GetID, Correct := true, TimeTaken := 2 - 1 },
         { QuestionID := (Questioner.multiChoice mc1).GetID, Correct := true, TimeTaken := 4 - 3 }] ∧
      q2.score = wrap64 (testQuiz.score + (Questioner.multiChoice mc1).GetDifficulty +
        (Questioner.multiChoice mc1).GetDifficulty) ∧
      (isInt64 (testQuiz.score + (Questioner.multiChoice mc1).GetDifficulty +
          (Questioner.multiChoice mc1).GetDifficulty) →
        q2.score = testQuiz.score + (Questioner.multiChoice mc1).GetDifficulty +
          (Questioner.multiChoice mc1).GetDifficulty) ∧
      q2.correctCount = wrap64 (testQuiz.correctCount + 2) ∧
      (isInt64 (testQuiz.correctCount + 2) → q2.correctCount = testQuiz.correctCount + 2) :=
  ⟨(C12_score_accumulates_per_submission "quiz1" createTestQuestions 0 0
      [.submit "4" 1 2, .next 3]).1,
    by decide,
    (C12_score_accumulates_per_submission "quiz1" createTestQuestions 0 0 []).2 testQuiz
      (.multiChoice mc1) "4" 1 2 3 4 (by decide) (by decide)⟩

/-! ## Answer checking -/

/-- C13: for every multiple-choice question and every fill-in question and every string
`s`, `CheckAnswer(s)` is true exactly when `s` equals the stored answer; for a
multiple-choice question the result is the same whatever the option list is. So the answer
"4" is correct for `mc1` with the options "3" and "5" only, and "paris", " Paris" and
"Paris " are all incorrect for `fi1`, whose answer is "Paris". -/
theorem C13_exact_match_checkAnswer (mc : MultiChoice) (fi : FillIn) (s : String)
    (options : List String) :
    (mc.CheckAnswer s = true ↔ s = mc.Answer) ∧
      (fi.CheckAnswer s = true ↔ s = fi.Answer) ∧
      ({ mc with Options := options } : MultiChoice).CheckAnswer s = mc.CheckAnswer s ∧
      ({ mc1 with Options := ["3", "5"] } : MultiChoice).CheckAnswer "4" = true ∧
      fi1.CheckAnswer "Paris" = true ∧
      fi1.CheckAnswer "paris" = false ∧
      fi1.CheckAnswer " Paris" = false ∧
      fi1.CheckAnswer "Paris " = false := by
  refine ⟨?_, ?_, rfl, by decide, by decide, by decide, by decide, by decide⟩
  · simp [MultiChoice.CheckAnswer]
  · simp [FillIn.CheckAnswer]

/-- C14: for every true/false question whose canonical answer is true and every string
`s`, `CheckAnswer(s)` is true exactly when `s` is "true"; in particular "false" and
"maybe" are rejected. -/
theorem C14_trueFalse_answer_true (tf : TrueFalse) (s : String) (_h : tf.Answer = true) :
    (tf.CheckAnswer s = true ↔ s = "true") ∧
      tf.CheckAnswer "false" = false ∧
      tf.CheckAnswer "maybe" = false := by
  refine ⟨?_, ?_, ?_⟩
  · simp [TrueFalse.CheckAnswer]
  · unfold TrueFalse.CheckAnswer
    decide
  · unfold TrueFalse.CheckAnswer
    decide

/-- C14 (witness): the question `tf1` of the tests, whose canonical answer is true. -/
theorem C14_trueFalse_answer_true_witness :
    tf1.Answer = true ∧
    (tf1.CheckAnswer "true" = true ↔ "true" = "true") ∧
      tf1.CheckAnswer "false" = false ∧
      tf1.CheckAnswer "maybe" = false :=
  ⟨rfl, C14_trueFalse_answer_true tf1 "true" rfl⟩

/-- C15: `CheckAnswer` is pure. A call returns the value of the function `CheckAnswer` of
the question and the string, so two calls with the same string agree, and leaves the
question as it was; and two questions of the same variant with the same stored answer
give the same result on every string, whatever their id, prompt, difficulty, hint, time
limit and options are. -/
theorem C15_checkAnswer_pure (q : Questioner) (s : String) (mc mc2 : MultiChoice)
    (tf tf2 : TrueFalse) (fi fi2 : FillIn) :
    (q.CheckAnswerCall s).1 = q.CheckAnswer s ∧
      (q.CheckAnswerCall s).2 = q ∧
      ((q.CheckAnswerCall s).2.CheckAnswerCall s).1 = (q.CheckAnswerCall s).1 ∧
      (mc.Answer = mc2.Answer → mc.CheckAnswer s = mc2.CheckAnswer s) ∧
      (tf.Answer = tf2.Answer → tf.CheckAnswer s = tf2.CheckAnswer s) ∧
      (fi.Answer = fi2.Answer → fi.CheckAnswer s = fi2.CheckAnswer s) := by
  refine ⟨rfl, rfl, rfl, ?_, ?_, ?_⟩
  · intro h
    simp [MultiChoice.CheckAnswer, h]
  · intro _
    rfl
  · intro h
    simp [FillIn.CheckAnswer, h]

/-- C15 (witness): `mc1`, `tf1` and `fi1` against questions of the same variant that share
only their stored answer. -/
theorem C15_checkAnswer_pure_witness :
    (mc1.Answer = mcSameAnswer.Answer ∧ mc1.CheckAnswer "4" = mcSameAnswer.CheckAnswer "4") ∧
    (tf1.Answer = tfSameAnswer.Answer ∧ tf1.CheckAnswer "4" = tfSameAnswer.CheckAnswer "4") ∧
    (fi1.Answer = fiSameAnswer.Answer ∧ fi1.CheckAnswer "4" = fiSameAnswer.CheckAnswer "4") :=
  ⟨⟨rfl, (C15_checkAnswer_pure (.multiChoice mc1) "4" mc1 mcSameAnswer tf1 tfSameAnswer fi1
      fiSameAnswer).2.2.2.1 rfl⟩,
    ⟨rfl, (C15_checkAnswer_pure (.multiChoice mc1) "4" mc1 mcSameAnswer tf1 tfSameAnswer fi1
      fiSameAnswer).2.2.2.2.1 rfl⟩,
    ⟨rfl, (C15_checkAnswer_pure (.multiChoice mc1) "4" mc1 mcSameAnswer tf1 tfSameAnswer fi1
      fiSameAnswer).2.2.2.2.2 rfl⟩⟩

/-! ## No operation fails -/

theorem currentQuestion_returns (q : Quiz) (h0 : 0 ≤ q.currentIndex) :
    (q.currentIndex < (q.questions.length : Int) →
        ∃ x, q.questions[q.currentIndex.toNat]? = some x ∧ q.CurrentQuestion = .ok (some x)) ∧
      (q.currentIndex ≥ (q.questions.length : Int) → q.CurrentQuestion = .ok none) := by
  constructor
  · intro hlt
    exact currentQuestion_in_range q h0 hlt
  · intro hge
    unfold Quiz.CurrentQuestion
    rw [if_pos hge]

theorem exec_currentQuestion (q : Quiz) (h0 : 0 ≤ q.currentIndex) :
    q.exec .currentQuestion = .ok q := by
  by_cases hlt : q.currentIndex < (q.questions.length : Int)
  · obtain ⟨x, _, hx⟩ := (currentQuestion_returns q h0).1 hlt
    simp only [Quiz.exec, hx]
  · have hx := (currentQuestion_returns q h0).2 (by omega)
    simp only [Quiz.exec, hx]

theorem exec_returns (q : Quiz) (o : Op) (h0 : 0 ≤ q.currentIndex) :
    ∃ q1, q.exec o = .ok q1 ∧ 0 ≤ q1.currentIndex := by
  cases o with
  | currentQuestion => exact ⟨q, exec_currentQuestion q h0, h0⟩
  | nextQuestion now =>
    refine ⟨(q.NextQuestion now).2, rfl, ?_⟩
    unfold Quiz.NextQuestion
    split_ifs
    · exact h0
    · show 0 ≤ q.currentIndex + 1
      omega
  | submitAnswer answer t0 t1 =>
    rcases accepting_cases q h0 with ⟨cur, hacc⟩ | ⟨_, hrej⟩
    · obtain ⟨hs, _⟩ := accepting_submit q cur hacc answer t0 t1
      exact ⟨q.afterSubmit cur answer t0 t1, by simp only [Quiz.exec, hs], h0⟩
    · have hs := submitAnswer_rejected q answer t0 t1 hrej
      exact ⟨q, by simp only [Quiz.exec, hs], h0⟩
  | progress => exact ⟨q, rfl, h0⟩

theorem execAll_returns (os : List Op) :
    ∀ q : Quiz, 0 ≤ q.currentIndex → ∃ q1, q.execAll os = .ok q1 ∧ 0 ≤ q1.currentIndex := by
  induction os with
  | nil => intro q h0; exact ⟨q, rfl, h0⟩
  | cons o os ih =>
    intro q h0
    obtain ⟨q1, h1, h01⟩ := exec_returns q o h0
    obtain ⟨q2, h2, h02⟩ := ih q1 h01
    exact ⟨q2, by simp only [Quiz.execAll, h1, h2], h02⟩

/-- C16: for every question list, the empty list included, and every finite sequence of
`CurrentQuestion`, `NextQuestion`, `SubmitAnswer` and `Progress` calls starting from
`NewQuiz`, every call returns (none panics); in the session reached `currentIndex ≥ 0`,
every further call returns as well, and whenever `currentIndex < len(questions)` the
position `currentIndex` holds a question, so the slice is never indexed out of range. -/
theorem C16_no_operation_fails (id : String) (qs : List Questioner) (now1 now2 : Time)
    (os : List Op) :
    ∃ q, (NewQuiz id qs now1 now2).execAll os = .ok q ∧
      0 ≤ q.currentIndex ∧
      (∀ o : Op, ∃ q1, q.exec o = .ok q1) ∧
      (∃ r, q.CurrentQuestion = .ok r) ∧
      (∀ s t0 t1, ∃ r, q.SubmitAnswer s t0 t1 = .ok r) ∧
      (q.currentIndex < (q.questions.length : Int) →
        ∃ x, q.questions[q.currentIndex.toNat]? = some x) := by
  obtain ⟨q, hr, h0⟩ := execAll_returns os (NewQuiz id qs now1 now2) (le_refl _)
  refine ⟨q, hr, h0, ?_, ?_, ?_, ?_⟩
  · intro o
    obtain ⟨q1, h1, _⟩ := exec_returns q o h0
    exact ⟨q1, h1⟩
  · by_cases hlt : q.currentIndex < (q.questions.length : Int)
    · obtain ⟨x, _, hx⟩ := (currentQuestion_returns q h0).1 hlt
      exact ⟨some x, hx⟩
    · exact ⟨none, (currentQuestion_returns q h0).2 (by omega)⟩
  · intro s t0 t1
    rcases accepting_cases q h0 with ⟨cur, hacc⟩ | ⟨_, hrej⟩
    · exact ⟨_, (accepting_submit q cur hacc s t0 t1).1⟩
    · exact ⟨_, submitAnswer_rejected q s t0 t1 hrej⟩
  · intro hlt
    obtain ⟨x, hx, _⟩ := (currentQuestion_returns q h0).1 hlt
    exact ⟨x, hx⟩

/-- C17: in every session with `currentIndex ≥ 0`, `CurrentQuestion` returns the question
stored at position `currentIndex` when `currentIndex < len(questions)` and no question
(nil) when `currentIndex ≥ len(questions)`; the call leaves the session as it was. -/
theorem C17_currentQuestion (q : Quiz) (h0 : 0 ≤ q.currentIndex) :
    (q.currentIndex < (q.questions.length : Int) →
        ∃ x, q.questions[q.currentIndex.toNat]? = some x ∧ q.CurrentQuestion = .ok (some x)) ∧
      (q.currentIndex ≥ (q.questions.length : Int) → q.CurrentQuestion = .ok none) ∧
      q.exec .currentQuestion = .ok q :=
  ⟨(currentQuestion_returns q h0).1, (currentQuestion_returns q h0).2, exec_currentQuestion q h0⟩

/-- C17 (witness): the fresh session of the tests, whose current question is `mc1`, and,
as in `TestCurrentQuestion`, the same session with `currentIndex = len(questions)`. -/
theorem C17_currentQuestion_witness :
    (0 ≤ testQuiz.currentIndex ∧ testQuiz.currentIndex < (testQuiz.questions.length : Int) ∧
      testQuiz.CurrentQuestion = .ok (some (.multiChoice mc1))) ∧
    ((testQuiz.currentIndex < (testQuiz.questions.length : Int) →
        ∃ x, testQuiz.questions[testQuiz.currentIndex.toNat]? = some x ∧
          testQuiz.CurrentQuestion = .ok (some x)) ∧
      (testQuiz.currentIndex ≥ (testQuiz.questions.length : Int) →
        testQuiz.CurrentQuestion = .ok none) ∧
      testQuiz.exec .currentQuestion = .ok testQuiz) ∧
    ({ testQuiz with currentIndex := 3 } : Quiz).CurrentQuestion = .ok none :=
  ⟨by decide, C17_currentQuestion testQuiz (by decide), by decide⟩

/-- C18: `Progress` returns `(currentIndex + 1, len(questions))` and leaves the session as
it was. Hence for a session freshly built from `n ≥ 1` questions, after `k` `NextQuestion`
calls `Progress` returns `(min(k, n - 1) + 1, n)`: the position is at least 1, at most the
total, and is `n` of `n` once `k ≥ n - 1`, in particular after completion (`k ≥ n`) however
many more calls follow. -/
theorem C18_progress (q : Quiz) (id : String) (qs : List Questioner) (now1 now2 : Time)
    (hn : 1 ≤ qs.length) (ts : List Time) :
    q.Progress = (q.currentIndex + 1, (q.questions.length : Int)) ∧
      q.exec .progress = .ok q ∧
      (NewQuiz id qs now1 now2).Progress = (1, (qs.length : Int)) ∧
      ((NewQuiz id qs now1 now2).nextAll ts).Progress =
        (min (ts.length : Int) ((qs.length : Int) - 1) + 1, (qs.length : Int)) ∧
      1 ≤ ((NewQuiz id qs now1 now2).nextAll ts).Progress.1 ∧
      ((NewQuiz id qs now1 now2).nextAll ts).Progress.1 ≤
        ((NewQuiz id qs now1 now2).nextAll ts).Progress.2 ∧
      (qs.length - 1 ≤ ts.length →
        ((NewQuiz id qs now1 now2).nextAll ts).Progress = ((qs.length : Int), (qs.length : Int))) ∧
      (((NewQuiz id qs now1 now2).nextAll ts).completed = true →
        ((NewQuiz id qs now1 now2).nextAll ts).Progress =
          ((qs.length : Int), (qs.length : Int))) := by
  obtain ⟨hq, hi, hc⟩ := nextAll_state id qs now1 now2 hn ts
  have hp : ((NewQuiz id qs now1 now2).nextAll ts).Progress =
      (min (ts.length : Int) ((qs.length : Int) - 1) + 1, (qs.length : Int)) := by
    unfold Quiz.Progress
    rw [hq, hi]
  refine ⟨rfl, rfl, rfl, hp, ?_, ?_, ?_, ?_⟩
  · rw [hp]
    show 1 ≤ min (ts.length : Int) ((qs.length : Int) - 1) + 1
    omega
  · rw [hp]
    show min (ts.length : Int) ((qs.length : Int) - 1) + 1 ≤ (qs.length : Int)
    omega
  · intro hk
    rw [hp]
    have : min (ts.length : Int) ((qs.length : Int) - 1) + 1 = (qs.length : Int) := by omega
    rw [this]
  · intro hcomp
    rw [hc] at hcomp
    have hk : qs.length ≤ ts.length := of_decide_eq_true hcomp
    rw [hp]
    have : min (ts.length : Int) ((qs.length : Int) - 1) + 1 = (qs.length : Int) := by omega
    rw [this]

/-- C18 (witness): the three questions of the tests after five `NextQuestion` calls, as in
`TestProgress` with two extra calls: progress 3 of 3. -/
theorem C18_progress_witness :
    1 ≤ createTestQuestions.length ∧
    ((NewQuiz "quiz1" createTestQuestions 0 0).nextAll [1, 2, 3, 4, 5]).Progress = (3, 3) ∧
    (testQuiz.Progress = (testQuiz.currentIndex + 1, (testQuiz.questions.length : Int)) ∧
      testQuiz.exec .progress = .ok testQuiz ∧
      (NewQuiz "quiz1" createTestQuestions 0 0).Progress = (1, (createTestQuestions.length : Int)) ∧
      ((NewQuiz "quiz1" createTestQuestions 0 0).nextAll [1, 2, 3, 4, 5]).Progress =
        (min (([1, 2, 3, 4, 5] : List Time).length : Int)
          ((createTestQuestions.length : Int) - 1) + 1, (createTestQuestions.length : Int)) ∧
      1 ≤ ((NewQuiz "quiz1" createTestQuestions 0 0).nextAll [1, 2, 3, 4, 5]).Progress.1 ∧
      ((NewQuiz "quiz1" createTestQuestions 0 0).nextAll [1, 2, 3, 4, 5]).Progress.1 ≤
        ((NewQuiz "quiz1" createTestQuestions 0 0).nextAll [1, 2, 3, 4, 5]).Progress.2 ∧
      (createTestQuestions.length - 1 ≤ ([1, 2, 3, 4, 5] : List Time).length →
        ((NewQuiz "quiz1" createTestQuestions 0 0).nextAll [1, 2, 3, 4, 5]).Progress =
          ((createTestQuestions.length : Int), (createTestQuestions.length : Int))) ∧
      (((NewQuiz "quiz1" createTestQuestions 0 0).nextAll [1, 2, 3, 4, 5]).completed = true →
        ((NewQuiz "quiz1" createTestQuestions 0 0).nextAll [1, 2, 3, 4, 5]).Progress =
          ((createTestQuestions.length : Int), (createTestQuestions.length : Int)))) :=
  ⟨by decide, by decide,
    C18_progress testQuiz "quiz1" createTestQuestions 0 0 (by decide) [1, 2, 3, 4, 5]⟩

/-- C19: for every question list `qs`, `NewQuiz(qs)` is a session with status STARTED,
`currentIndex = 0`, `score = 0`, `correctCount = 0`, `completed = false`, stored
`timeTaken = 0` and an empty history, whose questions are `qs` in the given order and whose
`AmountOfQuestions` is `len(qs)`. -/
theorem C19_newQuiz_initial_state (id : String) (qs : List Questioner) (now1 now2 : Time) :
    (NewQuiz id qs now1 now2).GetStatus = STARTED ∧
      (NewQuiz id qs now1 now2).currentIndex = 0 ∧
      (NewQuiz id qs now1 now2).TotalPoints = 0 ∧
      (NewQuiz id qs now1 now2).GetCorrectCount = 0 ∧
      (NewQuiz id qs now1 now2).IsCompleted = false ∧
      (NewQuiz id qs now1 now2).timeTaken = 0 ∧
      (NewQuiz id qs now1 now2).GetQuestionHistory = [] ∧
      (NewQuiz id qs now1 now2).questions = qs ∧
      (NewQuiz id qs now1 now2).AmountOfQuestions = (qs.length : Int) :=
  ⟨rfl, rfl, rfl, rfl, rfl, rfl, rfl, rfl, rfl⟩

/-! ## History in the quiz store -/

/-- C20 (the code at the failing input): the scenario of `TestQuizStore`. The session
`quizWithHistory` is reached by a correct answer to the first question, an advance, an
incorrect answer to the second and an advance; its history has two entries, the first
correct and the second incorrect. `SaveQuiz` succeeds and writes both history rows, but
`GetQuiz` of the same id returns a session with an empty history. -/
theorem C20_getQuiz_drops_history :
    (NewQuiz "quiz2" storeQuestions 0 0).run storeCalls = .ok quizWithHistory ∧
      quizWithHistory.GetQuestionHistory.map (fun r => (r.QuestionID, r.Correct)) =
        [("q1", true), ("q2", false)] ∧
      (SaveQuiz storeDB quizWithHistory 50).1 = none ∧
      (SaveQuiz storeDB quizWithHistory 50).2.quiz_history =
        [{ quiz_id := "quiz2", question_id := "q1", correct := true, time_taken := 0 },
         { quiz_id := "quiz2", question_id := "q2", correct := false, time_taken := 0 }] ∧
      GetQuiz goJSON (SaveQuiz storeDB quizWithHistory 50).2 "quiz2" 60 61 =
        .ok (NewQuiz "quiz2" storeQuestions 60 61) ∧
      (NewQuiz "quiz2" storeQuestions 60 61).GetQuestionHistory = [] ∧
      (NewQuiz "quiz2" storeQuestions 60 61).GetQuestionHistory.length ≠ 2 := by
  decide

/-! ## Failures of the question store -/

theorem getQuestion_congr (J : JSONCodec) (db1 db2 : DB) (id : String)
    (h : db1.questions = db2.questions) : GetQuestion J db1 id = GetQuestion J db2 id := by
  unfold GetQuestion
  rw [h]

theorem getQuizQuestions_congr (J : JSONCodec) (db1 db2 : DB) (ids : List String)
    (h : db1.questions = db2.questions) :
    getQuizQuestions J db1 ids = getQuizQuestions J db2 ids := by
  induction ids with
  | nil => rfl
  | cons i is ih => simp only [getQuizQuestions, getQuestion_congr J db1 db2 i h, ih]

theorem find?_filter_other {α : Type} (key : α → String) (rows : List α) (id id2 : String)
    (h : id2 ≠ id) :
    (rows.filter (fun r => !(key r == id))).find? (fun r => key r == id2) =
      rows.find? (fun r => key r == id2) := by
  induction rows with
  | nil => rfl
  | cons x xs ih =>
    cases hx : key x == id with
    | true =>
      have h2 : (key x == id2) = false := by
        cases h2 : key x == id2 with
        | false => rfl
        | true => exact absurd ((beq_iff_eq.mp h2).symm.trans (beq_iff_eq.mp hx)) h
      simp only [List.filter_cons, List.find?_cons, hx, h2, Bool.not_true, Bool.false_eq_true,
        if_false, ih]
    | false =>
      cases h2 : key x == id2 with
      | true =>
        simp only [List.filter_cons, List.find?_cons, hx, h2, Bool.not_false, if_true]
      | false =>
        simp only [List.filter_cons, List.find?_cons, hx, h2, Bool.not_false, if_true, ih]

theorem find?_filter_same {α : Type} (key : α → String) (rows : List α) (id : String) :
    (rows.filter (fun r => !(key r == id))).find? (fun r => key r == id) = none := by
  rw [List.find?_eq_none]
  intro r hr
  have := (List.mem_filter.mp hr).2
  simpa using this

theorem filter_filter_other {α : Type} (key : α → String) (rows : List α) (id id2 : String)
    (h : id2 ≠ id) :
    (rows.filter (fun r => !(key r == id))).filter (fun r => key r == id2) =
      rows.filter (fun r => key r == id2) := by
  induction rows with
  | nil => rfl
  | cons x xs ih =>
    cases hx : key x == id with
    | true =>
      have h2 : (key x == id2) = false := by
        cases h2 : key x == id2 with
        | false => rfl
        | true => exact absurd ((beq_iff_eq.mp h2).symm.trans (beq_iff_eq.mp hx)) h
      simp only [List.filter_cons, hx, h2, Bool.not_true, Bool.false_eq_true, if_false, ih]
    | false =>
      cases h2 : key x == id2 with
      | true => simp only [List.filter_cons, hx, h2, Bool.not_false, if_true, ih]
      | false =>
        simp only [List.filter_cons, hx, h2, Bool.not_false, if_true, Bool.false_eq_true,
          if_false, ih]

theorem filter_absent {α : Type} (key : α → String) (rows : List α) (id : String)
    (h : ∀ r ∈ rows, key r ≠ id) : rows.filter (fun r => !(key r == id)) = rows := by
  rw [List.filter_eq_self]
  intro r hr
  simpa using h r hr

theorem filter_idem {α : Type} (key : α → String) (rows : List α) (id : String) :
    (rows.filter (fun r => !(key r == id))).filter (fun r => !(key r == id)) =
      rows.filter (fun r => !(key r == id)) := by
  rw [List.filter_filter]
  congr 1
  funext r
  simp

theorem getQuiz_other_after_delete (J : JSONCodec) (db : DB) (id id2 : String)
    (now1 now2 : Time) (h : id2 ≠ id) :
    GetQuiz J (DeleteQuiz db id).2 id2 now1 now2 = GetQuiz J db id2 now1 now2 := by
  have hq : (DeleteQuiz db id).2.quizzes = db.quizzes.filter (fun r => !(r.id == id)) := rfl
  have hqq : (DeleteQuiz db id).2.quiz_questions =
      db.quiz_questions.filter (fun r => !(r.quiz_id == id)) := rfl
  unfold GetQuiz
  rw [hq, hqq, find?_filter_other (fun r : QuizRow => r.id) db.quizzes id id2 h,
    filter_filter_other (fun r : QuizQuestionRow => r.quiz_id) db.quiz_questions id id2 h]
  cases db.quizzes.find? (fun r => r.id == id2) with
  | none => rfl
  | some row =>
    simp only
    rw [getQuizQuestions_congr J (DeleteQuiz db id).2 db _ rfl]

/-- C22 (counterexample): the store `orphanDB` has no `quizzes` row with id "quiz9" (so
`GetQuiz` of "quiz9" fails with NotFound: the quiz is absent) but a `quiz_questions` row
of that quiz id. `DeleteQuiz` of "quiz9" succeeds and removes that row, so deleting the
absent quiz changes the store. -/
theorem C22_deleteQuiz_absent_changes_store :
    (∀ z ∈ orphanDB.quizzes, z.id ≠ "quiz9") ∧
    GetQuiz goJSON orphanDB "quiz9" 60 61 = .error .notFound ∧
    orphanDB.quiz_questions = [{ quiz_id := "quiz9", question_id := "q1" }] ∧
    (DeleteQuiz orphanDB "quiz9").1 = none ∧
    (DeleteQuiz orphanDB "quiz9").2.quiz_questions = [] ∧
    (DeleteQuiz orphanDB "quiz9").2 ≠ orphanDB := by
  decide

/-- C22 (amended): for every id and every store state. `DeleteQuestion(id)` succeeds,
afterwards `GetQuestion(id)` fails with NotFound, every other id is answered as before and
the quiz tables are untouched. `DeleteQuiz(id)` succeeds, afterwards `GetQuiz(id)` fails
with NotFound, every other quiz id is answered as before and the questions are untouched.
Deleting twice leaves the same store as deleting once. Deleting an id that no stored
question carries leaves the store unchanged; `DeleteQuiz(id)` leaves the store unchanged
exactly when no row of `quizzes`, `quiz_questions` or `quiz_history` carries the id, which
is so for an id without a `quizzes` row in a store whose child rows all belong to stored
quizzes. -/
theorem C22_delete_then_get (J : JSONCodec) (db : DB) (id : String) (now1 now2 : Time) :
    ((DeleteQuestion db id).1 = none ∧
      GetQuestion J (DeleteQuestion db id).2 id = .error .notFound ∧
      (∀ id2, id2 ≠ id →
        GetQuestion J (DeleteQuestion db id).2 id2 = GetQuestion J db id2) ∧
      (∀ r ∈ db.questions, r.id ≠ id → r ∈ (DeleteQuestion db id).2.questions) ∧
      ((DeleteQuestion db id).2.quizzes = db.quizzes ∧
        (DeleteQuestion db id).2.quiz_questions = db.quiz_questions ∧
        (DeleteQuestion db id).2.quiz_history = db.quiz_history) ∧
      ((∀ r ∈ db.questions, r.id ≠ id) → (DeleteQuestion db id).2 = db) ∧
      DeleteQuestion (DeleteQuestion db id).2 id = (none, (DeleteQuestion db id).2)) ∧
    ((DeleteQuiz db id).1 = none ∧
      GetQuiz J (DeleteQuiz db id).2 id now1 now2 = .error .notFound ∧
      (∀ id2, id2 ≠ id →
        GetQuiz J (DeleteQuiz db id).2 id2 now1 now2 = GetQuiz J db id2 now1 now2) ∧
      ((∀ z ∈ db.quizzes, z.id ≠ id → z ∈ (DeleteQuiz db id).2.quizzes) ∧
        (∀ r ∈ db.quiz_questions, r.quiz_id ≠ id → r ∈ (DeleteQuiz db id).2.quiz_questions) ∧
        (∀ r ∈ db.quiz_history, r.quiz_id ≠ id → r ∈ (DeleteQuiz db id).2.quiz_history)) ∧
      (DeleteQuiz db id).2.questions = db.questions ∧
      ((DeleteQuiz db id).2 = db ↔
        (∀ z ∈ db.quizzes, z.id ≠ id) ∧ (∀ r ∈ db.quiz_questions, r.quiz_id ≠ id) ∧
          (∀ r ∈ db.quiz_history, r.quiz_id ≠ id)) ∧
      ((∀ z ∈ db.quizzes, z.id ≠ id) → db.quizKeysHold = true → (DeleteQuiz db id).2 = db) ∧
      DeleteQuiz (DeleteQuiz db id).2 id = (none, (DeleteQuiz db id).2)) := by
  refine ⟨⟨rfl, ?_, ?_, ?_, ⟨rfl, rfl, rfl⟩, ?_, ?_⟩, ⟨rfl, ?_, ?_, ⟨?_, ?_, ?_⟩, rfl, ?_, ?_, ?_⟩⟩
  · unfold GetQuestion
    simp only [DeleteQuestion]
    rw [find?_filter_same (fun r : QuestionRow => r.id)]
  · intro id2 h
    unfold GetQuestion
    simp only [DeleteQuestion]
    rw [find?_filter_other (fun r : QuestionRow => r.id) db.questions id id2 h]
  · intro r hr hne
    simp only [DeleteQuestion]
    exact List.mem_filter.mpr ⟨hr, by simpa using hne⟩
  · intro h
    simp only [DeleteQuestion]
    rw [filter_absent (fun r : QuestionRow => r.id) db.questions id h]
  · simp only [DeleteQuestion]
    rw [filter_idem (fun r : QuestionRow => r.id)]
  · unfold GetQuiz
    simp only [DeleteQuiz]
    rw [find?_filter_same (fun r : QuizRow => r.id)]
  · intro id2 h
    exact getQuiz_other_after_delete J db id id2 now1 now2 h
  · intro z hz hne
    simp only [DeleteQuiz]
    exact List.mem_filter.mpr ⟨hz, by simpa using hne⟩
  · intro r hr hne
    simp only [DeleteQuiz]
    exact List.mem_filter.mpr ⟨hr, by simpa using hne⟩
  · intro r hr hne
    simp only [DeleteQuiz]
    exact List.mem_filter.mpr ⟨hr, by simpa using hne⟩
  · constructor
    · intro h
      have hz := congrArg DB.quizzes h
      have hq := congrArg DB.quiz_questions h
      have hh := congrArg DB.quiz_history h
      simp only [DeleteQuiz] at hz hq hh
      rw [List.filter_eq_self] at hz hq hh
      exact ⟨fun z m => by simpa using hz z m, fun r m => by simpa using hq r m,
        fun r m => by simpa using hh r m⟩
    · rintro ⟨habs, h1, h2⟩
      simp only [DeleteQuiz]
      rw [filter_absent (fun r : QuizRow => r.id) db.quizzes id habs,
        filter_absent (fun r : QuizQuestionRow => r.quiz_id) db.quiz_questions id h1,
        filter_absent (fun r : QuizHistoryRow => r.quiz_id) db.quiz_history id h2]
  · intro habs hfk
    simp only [DB.quizKeysHold, Bool.and_eq_true, List.all_eq_true, List.any_eq_true,
      beq_iff_eq] at hfk
    have h1 : ∀ r ∈ db.quiz_questions, r.quiz_id ≠ id := by
      intro r hr e
      obtain ⟨z, hz, hzr⟩ := hfk.1 r hr
      exact habs z hz (hzr.trans e)
    have h2 : ∀ r ∈ db.quiz_history, r.quiz_id ≠ id := by
      intro r hr e
      obtain ⟨z, hz, hzr⟩ := hfk.2 r hr
      exact habs z hz (hzr.trans e)
    simp only [DeleteQuiz]
    rw [filter_absent (fun r : QuizRow => r.id) db.quizzes id habs,
      filter_absent (fun r : QuizQuestionRow => r.quiz_id) db.quiz_questions id h1,
      filter_absent (fun r : QuizHistoryRow => r.quiz_id) db.quiz_history id h2]
  · simp only [DeleteQuiz]
    rw [filter_idem (fun r : QuizRow => r.id),
      filter_idem (fun r : QuizQuestionRow => r.quiz_id),
      filter_idem (fun r : QuizHistoryRow => r.quiz_id)]

/-- C22 (witness): the store of `TestQuizStore` after `quiz2` is saved: deleting question
`q1` and quiz `quiz2`, and deleting the absent ids "zz" and "quiz9"; and the store
`orphanDB`, in which no row of the three quiz tables carries the id "quiz2". -/
theorem C22_delete_then_get_witness :
    (GetQuestion goJSON (DeleteQuestion savedStoreDB "q1").2 "q1" = .error .notFound ∧
      GetQuiz goJSON (DeleteQuiz savedStoreDB "quiz2").2 "quiz2" 60 61 = .error .notFound) ∧
    (((∀ r ∈ savedStoreDB.questions, r.id ≠ "zz") ∧
        (DeleteQuestion savedStoreDB "zz").2 = savedStoreDB) ∧
      ((∀ z ∈ savedStoreDB.quizzes, z.id ≠ "quiz9") ∧ savedStoreDB.quizKeysHold = true ∧
        (DeleteQuiz savedStoreDB "quiz9").2 = savedStoreDB)) ∧
    (((∀ z ∈ orphanDB.quizzes, z.id ≠ "quiz2") ∧
        (∀ r ∈ orphanDB.quiz_questions, r.quiz_id ≠ "quiz2") ∧
        (∀ r ∈ orphanDB.quiz_history, r.quiz_id ≠ "quiz2")) ∧
      orphanDB.quizKeysHold = false ∧
      (DeleteQuiz orphanDB "quiz2").2 = orphanDB) :=
  ⟨⟨(C22_delete_then_get goJSON savedStoreDB "q1" 60 61).1.2.1,
      (C22_delete_then_get goJSON savedStoreDB "quiz2" 60 61).2.2.1⟩,
    ⟨⟨by decide, (C22_delete_then_get goJSON savedStoreDB "zz" 60 61).1.2.2.2.2.2.1 (by decide)⟩,
      ⟨by decide, by decide,
        (C22_delete_then_get goJSON savedStoreDB "quiz9" 60 61).2.2.2.2.2.2.2.1 (by decide)
          (by decide)⟩⟩,
    ⟨by decide, by decide,
      (C22_delete_then_get goJSON orphanDB "quiz2" 60 61).2.2.2.2.2.2.1.2 (by decide)⟩⟩

/-! ## Atomic save of a session -/

theorem insertQuizQuestions_conflict (quizId : String) (qs : List Questioner) :
    ∀ rows : List QuizQuestionRow,
      (∃ r ∈ rows, r.quiz_id = quizId ∧ r.question_id ∈ qs.map Questioner.GetID) →
      insertQuizQuestions quizId rows qs = .error .constraintViolation := by
  induction qs with
  | nil =>
    intro rows h
    obtain ⟨_, _, _, hm⟩ := h
    simp at hm
  | cons q rest ih =>
    intro rows h
    obtain ⟨r, hr, hq, hm⟩ := h
    unfold insertQuizQuestions insertQuizQuestion
    split_ifs with hany
    · rfl
    · have hne : r.question_id ≠ q.GetID := by
        intro e
        apply hany
        rw [List.any_eq_true]
        exact ⟨r, hr, by simp [hq, e]⟩
      have hm2 : r.question_id ∈ rest.map Questioner.GetID := by
        rcases List.mem_cons.mp hm with h1 | h1
        · exact absurd h1 hne
        · exact h1
      exact ih _ ⟨r, List.mem_append_left _ hr, hq, hm2⟩

theorem insertQuizQuestions_dup (quizId : String) (qs : List Questioner) :
    ¬ (qs.map Questioner.GetID).Nodup →
      ∀ rows : List QuizQuestionRow,
        insertQuizQuestions quizId rows qs = .error .constraintViolation := by
  induction qs with
  | nil => intro h; exact absurd List.nodup_nil h
  | cons q rest ih =>
    intro h rows
    unfold insertQuizQuestions insertQuizQuestion
    split_ifs with hany
    · rfl
    · by_cases hm : q.GetID ∈ rest.map Questioner.GetID
      · exact insertQuizQuestions_conflict quizId rest _
          ⟨{ quiz_id := quizId, question_id := q.GetID }, by simp, rfl, hm⟩
      · apply ih
        intro hnd
        apply h
        rw [List.map_cons, List.nodup_cons]
        exact ⟨hm, hnd⟩

theorem insertQuizHistories_conflict (quizId : String) (hs : List QuestionResult) :
    ∀ rows : List QuizHistoryRow,
      (∃ r ∈ rows, r.quiz_id = quizId ∧
        r.question_id ∈ hs.map (fun x => x.QuestionID)) →
      insertQuizHistories quizId rows hs = .error .constraintViolation := by
  induction hs with
  | nil =>
    intro rows h
    obtain ⟨_, _, _, hm⟩ := h
    simp at hm
  | cons x rest ih =>
    intro rows h
    obtain ⟨r, hr, hq, hm⟩ := h
    unfold insertQuizHistories insertQuizHistory
    split_ifs with hany
    · rfl
    · have hne : r.question_id ≠ x.QuestionID := by
        intro e
        apply hany
        rw [List.any_eq_true]
        exact ⟨r, hr, by simp [hq, e]⟩
      have hm2 : r.question_id ∈ rest.map (fun x => x.QuestionID) := by
        rcases List.mem_cons.mp hm with h1 | h1
        · exact absurd h1 hne
        · exact h1
      exact ih _ ⟨r, List.mem_append_left _ hr, hq, hm2⟩

theorem insertQuizHistories_dup (quizId : String) (hs : List QuestionResult) :
    ¬ (hs.map (fun x => x.QuestionID)).Nodup →
      ∀ rows : List QuizHistoryRow,
        insertQuizHistories quizId rows hs = .error .constraintViolation := by
  induction hs with
  | nil => intro h; exact absurd List.nodup_nil h
  | cons x rest ih =>
    intro h rows
    unfold insertQuizHistories insertQuizHistory
    split_ifs with hany
    · rfl
    · by_cases hm : x.QuestionID ∈ rest.map (fun x => x.QuestionID)
      · exact insertQuizHistories_conflict quizId rest _
          ⟨{ quiz_id := quizId, question_id := x.QuestionID, correct := x.Correct,
             time_taken := Duration.Milliseconds x.TimeTaken }, by simp, rfl, hm⟩
      · apply ih
        intro hnd
        apply h
        rw [List.map_cons, List.nodup_cons]
        exact ⟨hm, hnd⟩

theorem saveQuiz_rollback (db : DB) (q : Quiz) (now : Time) (e : StoreError)
    (h : (SaveQuiz db q now).1 = some e) : (SaveQuiz db q now).2 = db := by
  unfold SaveQuiz at h ⊢
  cases hs : saveQuizTx db q now with
  | ok db1 => rw [hs] at h; cases h
  | error e1 => rfl

theorem saveQuiz_dup_questions (db : DB) (q : Quiz) (now : Time)
    (h : ¬ (q.questions.map Questioner.GetID).Nodup) :
    SaveQuiz db q now = (some .constraintViolation, db) := by
  unfold SaveQuiz saveQuizTx
  simp only [Quiz.GetQuestions]
  rw [insertQuizQuestions_dup q.Id q.questions h]

theorem insertQuizQuestions_error (quizId : String) (qs : List Questioner) :
    ∀ (rows : List QuizQuestionRow) (e : StoreError),
      insertQuizQuestions quizId rows qs = .error e → e = .constraintViolation := by
  induction qs with
  | nil => intro rows e h; cases h
  | cons q rest ih =>
    intro rows e h
    unfold insertQuizQuestions insertQuizQuestion at h
    split_ifs at h with hany
    · injection h with h
      exact h.symm
    · exact ih _ e h

theorem saveQuiz_dup_history (db : DB) (q : Quiz) (now : Time)
    (h : ¬ (q.questionHistory.map (fun x => x.QuestionID)).Nodup) :
    SaveQuiz db q now = (some .constraintViolation, db) := by
  unfold SaveQuiz saveQuizTx
  simp only [Quiz.GetQuestionHistory]
  cases hq : insertQuizQuestions q.Id (db.quiz_questions.filter (fun r => !(r.quiz_id == q.Id)))
      q.GetQuestions with
  | error e =>
    rw [insertQuizQuestions_error _ _ _ e hq]
  | ok rows =>
    simp only
    rw [insertQuizHistories_dup q.Id q.questionHistory h]

/-- C23: `SaveQuiz` is atomic. Whenever it returns an error the store afterwards is the
store before the call, in all four tables. It does return an error, a constraint
violation, when a question id occurs twice in the session and when a question id occurs
twice in the history (a re-submission). In the store of `TestQuizStore` holding the saved
`quiz2`, saving `resubmittedQuiz` (same id, two history entries for `q1`) fails and leaves
the store as it was, although the upsert of the transaction had already rewritten the
`quizzes` row; and so does saving `repeatedQuestionQuiz`, in which `q1` occurs twice. -/
theorem C23_saveQuiz_atomic (db : DB) (q : Quiz) (now : Time) :
    (∀ e, (SaveQuiz db q now).1 = some e → (SaveQuiz db q now).2 = db) ∧
    (¬ (q.questions.map Questioner.GetID).Nodup →
      SaveQuiz db q now = (some .constraintViolation, db)) ∧
    (¬ (q.questionHistory.map (fun x => x.QuestionID)).Nodup →
      SaveQuiz db q now = (some .constraintViolation, db)) ∧
    (SaveQuiz savedStoreDB resubmittedQuiz 70 = (some .constraintViolation, savedStoreDB) ∧
      upsertQuizRow savedStoreDB.quizzes
          { id := resubmittedQuiz.Id
            status := resubmittedQuiz.GetStatus
            current_index := resubmittedQuiz.GetCurrentIndex
            score := resubmittedQuiz.GetScore
            completed := resubmittedQuiz.IsCompleted
            start_time := resubmittedQuiz.GetStartTime
            creation_date := resubmittedQuiz.GetCreationDate
            time_taken := Duration.Milliseconds (resubmittedQuiz.GetTimeTaken 70)
            correct_count := resubmittedQuiz.GetCorrectCount } ≠ savedStoreDB.quizzes ∧
      SaveQuiz savedStoreDB repeatedQuestionQuiz 70 =
        (some .constraintViolation, savedStoreDB)) := by
  refine ⟨fun e h => saveQuiz_rollback db q now e h, saveQuiz_dup_questions db q now,
    saveQuiz_dup_history db q now, by decide⟩

/-- C23 (witness): `resubmittedQuiz` has two history entries for `q1` and
`repeatedQuestionQuiz` holds `q1` twice; saving either into the store that holds the saved
`quiz2` fails and leaves that store unchanged. -/
theorem C23_saveQuiz_atomic_witness :
    (¬ (resubmittedQuiz.questionHistory.map (fun x => x.QuestionID)).Nodup ∧
      SaveQuiz savedStoreDB resubmittedQuiz 70 = (some .constraintViolation, savedStoreDB)) ∧
    (¬ (repeatedQuestionQuiz.questions.map Questioner.GetID).Nodup ∧
      SaveQuiz savedStoreDB repeatedQuestionQuiz 70 =
        (some .constraintViolation, savedStoreDB)) ∧
    ((SaveQuiz savedStoreDB resubmittedQuiz 70).1 = some .constraintViolation ∧
      (SaveQuiz savedStoreDB resubmittedQuiz 70).2 = savedStoreDB) :=
  ⟨⟨by decide, (C23_saveQuiz_atomic savedStoreDB resubmittedQuiz 70).2.2.1 (by decide)⟩,
    ⟨by decide, (C23_saveQuiz_atomic savedStoreDB repeatedQuestionQuiz 70).2.1 (by decide)⟩,
    ⟨by decide,
      (C23_saveQuiz_atomic savedStoreDB resubmittedQuiz 70).1 .constraintViolation (by decide)⟩⟩

/-! ## The row written for a question -/

/-- C24: `SaveQuestion` of a question succeeds and the row of table `questions` carrying
the id afterwards has: the tag MULTI_CHOICE, TRUE_FALSE or FILL_IN of the variant; the
prompt, difficulty and hint of the question; as answer the stored answer verbatim for
multiple-choice and fill-in and the literal "true" or "false" for true/false; as options
the JSON encoding of the option list for multiple-choice and the empty string otherwise;
as time limit the time limit in whole milliseconds (division by 1 ms truncating toward
zero). The quiz tables are untouched. A value of any other type is rejected with an error
and the store is unchanged. For `mc1` the options column is `["3","4","5","6"]` and the
time limit 30000. -/
theorem C24_saveQuestion_row (J : JSONCodec) (db : DB) (mc : MultiChoice) (tf : TrueFalse)
    (fi : FillIn) (q : Questioner) :
    ((SaveQuestion J db (some (.multiChoice mc))).1 = none ∧
      (SaveQuestion J db (some (.multiChoice mc))).2.questions.find? (fun r => r.id == mc.Id) =
        some { id := mc.Id, type := "MULTI_CHOICE", prompt := mc.Prompt,
               difficulty := mc.Difficulty, answer := mc.Answer, hint := some mc.Hint,
               time_limit := Int.tdiv mc.TimeLimit 1000000, options := some (J.marshal mc.Options) }) ∧
    ((SaveQuestion J db (some (.trueFalse tf))).1 = none ∧
      (SaveQuestion J db (some (.trueFalse tf))).2.questions.find? (fun r => r.id == tf.Id) =
        some { id := tf.Id, type := "TRUE_FALSE", prompt := tf.Prompt,
               difficulty := tf.Difficulty, answer := if tf.Answer then "true" else "false",
               hint := some tf.Hint, time_limit := Int.tdiv tf.TimeLimit 1000000, options := some "" }) ∧
    ((SaveQuestion J db (some (.fillIn fi))).1 = none ∧
      (SaveQuestion J db (some (.fillIn fi))).2.questions.find? (fun r => r.id == fi.Id) =
        some { id := fi.Id, type := "FILL_IN", prompt := fi.Prompt,
               difficulty := fi.Difficulty, answer := fi.Answer, hint := some fi.Hint,
               time_limit := Int.tdiv fi.TimeLimit 1000000, options := some "" }) ∧
    ((SaveQuestion J db (some q)).2.quizzes = db.quizzes ∧
      (SaveQuestion J db (some q)).2.quiz_questions = db.quiz_questions ∧
      (SaveQuestion J db (some q)).2.quiz_history = db.quiz_history) ∧
    SaveQuestion J db none = (some .unknownVariant, db) ∧
    (SaveQuestion goJSON emptyDB (some (.multiChoice mc1))).2.questions =
      [{ id := "mc1", type := "MULTI_CHOICE", prompt := "What is 2+2?", difficulty := 1,
         answer := "4", hint := some "", time_limit := 30000,
         options := some "[\"3\",\"4\",\"5\",\"6\"]" }] := by
  refine ⟨⟨rfl, ?_⟩, ⟨rfl, ?_⟩, ⟨rfl, ?_⟩, ?_, rfl, by decide⟩
  · exact find_upsertQuestionRow db.questions
      { id := mc.Id, type := "MULTI_CHOICE", prompt := mc.Prompt, difficulty := mc.Difficulty,
        answer := mc.Answer, hint := some mc.Hint, time_limit := Int.tdiv mc.TimeLimit 1000000,
        options := some (J.marshal mc.Options) }
  · exact find_upsertQuestionRow db.questions
      { id := tf.Id, type := "TRUE_FALSE", prompt := tf.Prompt, difficulty := tf.Difficulty,
        answer := if tf.Answer then "true" else "false", hint := some tf.Hint,
        time_limit := Int.tdiv tf.TimeLimit 1000000, options := some "" }
  · exact find_upsertQuestionRow db.questions
      { id := fi.Id, type := "FILL_IN", prompt := fi.Prompt, difficulty := fi.Difficulty,
        answer := fi.Answer, hint := some fi.Hint, time_limit := Int.tdiv fi.TimeLimit 1000000,
        options := some "" }
  · cases q <;> exact ⟨rfl, rfl, rfl⟩

/-! ## Millisecond resolution of the time limit -/

theorem getTimeLimit_withTimeLimit (q : Questioner) (d : Duration) :
    (q.withTimeLimit d).GetTimeLimit = d := by
  cases q <;> rfl

theorem getID_withTimeLimit (q : Questioner) (d : Duration) :
    (q.withTimeLimit d).GetID = q.GetID := by
  cases q <;> rfl

theorem withTimeLimit_withTimeLimit (q : Questioner) (d e : Duration) :
    (q.withTimeLimit d).withTimeLimit e = q.withTimeLimit e := by
  cases q <;> rfl

theorem whole_milliseconds_iff (d : Int) :
    Int.tdiv d 1000000 * 1000000 = d ↔ ∃ k : Int, d = k * Millisecond := by
  constructor
  · intro h
    exact ⟨Int.tdiv d 1000000, h.symm⟩
  · rintro ⟨k, hk⟩
    have := milliseconds_mul_cancel k
    unfold Duration.Milliseconds Millisecond at this
    rw [hk]
    exact this

/-- C28: provided the JSON codec decodes every encoded option list back to itself, for
every store and question `q` whose time limit is a 64-bit duration (as every Go
`time.Duration` is), `SaveQuestion(q)` then `GetQuestion(q.id)` returns a question `loaded`
whose time limit is that of `q` truncated toward zero to a multiple of 1 ms (it lies
between 0 and the original and differs from it by less than 1 ms); it equals the original
time limit exactly when the original is a whole number of milliseconds, and then
`loaded = q`; and saving `loaded` into any store and loading it again returns `loaded`
unchanged. -/
theorem C28_timeLimit_millisecond_truncation (J : JSONCodec)
    (hJ : ∀ xs, J.unmarshal (J.marshal xs) = some xs) (db db2 : DB) (q : Questioner)
    (hd : isInt64 q.GetTimeLimit) :
    ∃ loaded, GetQuestion J (SaveQuestion J db (some q)).2 q.GetID = .ok loaded ∧
      loaded.GetTimeLimit = Int.tdiv q.GetTimeLimit 1000000 * 1000000 ∧
      (0 ≤ q.GetTimeLimit → 0 ≤ loaded.GetTimeLimit ∧ loaded.GetTimeLimit ≤ q.GetTimeLimit ∧
        q.GetTimeLimit - loaded.GetTimeLimit < Millisecond) ∧
      (q.GetTimeLimit ≤ 0 → loaded.GetTimeLimit ≤ 0 ∧ q.GetTimeLimit ≤ loaded.GetTimeLimit ∧
        loaded.GetTimeLimit - q.GetTimeLimit < Millisecond) ∧
      (loaded.GetTimeLimit = q.GetTimeLimit ↔ ∃ k : Int, q.GetTimeLimit = k * Millisecond) ∧
      (loaded = q ↔ ∃ k : Int, q.GetTimeLimit = k * Millisecond) ∧
      GetQuestion J (SaveQuestion J db2 (some loaded)).2 loaded.GetID = .ok loaded := by
  obtain ⟨_, h2⟩ := getQuestion_after_save J hJ db q hd
  refine ⟨q.withTimeLimit (Int.tdiv q.GetTimeLimit 1000000 * 1000000), h2, ?_, ?_, ?_, ?_, ?_, ?_⟩
  · exact getTimeLimit_withTimeLimit q _
  · intro h
    rw [getTimeLimit_withTimeLimit]
    exact (truncation_toward_zero q.GetTimeLimit).1 h
  · intro h
    rw [getTimeLimit_withTimeLimit]
    exact (truncation_toward_zero q.GetTimeLimit).2 h
  · rw [getTimeLimit_withTimeLimit]
    exact whole_milliseconds_iff q.GetTimeLimit
  · constructor
    · intro h
      have h3 := congrArg Questioner.GetTimeLimit h
      rw [getTimeLimit_withTimeLimit] at h3
      exact (whole_milliseconds_iff q.GetTimeLimit).1 h3
    · intro h
      rw [(whole_milliseconds_iff q.GetTimeLimit).2 h, withTimeLimit_self]
  · obtain ⟨_, h3⟩ := getQuestion_after_save J hJ db2
      (q.withTimeLimit (Int.tdiv q.GetTimeLimit 1000000 * 1000000))
      (by rw [getTimeLimit_withTimeLimit]; exact isInt64_truncation _ hd)
    rw [h3, getTimeLimit_withTimeLimit, withTimeLimit_withTimeLimit]
    have h4 : Duration.Milliseconds (Int.tdiv q.GetTimeLimit 1000000 * 1000000) * Millisecond =
        Int.tdiv q.GetTimeLimit 1000000 * 1000000 :=
      milliseconds_mul_cancel (Int.tdiv q.GetTimeLimit 1000000)
    rw [h4]

/-- C28 (witness): the fill-in question with a time limit of 1.5 ms comes back with 1 ms,
and the reloaded question survives a second round trip unchanged. -/
theorem C28_timeLimit_millisecond_truncation_witness :
    (∀ xs, goJSON.unmarshal (goJSON.marshal xs) = some xs) ∧
    isInt64 (Questioner.fillIn fiSubMilli).GetTimeLimit ∧
    GetQuestion goJSON (SaveQuestion goJSON emptyDB (some (.fillIn fiSubMilli))).2 "fi1" =
      .ok (.fillIn { fiSubMilli with TimeLimit := 1000000 }) ∧
    GetQuestion goJSON
        (SaveQuestion goJSON questionsDB
          (some (.fillIn { fiSubMilli with TimeLimit := 1000000 }))).2 "fi1" =
      .ok (.fillIn { fiSubMilli with TimeLimit := 1000000 }) ∧
    Int.tdiv (-1500000) 1000000 * 1000000 = -1000000 ∧
    ∃ loaded,
      GetQuestion goJSON (SaveQuestion goJSON emptyDB (some (.fillIn fiSubMilli))).2
          (Questioner.fillIn fiSubMilli).GetID = .ok loaded ∧
      loaded.GetTimeLimit = Int.tdiv (Questioner.fillIn fiSubMilli).GetTimeLimit 1000000 * 1000000 ∧
      (0 ≤ (Questioner.fillIn fiSubMilli).GetTimeLimit →
        0 ≤ loaded.GetTimeLimit ∧ loaded.GetTimeLimit ≤ (Questioner.fillIn fiSubMilli).GetTimeLimit ∧
        (Questioner.fillIn fiSubMilli).GetTimeLimit - loaded.GetTimeLimit < Millisecond) ∧
      ((Questioner.fillIn fiSubMilli).GetTimeLimit ≤ 0 →
        loaded.GetTimeLimit ≤ 0 ∧ (Questioner.fillIn fiSubMilli).GetTimeLimit ≤ loaded.GetTimeLimit ∧
        loaded.GetTimeLimit - (Questioner.fillIn fiSubMilli).GetTimeLimit < Millisecond) ∧
      (loaded.GetTimeLimit = (Questioner.fillIn fiSubMilli).GetTimeLimit ↔
        ∃ k : Int, (Questioner.fillIn fiSubMilli).GetTimeLimit = k * Millisecond) ∧
      (loaded = Questioner.fillIn fiSubMilli ↔
        ∃ k : Int, (Questioner.fillIn fiSubMilli).GetTimeLimit = k * Millisecond) ∧
      GetQuestion goJSON (SaveQuestion goJSON questionsDB (some loaded)).2 loaded.GetID =
        .ok loaded :=
  ⟨goJSON_roundtrip, by decide, by decide, by decide, by decide,
    C28_timeLimit_millisecond_truncation goJSON goJSON_roundtrip emptyDB questionsDB
      (.fillIn fiSubMilli) (by decide)⟩

/-! ## History, status and frame conditions of the session -/

theorem submitAnswer_cases (q : Quiz) (s : String) (t0 t1 : Time) :
    (∃ cur, q.accepting = some cur ∧
        q.SubmitAnswer s t0 t1 = .ok (cur.CheckAnswer s, q.afterSubmit cur s t0 t1)) ∨
      (q.accepting = none ∧
        (q.SubmitAnswer s t0 t1 = .ok (false, q) ∨
          q.SubmitAnswer s t0 t1 = .error .indexOutOfRange)) := by
  cases hacc : q.accepting with
  | some cur => exact Or.inl ⟨cur, rfl, (accepting_submit q cur hacc s t0 t1).1⟩
  | none =>
    right
    refine ⟨rfl, ?_⟩
    unfold Quiz.accepting at hacc
    unfold Quiz.SubmitAnswer
    split_ifs at hacc ⊢ with hg
    · exact Or.inl rfl
    · cases hq : q.CurrentQuestion with
      | error e =>
        right
        cases e
        rfl
      | ok r =>
        cases r with
        | none => exact Or.inl rfl
        | some c =>
          rw [hq] at hacc
          cases hacc

theorem accepting_unfold (q : Quiz) (cur : Questioner) (h : q.accepting = some cur) :
    (q.completed || decide (q.currentIndex ≥ (q.questions.length : Int))) = false ∧
      q.CurrentQuestion = .ok (some cur) := by
  unfold Quiz.accepting at h
  split_ifs at h with hg
  refine ⟨by simpa using hg, ?_⟩
  split at h
  · rename_i c hc
    rw [hc, Option.some.inj h]
  · cases h

theorem sliceIndex_mem {α : Type} (xs : List α) (i : Int) (x : α)
    (h : sliceIndex xs i = .ok x) : x ∈ xs := by
  unfold sliceIndex at h
  split_ifs at h with hneg
  cases hx : xs[i.toNat]? with
  | none => rw [hx] at h; cases h
  | some y =>
    rw [hx] at h
    injection h with h
    rw [← h]
    exact List.getElem?_mem hx

theorem accepting_facts (q : Quiz) (cur : Questioner) (h : q.accepting = some cur) :
    q.completed = false ∧ cur ∈ q.questions := by
  obtain ⟨hg, hq⟩ := accepting_unfold q cur h
  have hc : q.completed = false := by
    cases hcc : q.completed with
    | false => rfl
    | true => simp [hcc] at hg
  refine ⟨hc, ?_⟩
  unfold Quiz.CurrentQuestion at hq
  split_ifs at hq with hge
  · cases hq
  · cases hs : sliceIndex q.questions q.currentIndex with
    | error e => rw [hs] at hq; cases hq
    | ok x =>
      rw [hs] at hq
      injection hq with hq
      rw [← Option.some.inj hq]
      exact sliceIndex_mem q.questions q.currentIndex x hs

theorem nextQuestion_frame (q : Quiz) (now : Time) :
    (q.NextQuestion now).2.score = q.score ∧
      (q.NextQuestion now).2.correctCount = q.correctCount ∧
      (q.NextQuestion now).2.questionHistory = q.questionHistory ∧
      (q.NextQuestion now).2.questions = q.questions ∧
      (q.NextQuestion now).2.Id = q.Id ∧
      (q.NextQuestion now).2.startTime = q.startTime ∧
      (q.NextQuestion now).2.creationDate = q.creationDate := by
  unfold Quiz.NextQuestion
  split_ifs <;> exact ⟨rfl, rfl, rfl, rfl, rfl, rfl, rfl⟩

theorem step_questions (q q1 : Quiz) (c : Call) (h : q.step c = .ok q1) :
    q1.questions = q.questions := by
  cases c with
  | next now =>
    simp only [Quiz.step] at h
    injection h with h
    rw [← h]
    exact (nextQuestion_frame q now).2.2.2.1
  | submit answer t0 t1 =>
    rcases submitAnswer_cases q answer t0 t1 with ⟨cur, _, hs⟩ | ⟨_, hs | hs⟩
    · simp only [Quiz.step, hs] at h
      injection h with h
      rw [← h]
      rfl
    · simp only [Quiz.step, hs] at h
      injection h with h
      rw [← h]
    · simp only [Quiz.step, hs] at h
      cases h

theorem acceptedSubmissions_mem (cs : List Call) :
    ∀ q : Quiz, ∀ e ∈ q.acceptedSubmissions cs, e.1 ∈ q.questions := by
  induction cs with
  | nil => intro q e he; simp [Quiz.acceptedSubmissions] at he
  | cons c cs ih =>
    intro q e he
    unfold Quiz.acceptedSubmissions at he
    cases hs : q.step c with
    | error x => rw [hs] at he; simp at he
    | ok q1 =>
      rw [hs] at he
      have hq1 := step_questions q q1 c hs
      cases c with
      | next now =>
        simp only at he
        rw [← hq1]
        exact ih q1 e he
      | submit answer t0 t1 =>
        cases hacc : q.accepting with
        | none =>
          rw [hacc] at he
          simp only at he
          rw [← hq1]
          exact ih q1 e he
        | some cur =>
          rw [hacc] at he
          simp only at he
          rcases List.mem_cons.mp he with h1 | h1
          · rw [h1]
            exact (accepting_facts q cur hacc).2
          · rw [← hq1]
            exact ih q1 e h1

theorem exec_history (q q1 : Quiz) (o : Op) (h : q.exec o = .ok q1) :
    q1.questions = q.questions ∧
      ((∃ s t0 t1 cur, o = .submitAnswer s t0 t1 ∧ q.accepting = some cur ∧
          q1.questionHistory = q.questionHistory ++
            [{ QuestionID := cur.GetID, Correct := cur.CheckAnswer s, TimeTaken := t1 - t0 }]) ∨
        (((∀ s t0 t1, o ≠ .submitAnswer s t0 t1) ∨ q.accepting = none) ∧
          q1.questionHistory = q.questionHistory)) := by
  cases o with
  | currentQuestion =>
    have hq : q1 = q := by
      simp only [Quiz.exec] at h
      cases hc : q.CurrentQuestion with
      | ok r =>
        rw [hc] at h
        injection h with h
        exact h.symm
      | error e =>
        rw [hc] at h
        cases h
    rw [hq]
    exact ⟨rfl, Or.inr ⟨Or.inl (fun _ _ _ e => by cases e), rfl⟩⟩
  | progress =>
    have hq : q1 = q := by
      simp only [Quiz.exec] at h
      injection h with h
      exact h.symm
    rw [hq]
    exact ⟨rfl, Or.inr ⟨Or.inl (fun _ _ _ e => by cases e), rfl⟩⟩
  | nextQuestion now =>
    simp only [Quiz.exec] at h
    injection h with h
    rw [← h]
    exact ⟨(nextQuestion_frame q now).2.2.2.1,
      Or.inr ⟨Or.inl (fun _ _ _ e => by cases e), (nextQuestion_frame q now).2.2.1⟩⟩
  | submitAnswer answer t0 t1 =>
    rcases submitAnswer_cases q answer t0 t1 with ⟨cur, hacc, hs⟩ | ⟨hacc, hs | hs⟩
    · simp only [Quiz.exec, hs] at h
      injection h with h
      rw [← h]
      exact ⟨rfl, Or.inl ⟨answer, t0, t1, cur, rfl, hacc, rfl⟩⟩
    · simp only [Quiz.exec, hs] at h
      injection h with h
      rw [← h]
      exact ⟨rfl, Or.inr ⟨Or.inr hacc, rfl⟩⟩
    · simp only [Quiz.exec, hs] at h
      cases h

/-- C25: the history is append-only. For every session and every call of `SubmitAnswer`,
`NextQuestion`, `CurrentQuestion` or `Progress` that returns, the history before is a
prefix of the history after: a `SubmitAnswer` in a session that accepts submissions
appends exactly one entry (the id of the current question and the verdict), every other
call leaves the history as it is; every call returns when `currentIndex ≥ 0`. Hence in
every session reached from `NewQuiz` the history has as many entries as submissions were
accepted, and the `QuestionID` of every entry is the id of a question of the session. -/
theorem C25_history_append_only (q : Quiz) (o : Op) (id : String) (qs : List Questioner)
    (now1 now2 : Time) (cs : List Call) :
    (∀ q1, q.exec o = .ok q1 →
      q.questionHistory <+: q1.questionHistory ∧
      ((∃ s t0 t1 cur, o = .submitAnswer s t0 t1 ∧ q.accepting = some cur ∧
          q1.questionHistory = q.questionHistory ++
            [{ QuestionID := cur.GetID, Correct := cur.CheckAnswer s, TimeTaken := t1 - t0 }] ∧
          q1.questionHistory.length = q.questionHistory.length + 1) ∨
        (((∀ s t0 t1, o ≠ .submitAnswer s t0 t1) ∨ q.accepting = none) ∧
          q1.questionHistory = q.questionHistory))) ∧
    (0 ≤ q.currentIndex → ∃ q1, q.exec o = .ok q1) ∧
    (∃ qf, (NewQuiz id qs now1 now2).run cs = .ok qf ∧
      qf.questions = qs ∧
      qf.questionHistory.length = ((NewQuiz id qs now1 now2).acceptedSubmissions cs).length ∧
      ∀ r ∈ qf.questionHistory, ∃ x ∈ qf.questions, x.GetID = r.QuestionID) := by
  refine ⟨?_, ?_, ?_⟩
  · intro q1 h
    obtain ⟨_, hh⟩ := exec_history q q1 o h
    rcases hh with ⟨s, t0, t1, cur, ho, hacc, hq⟩ | ⟨hc, hq⟩
    · refine ⟨?_, Or.inl ⟨s, t0, t1, cur, ho, hacc, hq, ?_⟩⟩
      · rw [hq]
        exact List.prefix_append _ _
      · rw [hq]
        simp
    · refine ⟨?_, Or.inr ⟨hc, hq⟩⟩
      rw [hq]
  · intro h0
    obtain ⟨q1, h1, _⟩ := exec_returns q o h0
    exact ⟨q1, h1⟩
  · obtain ⟨qf, hr, _, _, _, hh⟩ := run_bookkeeping cs (NewQuiz id qs now1 now2) (le_refl _)
      (by show isInt64 (0 : Int); decide) (by show isInt64 (0 : Int); decide)
    have hh2 : qf.questionHistory.map (fun r => (r.QuestionID, r.Correct)) =
        ((NewQuiz id qs now1 now2).acceptedSubmissions cs).map (fun e => (e.1.GetID, e.2)) := by
      simpa [NewQuiz] using hh
    have hqs : ∀ cs2 : List Call, ∀ qa qb : Quiz, qa.run cs2 = .ok qb →
        qb.questions = qa.questions := by
      intro cs2
      induction cs2 with
      | nil =>
        intro qa qb h
        simp only [Quiz.run] at h
        injection h with h
        rw [h]
      | cons c cs2 ih =>
        intro qa qb h
        cases hs : qa.step c with
        | error e => simp only [Quiz.run, hs] at h; cases h
        | ok qm =>
          rw [run_cons_ok qa qm c cs2 hs] at h
          rw [ih qm qb h, step_questions qa qm c hs]
    have hq : qf.questions = qs := hqs cs _ qf hr
    refine ⟨qf, hr, hq, ?_, ?_⟩
    · have := congrArg List.length hh2
      simpa using this
    · intro r hr2
      have hm : (r.QuestionID, r.Correct) ∈
          qf.questionHistory.map (fun r => (r.QuestionID, r.Correct)) :=
        List.mem_map.mpr ⟨r, hr2, rfl⟩
      rw [hh2] at hm
      obtain ⟨e, he, heq⟩ := List.mem_map.mp hm
      have hmem := acceptedSubmissions_mem cs (NewQuiz id qs now1 now2) e he
      refine ⟨e.1, ?_, ?_⟩
      · rw [hq]
        exact hmem
      · exact (Prod.mk.inj heq).1

/-- C25 (witness): the fresh session of the tests: an accepted submission appends one
entry, and `NextQuestion` leaves the history as it is. -/
theorem C25_history_append_only_witness :
    (0 ≤ testQuiz.currentIndex ∧ ∃ q1, testQuiz.exec (.submitAnswer "4" 1 2) = .ok q1) ∧
    (testQuiz.exec (.submitAnswer "4" 1 2) = .ok (testQuiz.afterSubmit (.multiChoice mc1) "4" 1 2) ∧
      testQuiz.questionHistory <+: (testQuiz.afterSubmit (.multiChoice mc1) "4" 1 2).questionHistory ∧
      (testQuiz.afterSubmit (.multiChoice mc1) "4" 1 2).questionHistory =
        [{ QuestionID := "mc1", Correct := true, TimeTaken := 1 }]) ∧
    (testQuiz.exec (.nextQuestion 5) = .ok (testQuiz.NextQuestion 5).2 ∧
      (testQuiz.NextQuestion 5).2.questionHistory = testQuiz.questionHistory) :=
  ⟨⟨by decide,
      (C25_history_append_only testQuiz (.submitAnswer "4" 1 2) "quiz1" createTestQuestions 0 0
        []).2.1 (by decide)⟩,
    ⟨by decide,
      ((C25_history_append_only testQuiz (.submitAnswer "4" 1 2) "quiz1" createTestQuestions 0 0
        []).1 (testQuiz.afterSubmit (.multiChoice mc1) "4" 1 2) (by decide)).1,
      by decide⟩,
    by decide⟩

/-- C27: frame conditions. For every session, a `SubmitAnswer` call that returns leaves
`currentIndex`, `completed`, the stored `timeTaken`, `startTime` and the question list (and
the id and creation date) as they were, and it returns whenever `currentIndex ≥ 0`;
`NextQuestion` leaves `score`, `correctCount`, the history and the question list (and the
id, start time and creation date) as they were. -/
theorem C27_frame_conditions (q : Quiz) (s : String) (t0 t1 now : Time) :
    (∀ r, q.SubmitAnswer s t0 t1 = .ok r →
      r.2.currentIndex = q.currentIndex ∧ r.2.completed = q.completed ∧
      r.2.timeTaken = q.timeTaken ∧ r.2.startTime = q.startTime ∧
      r.2.questions = q.questions ∧ r.2.Id = q.Id ∧ r.2.creationDate = q.creationDate) ∧
    (0 ≤ q.currentIndex → ∃ r, q.SubmitAnswer s t0 t1 = .ok r) ∧
    ((q.NextQuestion now).2.score = q.score ∧
      (q.NextQuestion now).2.correctCount = q.correctCount ∧
      (q.NextQuestion now).2.questionHistory = q.questionHistory ∧
      (q.NextQuestion now).2.questions = q.questions ∧
      (q.NextQuestion now).2.Id = q.Id ∧
      (q.NextQuestion now).2.startTime = q.startTime ∧
      (q.NextQuestion now).2.creationDate = q.creationDate) := by
  refine ⟨?_, ?_, nextQuestion_frame q now⟩
  · intro r h
    rcases submitAnswer_cases q s t0 t1 with ⟨cur, _, hs⟩ | ⟨_, hs | hs⟩
    · rw [hs] at h
      injection h with h
      rw [← h]
      exact ⟨rfl, rfl, rfl, rfl, rfl, rfl, rfl⟩
    · rw [hs] at h
      injection h with h
      rw [← h]
      exact ⟨rfl, rfl, rfl, rfl, rfl, rfl, rfl⟩
    · rw [hs] at h
      cases h
  · intro h0
    rcases accepting_cases q h0 with ⟨cur, hacc⟩ | ⟨_, hrej⟩
    · exact ⟨_, (accepting_submit q cur hacc s t0 t1).1⟩
    · exact ⟨_, submitAnswer_rejected q s t0 t1 hrej⟩

/-- C27 (witness): the fresh session of the tests and the answer "4". -/
theorem C27_frame_conditions_witness :
    (0 ≤ testQuiz.currentIndex ∧
      testQuiz.SubmitAnswer "4" 1 2 = .ok (true, testQuiz.afterSubmit (.multiChoice mc1) "4" 1 2)) ∧
    ((testQuiz.afterSubmit (.multiChoice mc1) "4" 1 2).currentIndex = testQuiz.currentIndex ∧
      (testQuiz.afterSubmit (.multiChoice mc1) "4" 1 2).completed = testQuiz.completed ∧
      (testQuiz.afterSubmit (.multiChoice mc1) "4" 1 2).timeTaken = testQuiz.timeTaken ∧
      (testQuiz.afterSubmit (.multiChoice mc1) "4" 1 2).startTime = testQuiz.startTime ∧
      (testQuiz.afterSubmit (.multiChoice mc1) "4" 1 2).questions = testQuiz.questions ∧
      (testQuiz.afterSubmit (.multiChoice mc1) "4" 1 2).Id = testQuiz.Id ∧
      (testQuiz.afterSubmit (.multiChoice mc1) "4" 1 2).creationDate = testQuiz.creationDate) ∧
    (∃ r, testQuiz.SubmitAnswer "4" 1 2 = .ok r) :=
  ⟨by decide,
    (C27_frame_conditions testQuiz "4" 1 2 5).1
      (true, testQuiz.afterSubmit (.multiChoice mc1) "4" 1 2) (by decide),
    (C27_frame_conditions testQuiz "4" 1 2 5).2.1 (by decide)⟩

theorem step_status_invariant (q : Quiz) (c : Call) (h0 : 0 ≤ q.currentIndex)
    (hiff : q.completed = true ↔ q.status = FINISHED)
    (hend : q.completed = true → q.currentIndex ≥ (q.questions.length : Int) - 1) :
    ∃ q1, q.step c = .ok q1 ∧ 0 ≤ q1.currentIndex ∧
      (q1.completed = true ↔ q1.status = FINISHED) ∧
      (q1.completed = true → q1.currentIndex ≥ (q1.questions.length : Int) - 1) ∧
      (q.completed = true → q1.status = q.status ∧ q1.completed = q.completed) := by
  cases c with
  | next now =>
    refine ⟨(q.NextQuestion now).2, rfl, ?_⟩
    by_cases h : q.currentIndex ≥ (q.questions.length : Int) - 1
    · rw [nextQuestion_finish q now h]
      refine ⟨h0, ⟨fun _ => rfl, fun _ => rfl⟩, fun _ => h, ?_⟩
      intro hc
      exact ⟨(hiff.mp hc).symm, hc.symm⟩
    · have hnc : q.completed = false := by
        cases hc : q.completed with
        | false => rfl
        | true => exact absurd (hend hc) h
      rw [nextQuestion_advance q now (by omega)]
      refine ⟨by show 0 ≤ q.currentIndex + 1; omega, ⟨?_, ?_⟩, ?_, ?_⟩
      · intro hc
        have : q.completed = true := hc
        rw [hnc] at this
        cases this
      · intro hs
        have : AWAITING_ANSWER = FINISHED := hs
        exact absurd this (by decide)
      · intro hc
        have : q.completed = true := hc
        rw [hnc] at this
        cases this
      · intro hc
        rw [hnc] at hc
        cases hc
  | submit answer t0 t1 =>
    rcases accepting_cases q h0 with ⟨cur, hacc⟩ | ⟨_, hrej⟩
    · obtain ⟨hs, _⟩ := accepting_submit q cur hacc answer t0 t1
      have hnc : q.completed = false := (accepting_facts q cur hacc).1
      refine ⟨q.afterSubmit cur answer t0 t1, by simp only [Quiz.step, hs], h0, ⟨?_, ?_⟩, ?_, ?_⟩
      · intro hc
        have : q.completed = true := hc
        rw [hnc] at this
        cases this
      · intro hst
        have : ANSWERED = FINISHED := hst
        exact absurd this (by decide)
      · intro hc
        have : q.completed = true := hc
        rw [hnc] at this
        cases this
      · intro hc
        rw [hnc] at hc
        cases hc
    · have hs := submitAnswer_rejected q answer t0 t1 hrej
      exact ⟨q, by simp only [Quiz.step, hs], h0, hiff, hend, fun _ => ⟨rfl, rfl⟩⟩

theorem run_status_invariant (cs : List Call) :
    ∀ q : Quiz, 0 ≤ q.currentIndex → (q.completed = true ↔ q.status = FINISHED) →
      (q.completed = true → q.currentIndex ≥ (q.questions.length : Int) - 1) →
      ∃ q1, q.run cs = .ok q1 ∧ 0 ≤ q1.currentIndex ∧
        (q1.completed = true ↔ q1.status = FINISHED) ∧
        (q1.completed = true → q1.currentIndex ≥ (q1.questions.length : Int) - 1) ∧
        (q.completed = true → q1.status = q.status ∧ q1.completed = q.completed) := by
  induction cs with
  | nil => intro q h0 hiff hend; exact ⟨q, rfl, h0, hiff, hend, fun _ => ⟨rfl, rfl⟩⟩
  | cons c cs ih =>
    intro q h0 hiff hend
    obtain ⟨q1, hs, h01, hiff1, hend1, hterm1⟩ := step_status_invariant q c h0 hiff hend
    obtain ⟨q2, hr, h02, hiff2, hend2, hterm2⟩ := ih q1 h01 hiff1 hend1
    refine ⟨q2, by rw [run_cons_ok q q1 c cs hs, hr], h02, hiff2, hend2, ?_⟩
    intro hc
    obtain ⟨hs1, hc1⟩ := hterm1 hc
    obtain ⟨hs2, hc2⟩ := hterm2 (hc1.trans hc)
    exact ⟨hs2.trans hs1, hc2.trans hc1⟩

/-- C26: for every question list and every sequence of `SubmitAnswer` and `NextQuestion`
calls from `NewQuiz`, the calls return and in the session reached `completed` is true if
and only if the status is FINISHED; and if it is completed, every further sequence of
`SubmitAnswer` and `NextQuestion` calls returns and leaves the status FINISHED and
`completed` true. -/
theorem C26_completed_iff_finished (id : String) (qs : List Questioner) (now1 now2 : Time)
    (cs : List Call) :
    ∃ q, (NewQuiz id qs now1 now2).run cs = .ok q ∧
      (q.completed = true ↔ q.status = FINISHED) ∧
      (q.completed = true →
        ∀ cs2 : List Call, ∃ q2, q.run cs2 = .ok q2 ∧ q2.status = FINISHED ∧
          q2.completed = true ∧ q2.status = q.status ∧ q2.completed = q.completed) := by
  have hinit : (NewQuiz id qs now1 now2).completed = true ↔
      (NewQuiz id qs now1 now2).status = FINISHED := by
    constructor
    · intro h
      cases h
    · intro h
      have : STARTED = FINISHED := h
      exact absurd this (by decide)
  obtain ⟨q, hr, h0, hiff, hend, _⟩ :=
    run_status_invariant cs (NewQuiz id qs now1 now2) (le_refl _) hinit (fun h => by cases h)
  refine ⟨q, hr, hiff, ?_⟩
  intro hc cs2
  obtain ⟨q2, hr2, _, _, _, hterm⟩ := run_status_invariant cs2 q h0 hiff hend
  obtain ⟨hs2, hc2⟩ := hterm hc
  exact ⟨q2, hr2, hs2.trans (hiff.mp hc), hc2.trans hc, hs2, hc2⟩

/-- C26 (witness): the session of the tests completed by three advances, then an answer
and two more advances: status FINISHED and `completed` true throughout. -/
theorem C26_completed_iff_finished_witness :
    ((NewQuiz "quiz1" createTestQuestions 0 0).run [.next 1, .next 2, .next 3]).map
        (fun q => (q.completed, q.status)) = .ok (true, FINISHED) ∧
    ((NewQuiz "quiz1" createTestQuestions 0 0).run
        [.next 1, .next 2, .next 3, .submit "Paris" 4 5, .next 6, .next 7]).map
        (fun q => (q.completed, q.status)) = .ok (true, FINISHED) ∧
    ∃ q, (NewQuiz "quiz1" createTestQuestions 0 0).run [.next 1, .next 2, .next 3] = .ok q ∧
      (q.completed = true ↔ q.status = FINISHED) ∧
      (q.completed = true →
        ∀ cs2 : List Call, ∃ q2, q.run cs2 = .ok q2 ∧ q2.status = FINISHED ∧
          q2.completed = true ∧ q2.status = q.status ∧ q2.completed = q.completed) :=
  ⟨by decide, by decide,
    C26_completed_iff_finished "quiz1" createTestQuestions 0 0 [.next 1, .next 2, .next 3]⟩

/-! ## The stores the adapters produce keep child rows under stored quizzes -/

theorem quizKeysHold_iff (db : DB) :
    db.quizKeysHold = true ↔
      (∀ r ∈ db.quiz_questions, ∃ z ∈ db.quizzes, z.id = r.quiz_id) ∧
        (∀ r ∈ db.quiz_history, ∃ z ∈ db.quizzes, z.id = r.quiz_id) := by
  simp only [DB.quizKeysHold, Bool.and_eq_true, List.all_eq_true, List.any_eq_true, beq_iff_eq]

theorem upsertQuizRow_keeps_ids (rows : List QuizRow) (r : QuizRow) :
    (∀ z ∈ rows, ∃ z1 ∈ upsertQuizRow rows r, z1.id = z.id) ∧
      (∃ z1 ∈ upsertQuizRow rows r, z1.id = r.id) := by
  unfold upsertQuizRow
  split_ifs with h
  · constructor
    · intro z hz
      by_cases hzr : z.id = r.id
      · refine ⟨_, List.mem_map.mpr ⟨z, hz, rfl⟩, ?_⟩
        simp [hzr]
      · refine ⟨_, List.mem_map.mpr ⟨z, hz, rfl⟩, ?_⟩
        simp [hzr]
    · rw [List.any_eq_true] at h
      obtain ⟨z, hz, hzr⟩ := h
      have hzr2 : z.id = r.id := by simpa using hzr
      refine ⟨_, List.mem_map.mpr ⟨z, hz, rfl⟩, ?_⟩
      simp [hzr2]
  · constructor
    · intro z hz
      exact ⟨z, List.mem_append_left _ hz, rfl⟩
    · exact ⟨r, by simp, rfl⟩

theorem insertQuizQuestions_mem (quizId : String) (qs : List Questioner) :
    ∀ rows rows1 : List QuizQuestionRow, insertQuizQuestions quizId rows qs = .ok rows1 →
      ∀ r ∈ rows1, r ∈ rows ∨ r.quiz_id = quizId := by
  induction qs with
  | nil =>
    intro rows rows1 h r hr
    simp only [insertQuizQuestions] at h
    injection h with h
    rw [← h] at hr
    exact Or.inl hr
  | cons q rest ih =>
    intro rows rows1 h r hr
    unfold insertQuizQuestions insertQuizQuestion at h
    split_ifs at h with hany
    rcases ih _ rows1 h r hr with h1 | h1
    · rcases List.mem_append.mp h1 with h2 | h2
      · exact Or.inl h2
      · right
        rw [List.mem_singleton.mp h2]
    · exact Or.inr h1

theorem insertQuizHistories_mem (quizId : String) (hs : List QuestionResult) :
    ∀ rows rows1 : List QuizHistoryRow, insertQuizHistories quizId rows hs = .ok rows1 →
      ∀ r ∈ rows1, r ∈ rows ∨ r.quiz_id = quizId := by
  induction hs with
  | nil =>
    intro rows rows1 h r hr
    simp only [insertQuizHistories] at h
    injection h with h
    rw [← h] at hr
    exact Or.inl hr
  | cons x rest ih =>
    intro rows rows1 h r hr
    unfold insertQuizHistories insertQuizHistory at h
    split_ifs at h with hany
    rcases ih _ rows1 h r hr with h1 | h1
    · rcases List.mem_append.mp h1 with h2 | h2
      · exact Or.inl h2
      · right
        rw [List.mem_singleton.mp h2]
    · exact Or.inr h1

theorem saveQuiz_quizKeysHold (db : DB) (q : Quiz) (now : Time)
    (h : db.quizKeysHold = true) : (SaveQuiz db q now).2.quizKeysHold = true := by
  unfold SaveQuiz
  cases hs : saveQuizTx db q now with
  | error e => exact h
  | ok db1 =>
    simp only
    rw [quizKeysHold_iff] at h ⊢
    unfold saveQuizTx at hs
    simp only at hs
    cases hq : insertQuizQuestions q.Id
        (db.quiz_questions.filter (fun r => !(r.quiz_id == q.Id))) q.GetQuestions with
    | error e => rw [hq] at hs; cases hs
    | ok rowsQ =>
      rw [hq] at hs
      simp only at hs
      cases hh : insertQuizHistories q.Id
          (db.quiz_history.filter (fun r => !(r.quiz_id == q.Id))) q.GetQuestionHistory with
      | error e => rw [hh] at hs; cases hs
      | ok rowsH =>
        rw [hh] at hs
        injection hs with hs
        rw [← hs]
        obtain ⟨hkeep, hnew⟩ := upsertQuizRow_keeps_ids db.quizzes
          { id := q.Id, status := q.GetStatus, current_index := q.GetCurrentIndex,
            score := q.GetScore, completed := q.IsCompleted, start_time := q.GetStartTime,
            creation_date := q.GetCreationDate,
            time_taken := Duration.Milliseconds (q.GetTimeTaken now),
            correct_count := q.GetCorrectCount }
        constructor
        · intro r hr
          rcases insertQuizQuestions_mem q.Id q.GetQuestions _ rowsQ hq r hr with h1 | h1
          · obtain ⟨z, hz, hzr⟩ := h.1 r (List.mem_filter.mp h1).1
            obtain ⟨z1, hz1, hz1z⟩ := hkeep z hz
            exact ⟨z1, hz1, hz1z.trans hzr⟩
          · obtain ⟨z1, hz1, hz1z⟩ := hnew
            exact ⟨z1, hz1, hz1z.trans h1.symm⟩
        · intro r hr
          rcases insertQuizHistories_mem q.Id q.GetQuestionHistory _ rowsH hh r hr with h1 | h1
          · obtain ⟨z, hz, hzr⟩ := h.2 r (List.mem_filter.mp h1).1
            obtain ⟨z1, hz1, hz1z⟩ := hkeep z hz
            exact ⟨z1, hz1, hz1z.trans hzr⟩
          · obtain ⟨z1, hz1, hz1z⟩ := hnew
            exact ⟨z1, hz1, hz1z.trans h1.symm⟩

theorem deleteQuiz_quizKeysHold (db : DB) (id : String) (h : db.quizKeysHold = true) :
    (DeleteQuiz db id).2.quizKeysHold = true := by
  rw [quizKeysHold_iff] at h ⊢
  constructor
  · intro r hr
    obtain ⟨hr1, hr2⟩ := List.mem_filter.mp hr
    obtain ⟨z, hz, hzr⟩ := h.1 r hr1
    refine ⟨z, List.mem_filter.mpr ⟨hz, ?_⟩, hzr⟩
    rw [hzr]
    exact hr2
  · intro r hr
    obtain ⟨hr1, hr2⟩ := List.mem_filter.mp hr
    obtain ⟨z, hz, hzr⟩ := h.2 r hr1
    refine ⟨z, List.mem_filter.mpr ⟨hz, ?_⟩, hzr⟩
    rw [hzr]
    exact hr2

theorem saveQuestion_quizKeysHold (J : JSONCodec) (db : DB) (q : Option Questioner)
    (h : db.quizKeysHold = true) : (SaveQuestion J db q).2.quizKeysHold = true := by
  cases q with
  | none => exact h
  | some q => cases q <;> exact h

theorem deleteQuestion_quizKeysHold (db : DB) (id : String) (h : db.quizKeysHold = true) :
    (DeleteQuestion db id).2.quizKeysHold = true := h

theorem emptyDB_quizKeysHold : emptyDB.quizKeysHold = true := rfl

end Quizine
